import Mathlib

/-! halcyon_net: Buffer, Channel, EventLoop, PollPoller, TimerQueue, Connector,
TcpConnection, Acceptor, EventLoopThreadPool.

A shallow embedding of the reactor core of the library (namespace
ephemeral::net in the C++ source) together with theorems about it.
Stateful member functions become functions on explicit state records;
size_t values are natural numbers with explicit reduction modulo 2^64;
assertions of the source are stated as separate preconditions and
postconditions, the functions themselves follow the release behaviour.
-/

namespace Ephemeral.Net

/-! ## buffer.h -/

/-- One element of the underlying std::vector<char>. -/
abbrev Byte := UInt8

/-- The modulus of size_t arithmetic on a 64-bit platform. -/
def sizeMod : Nat := 18446744073709551616

/-- Addition of two size_t values. -/
def addSz (a b : Nat) : Nat := (a + b) % sizeMod

/-- Subtraction of two size_t values (wraps around below zero). -/
def subSz (a b : Nat) : Nat := (a % sizeMod + sizeMod - b % sizeMod) % sizeMod

/-- Buffer::initialSize. -/
def initialSize : Nat := 1024

/-- Buffer::initialPerpend. -/
def initialPerpend : Nat := 8

/-- The data members of class Buffer. -/
structure Buffer where
  m_buffer : List Byte
  m_readerIndex : Nat
  m_writerIndex : Nat
deriving DecidableEq, Repr

/-- The call std::vector<char>::resize(n): truncate, or pad with zero bytes. -/
def vecResize (buf : List Byte) (n : Nat) : List Byte :=
  buf.take n ++ List.replicate (n - buf.length) 0

/-- The call std::copy(data, data + len, begin() + dest) for a source range
outside the vector: the elements are assigned one by one in ascending order. -/
def copyIn (buf : List Byte) (dest : Nat) : List Byte → List Byte
  | [] => buf
  | x :: xs => copyIn (buf.set dest x) (dest + 1) xs

/-- The call std::copy(begin() + first, begin() + first + n, begin() + dest)
inside one vector: element by element in ascending order, so a later read sees
an earlier write when the ranges overlap. -/
def copyWithin (buf : List Byte) (first dest : Nat) : Nat → List Byte
  | 0 => buf
  | n + 1 => copyWithin (buf.set dest (buf.getD first 0)) (first + 1) (dest + 1) n

namespace Buffer

/-- The constructor Buffer(). -/
def ctor : Buffer :=
  { m_buffer := List.replicate (initialPerpend + initialSize) 0
    m_readerIndex := initialPerpend
    m_writerIndex := initialPerpend }

/-- Buffer::swap: the pair is (this, rhs) after the call. -/
def swap (b rhs : Buffer) : Buffer × Buffer :=
  ({ m_buffer := rhs.m_buffer, m_readerIndex := rhs.m_readerIndex,
     m_writerIndex := rhs.m_writerIndex },
   { m_buffer := b.m_buffer, m_readerIndex := b.m_readerIndex,
     m_writerIndex := b.m_writerIndex })

/-- Buffer::readableBytes. -/
def readableBytes (b : Buffer) : Nat := subSz b.m_writerIndex b.m_readerIndex

/-- Buffer::writableBytes. -/
def writableBytes (b : Buffer) : Nat := subSz b.m_buffer.length b.m_writerIndex

/-- Buffer::prependableBytes. -/
def prependableBytes (b : Buffer) : Nat := b.m_readerIndex

/-- Buffer::peek: the bytes from the read position to the end of the vector. -/
def peek (b : Buffer) : List Byte := b.m_buffer.drop b.m_readerIndex

/-- The readable byte sequence peek()[0 .. readableBytes()). -/
def readable (b : Buffer) : List Byte := (peek b).take (readableBytes b)

/-- Buffer::retrieve (the assertion len <= readableBytes() is retrieve_pre). -/
def retrieve (b : Buffer) (len : Nat) : Buffer :=
  { b with m_readerIndex := addSz b.m_readerIndex len }

/-- The assertion at the head of Buffer::retrieve. -/
def retrieve_pre (b : Buffer) (len : Nat) : Prop := len ≤ readableBytes b

/-- Buffer::reset. -/
def reset (b : Buffer) : Buffer :=
  { b with m_readerIndex := initialPerpend, m_writerIndex := initialPerpend }

/-- Buffer::retrieveAsString: the returned string and the buffer afterwards. -/
def retrieveAsString (b : Buffer) : List Byte × Buffer :=
  ((peek b).take (readableBytes b), reset b)

/-- Buffer::resize (private); the number of elements of the std::copy is the
distance between the two source iterators. -/
def resize (b : Buffer) (len : Nat) : Buffer :=
  if addSz (writableBytes b) (prependableBytes b) < addSz len initialPerpend then
    { b with m_buffer := vecResize b.m_buffer (addSz b.m_writerIndex len) }
  else
    let readable := readableBytes b
    { m_buffer := copyWithin b.m_buffer b.m_readerIndex initialPerpend
        (b.m_writerIndex - b.m_readerIndex)
      m_readerIndex := initialPerpend
      m_writerIndex := addSz initialPerpend readable }

/-- Buffer::ensureWritableBytes (its closing assertion is a theorem below). -/
def ensureWritableBytes (b : Buffer) (len : Nat) : Buffer :=
  if writableBytes b < len then resize b len else b

/-- Buffer::hasWritten. -/
def hasWritten (b : Buffer) (len : Nat) : Buffer :=
  { b with m_writerIndex := addSz b.m_writerIndex len }

/-- Buffer::append(const char* data, size_t len) with len the length of data. -/
def append (b : Buffer) (data : List Byte) : Buffer :=
  let b1 := ensureWritableBytes b data.length
  let b2 := { b1 with m_buffer := copyIn b1.m_buffer b1.m_writerIndex data }
  hasWritten b2 data.length

/-- The assertion at the head of Buffer::prepend. -/
def prepend_pre (b : Buffer) (data : List Byte) : Prop :=
  data.length ≤ prependableBytes b

/-- Buffer::prepend with len the length of data. -/
def prepend (b : Buffer) (data : List Byte) : Buffer :=
  let r := subSz b.m_readerIndex data.length
  { b with m_readerIndex := r, m_buffer := copyIn b.m_buffer r data }

/-- Buffer::shrink: a new vector is filled and swapped in; the two indices are
left as they are. -/
def shrink (b : Buffer) (reserve : Nat) : Buffer :=
  let buf : List Byte :=
    List.replicate (addSz (addSz initialPerpend (readableBytes b)) reserve) 0
  { b with m_buffer := copyIn buf initialPerpend (readable b) }

/-- The index invariant of the data model: initialPerpend <= readerIndex <=
writerIndex <= size, with readableBytes() the difference of the two indices. -/
def IndexInv (b : Buffer) : Prop :=
  initialPerpend ≤ b.m_readerIndex ∧ b.m_readerIndex ≤ b.m_writerIndex ∧
  b.m_writerIndex ≤ b.m_buffer.length ∧
  readableBytes b = b.m_writerIndex - b.m_readerIndex

/-- A request of len bytes on b stays inside size_t: the vector, the request
and the reserved front region together are below 2^64. -/
def Fits (b : Buffer) (len : Nat) : Prop :=
  b.m_buffer.length + len + initialPerpend < sizeMod

instance (b : Buffer) : Decidable (IndexInv b) := by
  unfold IndexInv; infer_instance

instance (b : Buffer) (len : Nat) : Decidable (Fits b len) := by
  unfold Fits; infer_instance

instance (b : Buffer) (len : Nat) : Decidable (retrieve_pre b len) := by
  unfold retrieve_pre; infer_instance

instance (b : Buffer) (data : List Byte) : Decidable (prepend_pre b data) := by
  unfold prepend_pre; infer_instance

/-- A small buffer with three readable bytes at positions 10, 11 and 12 of a
vector of 16, used to evaluate the operations. -/
def sample : Buffer :=
  { m_buffer := [0, 0, 0, 0, 0, 0, 0, 0, 0, 0, 7, 8, 9, 0, 0, 0]
    m_readerIndex := 10
    m_writerIndex := 13 }

/-- The buffers reachable from the constructor by the public operations, each
called with its precondition met. The flags say whether prepend and shrink
belong to the operations used. -/
inductive Reach (usePrepend useShrink : Bool) : Buffer → Prop
  | ctor : Reach usePrepend useShrink ctor
  | append (b : Buffer) (data : List Byte) :
      Reach usePrepend useShrink b → Fits b data.length →
      Reach usePrepend useShrink (append b data)
  | retrieve (b : Buffer) (len : Nat) :
      Reach usePrepend useShrink b → retrieve_pre b len →
      Reach usePrepend useShrink (retrieve b len)
  | reset (b : Buffer) :
      Reach usePrepend useShrink b → Reach usePrepend useShrink (reset b)
  | retrieveAsString (b : Buffer) :
      Reach usePrepend useShrink b → Reach usePrepend useShrink (retrieveAsString b).2
  | ensureWritableBytes (b : Buffer) (len : Nat) :
      Reach usePrepend useShrink b → Fits b len →
      Reach usePrepend useShrink (ensureWritableBytes b len)
  | hasWritten (b : Buffer) (len : Nat) :
      Reach usePrepend useShrink b → len ≤ writableBytes b →
      Reach usePrepend useShrink (hasWritten b len)
  | prepend (b : Buffer) (data : List Byte) :
      usePrepend = true → Reach usePrepend useShrink b → prepend_pre b data →
      Reach usePrepend useShrink (prepend b data)
  | shrink (b : Buffer) (reserve : Nat) :
      useShrink = true → Reach usePrepend useShrink b →
      b.m_buffer.length + reserve + initialPerpend < sizeMod →
      Reach usePrepend useShrink (shrink b reserve)
  | swap_this (b rhs : Buffer) :
      Reach usePrepend useShrink b → Reach usePrepend useShrink rhs →
      Reach usePrepend useShrink (swap b rhs).1
  | swap_rhs (b rhs : Buffer) :
      Reach usePrepend useShrink b → Reach usePrepend useShrink rhs →
      Reach usePrepend useShrink (swap b rhs).2

end Buffer

/-! ## channel.h, channel.cpp -/

/-- EventType::EVENT_TYPE_NONE. -/
def EVENT_TYPE_NONE : Int := 0x0000

/-- EventType::EVENT_TYPE_READ. -/
def EVENT_TYPE_READ : Int := 0x0001

/-- EventType::EVENT_TYPE_WRITE. -/
def EVENT_TYPE_WRITE : Int := 0x0002

/-- EventType::EVENT_TYPE_ERROR. -/
def EVENT_TYPE_ERROR : Int := 0x0004

/-- EventType::EVENT_TYPE_CLOSE. -/
def EVENT_TYPE_CLOSE : Int := 0x0008

/-- The four callback slots of a Channel; a dispatch is described by the list
of slots it invokes, in order. -/
inductive Callback where
  | read
  | write
  | error
  | close
deriving DecidableEq, Repr

/-- The data members of class Channel. A callback member is represented by
whether the std::function holds a target; tieAlive is whether m_tie.lock()
yields an owner. -/
structure Channel where
  m_fd : Int
  m_events : Int := 0
  m_revents : Int := 0
  m_index : Int := -1
  m_eventHandling : Bool := false
  m_isTie : Bool := false
  tieAlive : Bool := false
  m_readCallback : Bool := false
  m_writeCallback : Bool := false
  m_errorCallback : Bool := false
  m_closeCallback : Bool := false
deriving DecidableEq, Repr

namespace Channel

/-- Channel::setRevents. -/
def setRevents (c : Channel) (revent : Int) : Channel := { c with m_revents := revent }

/-- Channel::setIndex. -/
def setIndex (c : Channel) (idx : Int) : Channel := { c with m_index := idx }

/-- Channel::isNoneEvent. -/
def isNoneEvent (c : Channel) : Bool := c.m_events == EVENT_TYPE_NONE

/-- Channel::handleEventWithGuard: the channel afterwards and the callbacks
invoked, in order. -/
def handleEventWithGuard (c : Channel) : Channel × List Callback :=
  let t1 := if Int.land c.m_revents EVENT_TYPE_READ ≠ 0 then
      (if c.m_readCallback then [Callback.read] else []) else []
  let t2 := if Int.land c.m_revents EVENT_TYPE_WRITE ≠ 0 then
      (if c.m_writeCallback then [Callback.write] else []) else []
  let t3 := if Int.land c.m_revents EVENT_TYPE_ERROR ≠ 0 then
      (if c.m_errorCallback then [Callback.error] else []) else []
  let t4 := if Int.land c.m_revents EVENT_TYPE_CLOSE ≠ 0 then
      (if c.m_closeCallback then [Callback.close] else []) else []
  let c1 := { c with m_eventHandling := true }
  ({ c1 with m_eventHandling := false }, t1 ++ t2 ++ t3 ++ t4)

/-- Channel::handleEvent. -/
def handleEvent (c : Channel) : Channel × List Callback :=
  if c.m_isTie then
    if c.tieAlive then handleEventWithGuard c else (c, [])
  else handleEventWithGuard c

/-- The event bit that belongs to a callback slot. -/
def bitOf : Callback → Int
  | .read => EVENT_TYPE_READ
  | .write => EVENT_TYPE_WRITE
  | .error => EVENT_TYPE_ERROR
  | .close => EVENT_TYPE_CLOSE

/-- Whether a callback slot holds a target. -/
def installed (c : Channel) : Callback → Bool
  | .read => c.m_readCallback
  | .write => c.m_writeCallback
  | .error => c.m_errorCallback
  | .close => c.m_closeCallback

/-- The callbacks of a given order that are installed and whose bit is set in
m_revents. -/
def selected (order : List Callback) (c : Channel) : List Callback :=
  order.filter (fun k => decide (Int.land c.m_revents (bitOf k) ≠ 0) && installed c k)

/-- Whether handleEvent reaches the dispatch: no tie, or a tie whose owner is
still alive. -/
def dispatches (c : Channel) : Bool := !c.m_isTie || c.tieAlive

end Channel

/-! ## event_loop.h, event_loop.cpp -/

/-- What the loop does, in the order it does it: the dispatch of a channel,
the call of a queued functor, a write to the wakeup descriptor. -/
inductive LoopEvent where
  | handleEvent (channel : Nat)
  | runFunctor (functor : Nat)
  | wakeup
deriving DecidableEq, Repr

/-- The data members of class EventLoop that the poll, dispatch and drain
cycle uses; channels and functors are named by numbers, log records what has
been done so far. -/
structure EventLoop where
  m_looping : Bool := false
  m_quit : Bool := false
  m_activeChannels : List Nat := []
  m_callingFunctors : Bool := false
  m_functors : List Nat := []
  log : List LoopEvent := []
deriving DecidableEq, Repr

/-- The behaviour of user code as far as the loop is concerned: the calls of
queueInLoop made while a channel is dispatched and while a functor runs. Each
call is a pair of whether the caller is the I/O thread and the functor. -/
structure Callbacks where
  onChannel : Nat → List (Bool × Nat)
  onFunctor : Nat → List (Bool × Nat)

namespace EventLoop

/-- EventLoop::wakeup: eight bytes are written to the wakeup descriptor. -/
def wakeup (l : EventLoop) : EventLoop := { l with log := l.log ++ [LoopEvent.wakeup] }

/-- EventLoop::queueInLoop, with isInLoopThread() given by the caller. -/
def queueInLoop (isInLoopThread : Bool) (l : EventLoop) (cb : Nat) : EventLoop :=
  let l1 := { l with m_functors := l.m_functors ++ [cb] }
  if !isInLoopThread || l1.m_callingFunctors then wakeup l1 else l1

/-- A list of queueInLoop calls, one after the other. -/
def queueAll (l : EventLoop) (calls : List (Bool × Nat)) : EventLoop :=
  calls.foldl (fun l c => queueInLoop c.1 l c.2) l

/-- The call it->handleEvent() of the loop body for one active channel. -/
def dispatch (u : Callbacks) (l : EventLoop) (channel : Nat) : EventLoop :=
  queueAll { l with log := l.log ++ [LoopEvent.handleEvent channel] } (u.onChannel channel)

/-- The call it() of handleFunctors for one functor. -/
def call (u : Callbacks) (l : EventLoop) (functor : Nat) : EventLoop :=
  queueAll { l with log := l.log ++ [LoopEvent.runFunctor functor] } (u.onFunctor functor)

/-- EventLoop::handleFunctors. -/
def handleFunctors (u : Callbacks) (l : EventLoop) : EventLoop :=
  let functors := l.m_functors
  let l1 := { l with m_callingFunctors := true, m_functors := [] }
  let l2 := functors.foldl (call u) l1
  { l2 with m_callingFunctors := false }

/-- One iteration of the while loop of EventLoop::loop; polled is what
m_poller->poll put into m_activeChannels. -/
def loopIteration (u : Callbacks) (polled : List Nat) (l : EventLoop) : EventLoop :=
  let l1 := { l with m_activeChannels := polled }
  let l2 := l1.m_activeChannels.foldl (dispatch u) l1
  handleFunctors u l2

/-- The log without the wakeup writes. -/
def work (l : EventLoop) : List LoopEvent := l.log.filter (fun e => e != LoopEvent.wakeup)

/-- The functors of a list of queueInLoop calls. -/
def queued (calls : List (Bool × Nat)) : List Nat := calls.map Prod.snd

end EventLoop

/-! ## poller/poll_poller.cpp -/

/-- The event bits of poll(2) as the Linux header poll.h defines them. -/
def POLLIN : Int := 0x0001

/-- See POLLIN. -/
def POLLPRI : Int := 0x0002

/-- See POLLIN. -/
def POLLOUT : Int := 0x0004

/-- See POLLIN. -/
def POLLERR : Int := 0x0008

/-- See POLLIN. -/
def POLLHUP : Int := 0x0010

/-- See POLLIN. -/
def POLLNVAL : Int := 0x0020

/-- See POLLIN. -/
def POLLRDHUP : Int := 0x2000

/-- The record struct pollfd. -/
structure PollFd where
  fd : Int
  events : Int
  revents : Int
deriving DecidableEq, Repr

/-- The data members of PollPoller: the pollfd vector and the map from
descriptor to Channel pointer of the base class. -/
structure PollPoller where
  m_pollfds : List PollFd := []
  m_channels : List (Int × Nat) := []
deriving DecidableEq, Repr

/-- The assignment m[key] = value on a std::map kept as a list of pairs. -/
def mapAssign (m : List (Int × Nat)) (key : Int) (value : Nat) : List (Int × Nat) :=
  (key, value) :: m.filter (fun kv => kv.1 != key)

namespace PollPoller

/-- PollPoller::getPollEvent. -/
def getPollEvent (event : Int) : Int :=
  if event = EVENT_TYPE_NONE then 0
  else
    let ret : Int := 0
    let ret := if Int.land event EVENT_TYPE_READ ≠ 0 then Int.lor ret (Int.lor POLLIN POLLPRI)
      else ret
    let ret := if Int.land event EVENT_TYPE_WRITE ≠ 0 then Int.lor ret POLLOUT else ret
    ret

/-- PollPoller::parsePollEvent. -/
def parsePollEvent (event : Int) : Int :=
  let ret : Int := 0
  let ret := if Int.land event POLLNVAL ≠ 0 then EVENT_TYPE_NONE else ret
  let ret := if Int.land event POLLHUP ≠ 0 ∧ ¬ (Int.land event POLLIN ≠ 0) then
      Int.lor ret EVENT_TYPE_CLOSE else ret
  let ret := if Int.land event (Int.lor POLLERR POLLNVAL) ≠ 0 then Int.lor ret EVENT_TYPE_ERROR
    else ret
  let ret := if Int.land event (Int.lor (Int.lor POLLIN POLLPRI) POLLRDHUP) ≠ 0 then
      Int.lor ret EVENT_TYPE_READ else ret
  let ret := if Int.land event POLLOUT ≠ 0 then Int.lor ret EVENT_TYPE_WRITE else ret
  ret

/-- PollPoller::updateChannel for the channel at address ptr: the poller and
the channel afterwards. An index outside the vector, which the source asserts
away, leaves both as they are. -/
def updateChannel (p : PollPoller) (ptr : Nat) (channel : Channel) : PollPoller × Channel :=
  if channel.m_index < 0 then
    let pfd : PollFd :=
      { fd := channel.m_fd, events := getPollEvent channel.m_events, revents := 0 }
    let pollfds := p.m_pollfds ++ [pfd]
    let idx : Int := (pollfds.length : Int) - 1
    ({ m_pollfds := pollfds, m_channels := mapAssign p.m_channels pfd.fd ptr },
      channel.setIndex idx)
  else
    let idx := channel.m_index.toNat
    match p.m_pollfds.get? idx with
    | none => (p, channel)
    | some pfd =>
      let pfd1 : PollFd := { pfd with events := getPollEvent channel.m_events, revents := 0 }
      let pfd2 : PollFd :=
        if channel.isNoneEvent then { pfd1 with fd := -channel.m_fd - 1 } else pfd1
      ({ p with m_pollfds := p.m_pollfds.set idx pfd2 }, channel)

end PollPoller

namespace Channel

/-- Channel::update, through EventLoop::updateChannel, on a loop whose poller
is a PollPoller. -/
def update (p : PollPoller) (ptr : Nat) (c : Channel) : PollPoller × Channel :=
  PollPoller.updateChannel p ptr c

/-- Channel::enableRead. -/
def enableRead (p : PollPoller) (ptr : Nat) (c : Channel) : PollPoller × Channel :=
  update p ptr { c with m_events := Int.lor c.m_events EVENT_TYPE_READ }

/-- Channel::disableRead. -/
def disableRead (p : PollPoller) (ptr : Nat) (c : Channel) : PollPoller × Channel :=
  update p ptr { c with m_events := Int.land c.m_events (Int.lnot EVENT_TYPE_READ) }

/-- Channel::enableWrite. -/
def enableWrite (p : PollPoller) (ptr : Nat) (c : Channel) : PollPoller × Channel :=
  update p ptr { c with m_events := Int.lor c.m_events EVENT_TYPE_WRITE }

/-- Channel::disableWrite. -/
def disableWrite (p : PollPoller) (ptr : Nat) (c : Channel) : PollPoller × Channel :=
  update p ptr { c with m_events := Int.land c.m_events (Int.lnot EVENT_TYPE_WRITE) }

/-- Channel::disableAll. -/
def disableAll (p : PollPoller) (ptr : Nat) (c : Channel) : PollPoller × Channel :=
  update p ptr { c with m_events := EVENT_TYPE_NONE }

/-- The pollfd record of a channel: the element of m_pollfds at its index. -/
def record (p : PollPoller) (c : Channel) : Option PollFd :=
  p.m_pollfds.get? c.m_index.toNat

/-- The five operations that change the subscription mask. -/
inductive Op where
  | enableRead
  | disableRead
  | enableWrite
  | disableWrite
  | disableAll
deriving DecidableEq, Repr

/-- One operation on the channel at address ptr. -/
def step (ptr : Nat) (s : PollPoller × Channel) : Op → PollPoller × Channel
  | .enableRead => enableRead s.1 ptr s.2
  | .disableRead => disableRead s.1 ptr s.2
  | .enableWrite => enableWrite s.1 ptr s.2
  | .disableWrite => disableWrite s.1 ptr s.2
  | .disableAll => disableAll s.1 ptr s.2

/-- A sequence of operations on the channel at address ptr. -/
def run (ptr : Nat) (s : PollPoller × Channel) (ops : List Op) : PollPoller × Channel :=
  ops.foldl (step ptr) s

/-- The record of the channel agrees with the channel: it has the events of
the subscription mask, and its descriptor field is fd when the mask is not
empty and -fd - 1 when it is. -/
def Agrees (s : PollPoller × Channel) : Prop :=
  record s.1 s.2 = some
    { fd := if s.2.isNoneEvent then -s.2.m_fd - 1 else s.2.m_fd
      events := PollPoller.getPollEvent s.2.m_events
      revents := 0 }

instance (s : PollPoller × Channel) : Decidable (Agrees s) := by
  unfold Agrees; infer_instance

/-- What the record of a registered channel on descriptor fd keeps through
every update: the channel has an index, the record exists, and its descriptor
field is fd or -fd - 1; after an update (fresh) it also has the events of the
mask, and the descriptor field is -fd - 1 when the mask is empty. -/
def Tracks (fd : Int) (fresh : Bool) (s : PollPoller × Channel) : Prop :=
  0 ≤ s.2.m_index ∧ s.2.m_fd = fd ∧
  ∃ r : PollFd, record s.1 s.2 = some r ∧ (r.fd = fd ∨ r.fd = -fd - 1) ∧
    (fresh = true → r.events = PollPoller.getPollEvent s.2.m_events ∧
      (s.2.isNoneEvent = true → r.fd = -fd - 1))

end Channel

/-! ## timer.h, timer.cpp, timer_id.h, timer_queue.cpp -/

/-- Modelled from the spec: base::clock::addTime belongs to the base library,
which is not part of the sources; a Timestamp is a number of clock ticks and
an interval is a number of ticks added to it. -/
def addTime (now interval : Nat) : Nat := now + interval

/-- The data members of class Timer; m_callback names the stored callback. -/
structure Timer where
  m_callback : Nat
  m_expiration : Nat
  m_interval : Nat
  m_repeat : Bool
  m_sequence : Int
deriving DecidableEq, Repr

/-- The constructor Timer(cb, when, interval); seq is the value ++s_numCreated. -/
def Timer.ctor (seq : Int) (cb when interval : Nat) : Timer :=
  { m_callback := cb, m_expiration := when, m_interval := interval,
    m_repeat := decide (interval > 0), m_sequence := seq }

/-- Timer::restart. -/
def Timer.restart (t : Timer) (now : Nat) : Timer :=
  if t.m_repeat then { t with m_expiration := addTime now t.m_interval }
  else { t with m_expiration := 0 }

/-- The class TimerId: a Timer pointer (0 is nullptr) and a sequence number,
both with the defaults of the constructor TimerId(timer = nullptr, seq = 0). -/
structure TimerId where
  m_timer : Nat := 0
  m_sequence : Int := 0
deriving DecidableEq, Repr

/-- The two builds of timer_queue.cpp: on a timerfd inside the loop, and on a
thread of its own. -/
inductive Variant where
  | timerfd
  | thread
deriving DecidableEq, Repr

/-- The order of std::pair on Entry = (Timestamp, Timer pointer). -/
def entryLt (a b : Nat × Nat) : Bool := a.1 < b.1 || (a.1 == b.1 && a.2 < b.2)

/-- The order of std::pair on ActiveTimer = (Timer pointer, sequence). -/
def activeLt (a b : Nat × Int) : Bool := a.1 < b.1 || (a.1 == b.1 && a.2 < b.2)

/-- The call std::set::emplace on a set kept as an ascending list: the set
afterwards and whether the element was inserted. -/
def setEmplace {α : Type} [DecidableEq α] (lt : α → α → Bool) (x : α) :
    List α → List α × Bool
  | [] => ([x], true)
  | y :: ys =>
    if x = y then (y :: ys, false)
    else if lt x y then (x :: y :: ys, true)
    else ((y :: (setEmplace lt x ys).1), (setEmplace lt x ys).2)

/-- The value UINTPTR_MAX of the sentry pointer in getExpired. -/
def UINTPTR_MAX : Nat := 18446744073709551615

/-- The state of a TimerQueue: the Timer objects alive on the heap by address,
the counter Timer::s_numCreated, and the data members of the class. -/
structure TimerQueue where
  objects : List (Nat × Timer) := []
  s_numCreated : Int := 0
  m_timers : List (Nat × Nat) := []
  m_activeTimers : List (Nat × Int) := []
  m_callingExpiredTimers : Bool := false
  m_cancelingTimers : List (Nat × Int) := []
deriving DecidableEq, Repr

namespace TimerQueue

/-- The Timer object a pointer refers to. -/
def deref (q : TimerQueue) (timer : Nat) : Option Timer :=
  (q.objects.find? (fun o => o.1 == timer)).map Prod.snd

/-- The expression new Timer(...) placing the object at address addr. -/
def alloc (q : TimerQueue) (addr : Nat) (t : Timer) : TimerQueue :=
  { q with objects := (addr, t) :: q.objects }

/-- The statement delete timer. -/
def free (q : TimerQueue) (timer : Nat) : TimerQueue :=
  { q with objects := q.objects.filter (fun o => o.1 != timer) }

/-- An assignment to the Timer object at an address. -/
def store (q : TimerQueue) (timer : Nat) (t : Timer) : TimerQueue :=
  { q with objects := q.objects.map (fun o => if o.1 == timer then (o.1, t) else o) }

/-- TimerQueue::insert: the queue afterwards and earliestChanged. -/
def insert (q : TimerQueue) (timer : Nat) : TimerQueue × Bool :=
  match deref q timer with
  | none => (q, false)
  | some t =>
    let when := t.m_expiration
    let earliestChanged :=
      match q.m_timers with
      | [] => true
      | e :: _ => decide (when < e.1)
    ({ q with
        m_timers := (setEmplace entryLt (when, timer) q.m_timers).1
        m_activeTimers := (setEmplace activeLt (timer, t.m_sequence) q.m_activeTimers).1 },
      earliestChanged)

/-- TimerQueue::addTimer with the new Timer placed at addr: the TimerId
returned and the queue afterwards. The timerfd build hands the insertion to
runInLoop, taken here on the I/O thread where it runs at once, and returns
TimerId(timer, timer->sequence()); the thread build inserts directly and
returns TimerId(timer). -/
def addTimer (v : Variant) (q : TimerQueue) (addr cb when interval : Nat) :
    TimerId × TimerQueue :=
  let seq := q.s_numCreated + 1
  let t := Timer.ctor seq cb when interval
  let q1 := alloc { q with s_numCreated := seq } addr t
  let q2 := (insert q1 addr).1
  match v with
  | .timerfd => ({ m_timer := addr, m_sequence := t.m_sequence }, q2)
  | .thread => ({ m_timer := addr }, q2)

/-- TimerQueue::cancelInLoop of the timerfd build, which is the body of
TimerQueue::cancel of the thread build. -/
def cancel (q : TimerQueue) (timerId : TimerId) : TimerQueue :=
  let timer : Nat × Int := (timerId.m_timer, timerId.m_sequence)
  if timer ∈ q.m_activeTimers then
    match deref q timer.1 with
    | none => q
    | some t =>
      let q1 := { q with m_timers := q.m_timers.erase (t.m_expiration, timer.1) }
      let q2 := free q1 timer.1
      { q2 with m_activeTimers := q2.m_activeTimers.erase timer }
  else if q.m_callingExpiredTimers then
    { q with m_cancelingTimers := (setEmplace activeLt timer q.m_cancelingTimers).1 }
  else q

/-- TimerQueue::getExpired: the expired entries and the queue afterwards. -/
def getExpired (q : TimerQueue) (now : Nat) : List (Nat × Nat) × TimerQueue :=
  let sentry : Nat × Nat := (now, UINTPTR_MAX)
  let expired := q.m_timers.takeWhile (fun e => entryLt e sentry)
  let q1 := { q with m_timers := q.m_timers.dropWhile (fun e => entryLt e sentry) }
  let q2 := expired.foldl
    (fun (q : TimerQueue) each =>
      match deref q each.2 with
      | none => q
      | some t => { q with m_activeTimers := q.m_activeTimers.erase (each.2, t.m_sequence) })
    q1
  (expired, q2)

/-- TimerQueue::reset (the re-arming of the timerfd at its end is a system
call and leaves the sets alone). -/
def reset (q : TimerQueue) (expired : List (Nat × Nat)) (now : Nat) : TimerQueue :=
  expired.foldl
    (fun (q : TimerQueue) it =>
      match deref q it.2 with
      | none => q
      | some t =>
        let timer : Nat × Int := (it.2, t.m_sequence)
        if t.m_repeat && !(decide (timer ∈ q.m_cancelingTimers)) then
          (insert (store q it.2 (t.restart now)) it.2).1
        else free q it.2)
    q

/-- TimerQueue::handleRead of the timerfd build, which is the firing branch of
TimerQueue::threadProc of the thread build: collect the expired timers, run
their callbacks, reset. A callback acts on the queue and on the state of the
user, and cbs gives the action of each callback by its name. -/
def handleRead {σ : Type} (cbs : Nat → TimerQueue × σ → TimerQueue × σ) (now : Nat)
    (w : TimerQueue × σ) : TimerQueue × σ :=
  let r := getExpired w.1 now
  let expired := r.1
  let q2 := { r.2 with m_callingExpiredTimers := true, m_cancelingTimers := [] }
  let w3 := expired.foldl
    (fun (w : TimerQueue × σ) it =>
      match deref w.1 it.2 with
      | none => w
      | some t => cbs t.m_callback w)
    (q2, w.2)
  let q4 := { w3.1 with m_callingExpiredTimers := false }
  (reset q4 expired now, w3.2)

/-- The state of the user of the example: the TimerId that addTimer returned
and the number of times the callback has run. -/
structure User where
  id : TimerId
  calls : Nat
deriving DecidableEq, Repr

/-- The callbacks of the example: callback 1 counts its invocations and calls
cancel with the stored TimerId on the third; callback 2 calls cancel with the
stored TimerId on every invocation; any other callback does nothing. -/
def exampleCallbacks (name : Nat) (w : TimerQueue × User) : TimerQueue × User :=
  if name = 1 then
    let u : User := { w.2 with calls := w.2.calls + 1 }
    if u.calls = 3 then (cancel w.1 u.id, u) else (w.1, u)
  else if name = 2 then
    (cancel w.1 w.2.id, { w.2 with calls := w.2.calls + 1 })
  else w

/-- A repeating timer at address 100, first due at tick 10 and then every 5
ticks, added to an empty queue with the given callback; the TimerId returned
is stored for the callback. -/
def exampleStart (v : Variant) (cb : Nat) : TimerQueue × User :=
  let r := addTimer v {} 100 cb 10 5
  (r.2, { id := r.1, calls := 0 })

/-- The example after the batches at the given ticks have been fired. -/
def exampleRun (v : Variant) (cb : Nat) (ticks : List Nat) : TimerQueue × User :=
  ticks.foldl (fun w now => handleRead exampleCallbacks now w) (exampleStart v cb)

end TimerQueue

/-! ## timer_queue.cpp: states used to evaluate cancel -/

namespace TimerQueue

/-- A queue while a batch fires: a one-shot timer at address 100, due at tick
10, and a one-shot timer at address 200, due at tick 50, were added; the first
has been collected by getExpired at tick 10 and its callback is running. -/
def exampleFiring : TimerQueue :=
  { (getExpired (addTimer .timerfd (addTimer .timerfd {} 100 0 10 0).2 200 0 50 0).2 10).2 with
    m_callingExpiredTimers := true
    m_cancelingTimers := [] }

/-- The three sets a cancel can touch: primary, auxiliary and canceling. -/
def sets (q : TimerQueue) : List (Nat × Nat) × List (Nat × Int) × List (Nat × Int) :=
  (q.m_timers, q.m_activeTimers, q.m_cancelingTimers)

end TimerQueue

/-! ## timer_queue.cpp: the two sets -/

namespace TimerQueue

/-- The timers of the primary set m_timers, by address. -/
def timerPtrs (q : TimerQueue) : List Nat := q.m_timers.map Prod.snd

/-- The timers of the auxiliary set m_activeTimers, by address. -/
def activePtrs (q : TimerQueue) : List Nat := q.m_activeTimers.map Prod.fst

/-- Set agreement: the two sets have the same size and hold the same timers. -/
def Agreement (q : TimerQueue) : Prop :=
  q.m_timers.length = q.m_activeTimers.length ∧ ∀ p, p ∈ timerPtrs q ↔ p ∈ activePtrs q

instance (q : TimerQueue) : Decidable (Agreement q) := by
  unfold Agreement
  exact @instDecidableAnd _ _ _ (decidable_of_iff
    ((∀ p ∈ timerPtrs q, p ∈ activePtrs q) ∧ (∀ p ∈ activePtrs q, p ∈ timerPtrs q))
    ⟨fun h p => ⟨h.1 p, h.2 p⟩, fun h => ⟨fun p => (h p).1, fun p => (h p).2⟩⟩)

/-- The queues reached from the empty queue by addTimer (which inserts), cancel,
getExpired and reset, together with the batch that getExpired has handed out
and reset has not yet taken back. The operator new of addTimer returns an
address at which no Timer is alive; the flag steps are those of the firing
sequence around the callbacks. -/
inductive Reached : TimerQueue → List (Nat × Nat) → Prop
  | empty : Reached {} []
  | addTimer (v : Variant) (q : TimerQueue) (batch : List (Nat × Nat))
      (addr cb when interval : Nat) :
      Reached q batch → deref q addr = none →
      Reached (addTimer v q addr cb when interval).2 batch
  | cancel (q : TimerQueue) (batch : List (Nat × Nat)) (id : TimerId) :
      Reached q batch → Reached (cancel q id) batch
  | getExpired (q : TimerQueue) (now : Nat) :
      Reached q [] → Reached (getExpired q now).2 (getExpired q now).1
  | beginCalls (q : TimerQueue) (batch : List (Nat × Nat)) :
      Reached q batch →
      Reached { q with m_callingExpiredTimers := true, m_cancelingTimers := [] } batch
  | endCalls (q : TimerQueue) (batch : List (Nat × Nat)) :
      Reached q batch → Reached { q with m_callingExpiredTimers := false } batch
  | reset (q : TimerQueue) (batch : List (Nat × Nat)) (now : Nat) :
      Reached q batch → Reached (reset q batch now) []

/-- The body of the loop of getExpired that erases an expired timer from the
auxiliary set. -/
def eraseActive (q : TimerQueue) (each : Nat × Nat) : TimerQueue :=
  match deref q each.2 with
  | none => q
  | some t => { q with m_activeTimers := q.m_activeTimers.erase (each.2, t.m_sequence) }

/-- What the proof of set agreement carries along: every element of either set
refers to a live Timer with that expiration or sequence, no timer is twice in
a set, the two sets hold the same timers, and the timers of the batch in
flight are alive, distinct and in neither set. -/
structure Consistent (q : TimerQueue) (batch : List (Nat × Nat)) : Prop where
  timers_live : ∀ e p, (e, p) ∈ q.m_timers → ∃ t, deref q p = some t ∧ t.m_expiration = e
  active_live : ∀ p s, (p, s) ∈ q.m_activeTimers → ∃ t, deref q p = some t ∧ t.m_sequence = s
  timers_nodup : (timerPtrs q).Nodup
  active_nodup : (activePtrs q).Nodup
  same : ∀ p, p ∈ timerPtrs q ↔ p ∈ activePtrs q
  batch_live : ∀ e p, (e, p) ∈ batch → (∃ t, deref q p = some t) ∧ p ∉ timerPtrs q
  batch_nodup : (batch.map Prod.snd).Nodup

end TimerQueue

/-! ## connector.h, connector.cpp, sockets_ops.cpp -/

/-- The error numbers that Connector::connect tells apart, as the Linux header
errno.h defines them. -/
def EPERM : Int := 1

/-- See EPERM. -/
def EINTR : Int := 4

/-- See EPERM. -/
def EBADF : Int := 9

/-- See EPERM. -/
def EAGAIN : Int := 11

/-- See EPERM. -/
def EACCES : Int := 13

/-- See EPERM. -/
def EFAULT : Int := 14

/-- See EPERM. -/
def ENOTSOCK : Int := 88

/-- See EPERM. -/
def EAFNOSUPPORT : Int := 97

/-- See EPERM. -/
def EADDRINUSE : Int := 98

/-- See EPERM. -/
def EADDRNOTAVAIL : Int := 99

/-- See EPERM. -/
def ENETUNREACH : Int := 101

/-- See EPERM. -/
def EISCONN : Int := 106

/-- See EPERM. -/
def ECONNREFUSED : Int := 111

/-- See EPERM. -/
def EALREADY : Int := 114

/-- See EPERM. -/
def EINPROGRESS : Int := 115

/-- The fields of struct sockaddr_in that isSelfConnect compares. -/
structure SockAddrIn where
  sin_port : Nat
  s_addr : Nat
deriving DecidableEq, Repr

/-- sockets::isSelfConnect, on the results of getLocalAddr and getPeerAddr. -/
def isSelfConnect (localaddr peeraddr : SockAddrIn) : Bool :=
  localaddr.sin_port == peeraddr.sin_port && localaddr.s_addr == peeraddr.s_addr

namespace Connector

/-- Connector::States. -/
inductive States where
  | kDisconnected
  | kConnecting
  | kConnected
deriving DecidableEq, Repr

/-- Connector::maxRetryDelayMs. -/
def maxRetryDelayMs : Int := 30000

/-- Connector::initRetryDelayMs. -/
def initRetryDelayMs : Int := 500

/-- What a Connector does to its surroundings, in the order it does it. -/
inductive Effect where
  | connect (sockfd : Int)
  | close (sockfd : Int)
  | runAfter (delayMs : Int)
  | cancel (timerId : TimerId)
  | updateChannel (sockfd : Int) (events : Int)
  | removeChannel (sockfd : Int)
  | queueResetChannel
  | queueStopInLoop
  | newConnection (sockfd : Int)
deriving DecidableEq, Repr

/-- What the surroundings answer during one call: the descriptor of
createNonblockingOrDie, the result of connect(2) and errno, the value of
SO_ERROR, the two addresses of the socket, and the TimerId of runAfter. -/
structure Env where
  sockfd : Int := 3
  ret : Int := 0
  errno : Int := 0
  err : Int := 0
  localaddr : SockAddrIn := { sin_port := 0, s_addr := 0 }
  peeraddr : SockAddrIn := { sin_port := 1, s_addr := 0 }
  timerId : TimerId := {}
deriving DecidableEq, Repr

end Connector

/-- The data members of class Connector, and the log of what it has done. -/
structure Connector where
  m_connect : Bool := false
  m_state : Connector.States := Connector.States.kDisconnected
  m_channel : Option Channel := none
  m_retryDelayMs : Int := Connector.initRetryDelayMs
  m_timerId : TimerId := {}
  log : List Connector.Effect := []
deriving DecidableEq, Repr

namespace Connector

/-- Connector::setState. -/
def setState (c : Connector) (s : States) : Connector := { c with m_state := s }

/-- Connector::retry. -/
def retry (c : Connector) (env : Env) (sockfd : Int) : Connector :=
  let c1 := { c with log := c.log ++ [Effect.close sockfd] }
  let c2 := setState c1 States.kDisconnected
  if c2.m_connect then
    let c3 := { c2 with m_timerId := env.timerId
                        log := c2.log ++ [Effect.runAfter c2.m_retryDelayMs] }
    { c3 with m_retryDelayMs := min (c3.m_retryDelayMs * 2) maxRetryDelayMs }
  else c2

/-- Connector::connecting. -/
def connecting (c : Connector) (sockfd : Int) : Connector :=
  let c1 := setState c States.kConnecting
  let ch : Channel := { m_fd := sockfd }
  let ch1 := { ch with m_writeCallback := true }
  let ch2 := { ch1 with m_errorCallback := true }
  let ch3 := { ch2 with m_events := Int.lor ch2.m_events EVENT_TYPE_WRITE }
  { c1 with m_channel := some ch3
            log := c1.log ++ [Effect.updateChannel ch3.m_fd ch3.m_events] }

/-- The value savedErrno of Connector::connect: 0 when connect(2) returned 0,
errno otherwise. -/
def savedErrno (env : Env) : Int := if env.ret = 0 then 0 else env.errno

/-- The error numbers on which Connector::connect goes on to connecting. -/
def inProgressErrors : List Int := [0, EINPROGRESS, EINTR, EISCONN]

/-- The error numbers on which Connector::connect calls retry. -/
def retryErrors : List Int := [EAGAIN, EADDRINUSE, EADDRNOTAVAIL, ECONNREFUSED, ENETUNREACH]

/-- Connector::connect. -/
def connect (c : Connector) (env : Env) : Connector :=
  let sockfd := env.sockfd
  let c1 := { c with log := c.log ++ [Effect.connect sockfd] }
  let savedErrno : Int := savedErrno env
  if savedErrno = 0 ∨ savedErrno = EINPROGRESS ∨ savedErrno = EINTR ∨ savedErrno = EISCONN then
    connecting c1 sockfd
  else if savedErrno = EAGAIN ∨ savedErrno = EADDRINUSE ∨ savedErrno = EADDRNOTAVAIL ∨
      savedErrno = ECONNREFUSED ∨ savedErrno = ENETUNREACH then
    retry c1 env sockfd
  else if savedErrno = EACCES ∨ savedErrno = EPERM ∨ savedErrno = EAFNOSUPPORT ∨
      savedErrno = EALREADY ∨ savedErrno = EBADF ∨ savedErrno = EFAULT ∨
      savedErrno = ENOTSOCK then
    { c1 with log := c1.log ++ [Effect.close sockfd] }
  else
    { c1 with log := c1.log ++ [Effect.close sockfd] }

/-- Connector::startInLoop (its assertion is m_state == kDisconnected). -/
def startInLoop (c : Connector) (env : Env) : Connector :=
  if c.m_connect then connect c env else c

/-- Connector::start, called on the I/O thread, where runInLoop runs
startInLoop at once. -/
def start (c : Connector) (env : Env) : Connector :=
  startInLoop { c with m_connect := true } env

/-- Connector::restart. -/
def restart (c : Connector) (env : Env) : Connector :=
  let c1 := setState c States.kDisconnected
  let c2 := { c1 with m_retryDelayMs := initRetryDelayMs }
  let c3 := { c2 with m_connect := true }
  startInLoop c3 env

/-- Connector::removeAndResetChannel on the channel that m_channel holds: the
connector afterwards and the descriptor returned. -/
def removeAndResetChannel (c : Connector) (ch : Channel) : Connector × Int :=
  let ch1 := { ch with m_events := EVENT_TYPE_NONE }
  let sockfd := ch1.m_fd
  ({ c with m_channel := some ch1
            log := c.log ++ [Effect.updateChannel ch1.m_fd ch1.m_events,
              Effect.removeChannel ch1.m_fd, Effect.queueResetChannel] },
    sockfd)

/-- Connector::resetChannel. -/
def resetChannel (c : Connector) : Connector := { c with m_channel := none }

/-- Connector::stopInLoop. The source dereferences m_channel; a null pointer
there is outside the model and leaves the connector as it is. -/
def stopInLoop (c : Connector) (env : Env) : Connector :=
  if c.m_state = States.kConnecting then
    match c.m_channel with
    | none => c
    | some ch =>
      let c1 := setState c States.kDisconnected
      let r := removeAndResetChannel c1 ch
      retry r.1 env r.2
  else c

/-- Connector::stop. -/
def stop (c : Connector) : Connector :=
  let c1 := { c with m_connect := false }
  let c2 := { c1 with log := c1.log ++ [Effect.queueStopInLoop] }
  { c2 with log := c2.log ++ [Effect.cancel c2.m_timerId] }

/-- Connector::handleWrite. The source dereferences m_channel; a null pointer
there is outside the model and leaves the connector as it is. -/
def handleWrite (c : Connector) (env : Env) : Connector :=
  if c.m_state = States.kConnecting then
    match c.m_channel with
    | none => c
    | some ch =>
      let r := removeAndResetChannel c ch
      let sockfd := r.2
      let err := env.err
      if err ≠ 0 then retry r.1 env sockfd
      else if isSelfConnect env.localaddr env.peeraddr then retry r.1 env sockfd
      else
        let c1 := setState r.1 States.kConnected
        if c1.m_connect then { c1 with log := c1.log ++ [Effect.newConnection sockfd] }
        else { c1 with log := c1.log ++ [Effect.close sockfd] }
  else c

/-- Connector::handleError. The source dereferences m_channel; a null pointer
there is outside the model and leaves the connector as it is. -/
def handleError (c : Connector) (env : Env) : Connector :=
  match c.m_channel with
  | none => c
  | some ch =>
    let r := removeAndResetChannel c ch
    retry r.1 env r.2

/-- The calls that reach a Connector: the public start, stop and restart, the
timer of a retry firing startInLoop, the queued stopInLoop and resetChannel,
and the two channel callbacks. -/
inductive Event where
  | start (env : Env)
  | stop
  | restart (env : Env)
  | startInLoop (env : Env)
  | stopInLoop (env : Env)
  | handleWrite (env : Env)
  | handleError (env : Env)
  | resetChannel
deriving DecidableEq, Repr

/-- One call. -/
def step (c : Connector) : Event → Connector
  | .start env => start c env
  | .stop => stop c
  | .restart env => restart c env
  | .startInLoop env => startInLoop c env
  | .stopInLoop env => stopInLoop c env
  | .handleWrite env => handleWrite c env
  | .handleError env => handleError c env
  | .resetChannel => resetChannel c

/-- A sequence of calls. -/
def run (c : Connector) (events : List Event) : Connector := events.foldl step c

/-- The delays of the retries scheduled so far, in order. -/
def delays : List Effect → List Int
  | [] => []
  | Effect.runAfter d :: es => d :: delays es
  | _ :: es => delays es

/-- The descriptors on which connect(2) has been called so far. -/
def attempts : List Effect → List Int
  | [] => []
  | Effect.connect fd :: es => fd :: attempts es
  | _ :: es => attempts es

/-- The descriptors handed to the new-connection callback so far. -/
def handed : List Effect → List Int
  | [] => []
  | Effect.newConnection fd :: es => fd :: handed es
  | _ :: es => handed es

/-- The descriptors closed so far. -/
def closed : List Effect → List Int
  | [] => []
  | Effect.close fd :: es => fd :: closed es
  | _ :: es => closed es

/-- A connector in state kConnecting on descriptor 3 after stop has cleared
m_connect and before the queued stopInLoop runs. -/
def exampleStopped : Connector :=
  { m_connect := false, m_state := States.kConnecting,
    m_channel := some { m_fd := 3, m_events := 2, m_writeCallback := true,
                        m_errorCallback := true } }

/-- What the backoff and the stop claims look at: m_connect, the stored delay,
the delays scheduled so far and the descriptors tried so far. -/
def view (c : Connector) : Bool × Int × List Int × List Int :=
  (c.m_connect, c.m_retryDelayMs, delays c.log, attempts c.log)

/-- What one call may do to the view: with m_connect clear, nothing; with
m_connect set, it stays set and either the delay and the scheduled delays stay,
or one retry is scheduled after the stored delay, which is then doubled up to
the maximum. -/
def Summary (c c2 : Connector) : Prop :=
  (c.m_connect = false → view c2 = view c) ∧
  (c.m_connect = true →
    c2.m_connect = true ∧
    ((c2.m_retryDelayMs = c.m_retryDelayMs ∧ delays c2.log = delays c.log) ∨
      (c2.m_retryDelayMs = min (c.m_retryDelayMs * 2) maxRetryDelayMs ∧
        delays c2.log = delays c.log ++ [c.m_retryDelayMs])))

/-- The backoff schedule: 500 ms doubled k times, capped at 30 s. -/
def schedule (k : Nat) : Int := min (500 * 2 ^ k) 30000

/-- Whether an event is one of those that set m_connect: start and restart. -/
def Event.starts : Event → Bool
  | .start _ => true
  | .restart _ => true
  | _ => false

/-- Whether an event is one of those that set or clear m_connect, or reset the
delay: start, stop and restart. -/
def Event.isControl : Event → Bool
  | .start _ => true
  | .stop => true
  | .restart _ => true
  | _ => false

end Connector

/-! ## buffer.cpp -/

namespace Buffer

/-- Buffer::readFd of the LINUX build. The result n of readv and the bytes it
delivered (n of them when n >= 0) come from outside: the writable region is
filled first and what went to the extra buffer is appended. -/
def readFd (b : Buffer) (n : Int) (data : List Byte) : Buffer × Int :=
  let writable := writableBytes b
  if n < 0 then (b, n)
  else if n.toNat ≤ writable then
    ({ b with m_buffer := copyIn b.m_buffer b.m_writerIndex data
              m_writerIndex := addSz b.m_writerIndex n.toNat }, n)
  else
    let b1 := { b with m_buffer := copyIn b.m_buffer b.m_writerIndex (data.take writable)
                       m_writerIndex := b.m_buffer.length }
    (append b1 (data.drop writable), n)

end Buffer

/-! ## tcp_connection.h, tcp_connection.cpp -/

namespace TcpConnection

/-- TcpConnection::StateE. -/
inductive StateE where
  | kConnecting
  | kConnected
  | kDisconnecting
  | kDisconnected
deriving DecidableEq, Repr

/-- What a TcpConnection does to its surroundings, in the order it does it:
the callbacks it invokes (the connection callback with the state it finds),
the bytes a socket write accepted, the shutdown of the write side, the timer
of forceCloseWithDelay, the removal of the channel from the poller. -/
inductive Effect where
  | connectionCallback (state : StateE)
  | messageCallback
  | closeCallback
  | writeCompleteCallback
  | highWaterMarkCallback (size : Nat)
  | write (bytes : List Byte)
  | shutdownWrite
  | runAfterForceClose
  | removeChannel
deriving DecidableEq, Repr

/-- The functors a TcpConnection hands to queueInLoop. -/
inductive Task where
  | writeComplete
  | highWaterMark (size : Nat)
  | forceCloseInLoop
deriving DecidableEq, Repr

/-- What the surroundings answer during one dispatch or send: the result of
readv and the bytes it delivered, and the result of the socket write. -/
structure Env where
  readResult : Int := 0
  readData : List Byte := []
  writeResult : Int := 0
deriving DecidableEq, Repr

end TcpConnection

/-- The data members of class TcpConnection that the state machine and the
write path use, the functors it has queued on the loop and that have not run
yet, whether an assertion of the source has failed, and the log of what it has
done. A callback member is represented by whether it holds a target. -/
structure TcpConnection where
  m_state : TcpConnection.StateE := TcpConnection.StateE.kConnecting
  m_channel : Channel
  m_reading : Bool := true
  m_inputBuffer : Buffer := Buffer.ctor
  m_outputBuffer : Buffer := Buffer.ctor
  m_writeCompleteCallback : Bool := false
  m_highWaterMarkCallback : Bool := false
  m_highWaterMark : Nat := 64 * 1024 * 1024
  pending : List TcpConnection.Task := []
  assertFailed : Bool := false
  log : List TcpConnection.Effect := []
deriving DecidableEq, Repr

namespace TcpConnection

/-- The constructor: the channel gets the four callbacks. -/
def ctor (sockfd : Int) : TcpConnection :=
  { m_channel := { m_fd := sockfd, m_readCallback := true, m_writeCallback := true,
                   m_errorCallback := true, m_closeCallback := true } }

/-- TcpConnection::setState. -/
def setState (c : TcpConnection) (s : StateE) : TcpConnection := { c with m_state := s }

/-- Channel::isWriting on the channel of the connection. -/
def isWriting (c : TcpConnection) : Bool := decide (Int.land c.m_channel.m_events EVENT_TYPE_WRITE ≠ 0)

/-- Channel::isReading on the channel of the connection. -/
def isReading (c : TcpConnection) : Bool := decide (Int.land c.m_channel.m_events EVENT_TYPE_READ ≠ 0)

/-- A new subscription mask for the channel of the connection. -/
def setEvents (c : TcpConnection) (events : Int) : TcpConnection :=
  { c with m_channel := { c.m_channel with m_events := events } }

/-- An entry added to the log. -/
def emit (c : TcpConnection) (e : Effect) : TcpConnection := { c with log := c.log ++ [e] }

/-- A functor handed to queueInLoop. -/
def queueInLoop (c : TcpConnection) (t : Task) : TcpConnection :=
  { c with pending := c.pending ++ [t] }

/-- TcpConnection::handleError: the socket error is read and logged. -/
def handleError (c : TcpConnection) : TcpConnection := c

/-- TcpConnection::handleClose. -/
def handleClose (c : TcpConnection) : TcpConnection :=
  let c0 := { c with assertFailed := c.assertFailed ||
    !(decide (c.m_state = StateE.kConnected) || decide (c.m_state = StateE.kDisconnecting)) }
  let c1 := setState c0 StateE.kDisconnected
  let c2 := setEvents c1 EVENT_TYPE_NONE
  let c3 := emit c2 (Effect.connectionCallback c2.m_state)
  emit c3 Effect.closeCallback

/-- TcpConnection::shutdownInLoop. -/
def shutdownInLoop (c : TcpConnection) : TcpConnection :=
  if !isWriting c then emit c Effect.shutdownWrite else c

/-- TcpConnection::handleRead. -/
def handleRead (c : TcpConnection) (env : Env) : TcpConnection :=
  let r := Buffer.readFd c.m_inputBuffer env.readResult env.readData
  let c1 := { c with m_inputBuffer := r.1 }
  let n := r.2
  if n > 0 then emit c1 Effect.messageCallback
  else if n = 0 then handleClose c1
  else handleError c1

/-- TcpConnection::handleWrite; the socket takes the first n of the bytes it is
offered. -/
def handleWrite (c : TcpConnection) (env : Env) : TcpConnection :=
  if isWriting c then
    let n := env.writeResult
    if n > 0 then
      let c1 := emit c (Effect.write ((Buffer.readable c.m_outputBuffer).take n.toNat))
      let c2 := { c1 with m_outputBuffer := Buffer.retrieve c1.m_outputBuffer n.toNat }
      if Buffer.readableBytes c2.m_outputBuffer = 0 then
        let c3 := setEvents c2 (Int.land c2.m_channel.m_events (Int.lnot EVENT_TYPE_WRITE))
        let c4 := if c3.m_writeCompleteCallback then queueInLoop c3 Task.writeComplete else c3
        if c4.m_state = StateE.kDisconnecting then shutdownInLoop c4 else c4
      else c2
    else c
  else c

/-- The test of sendInLoop for a direct write: write is not subscribed and the
output buffer holds nothing. -/
def directWrite (c : TcpConnection) : Bool :=
  !isWriting c && decide (Buffer.readableBytes c.m_outputBuffer = 0)

/-- The local nwrote of sendInLoop after the direct write: the result of the
socket write when it was attempted and did not fail, else 0. -/
def nwrote (c : TcpConnection) (env : Env) : Nat :=
  if directWrite c && decide (env.writeResult ≥ 0) then env.writeResult.toNat else 0

/-- The local remaining of sendInLoop after the direct write. -/
def remaining (c : TcpConnection) (len : Nat) (env : Env) : Nat :=
  if directWrite c && decide (env.writeResult ≥ 0) then subSz len (nwrote c env) else len

/-- TcpConnection::sendInLoop(data, len) with len the length of data; the
socket takes the first nwrote of the bytes it is offered, and a negative
result is a failed write. The assertion is remaining <= len. -/
def sendInLoop (c : TcpConnection) (data : List Byte) (env : Env) : TcpConnection :=
  let len := data.length
  if c.m_state = StateE.kDisconnected then c
  else
    let wrote := directWrite c && decide (env.writeResult ≥ 0)
    let c1 := if wrote then emit c (Effect.write (data.take (nwrote c env))) else c
    let c2 := if wrote && decide (remaining c len env = 0) && c1.m_writeCompleteCallback then
        queueInLoop c1 Task.writeComplete else c1
    let c3 := { c2 with assertFailed := c2.assertFailed || !decide (remaining c len env ≤ len) }
    if remaining c len env > 0 then
      let oldLen := Buffer.readableBytes c3.m_outputBuffer
      let c4 := if addSz oldLen (remaining c len env) ≥ c3.m_highWaterMark ∧
          oldLen < c3.m_highWaterMark ∧ c3.m_highWaterMarkCallback = true then
          queueInLoop c3 (Task.highWaterMark (addSz oldLen (remaining c len env))) else c3
      let appended := Buffer.append c4.m_outputBuffer
        ((data.drop (nwrote c env)).take (remaining c len env))
      let c5 := { c4 with m_outputBuffer := appended }
      if !isWriting c5 then setEvents c5 (Int.lor c5.m_channel.m_events EVENT_TYPE_WRITE)
      else c5
    else c3

/-- TcpConnection::send(message, len) called on the I/O thread. -/
def send (c : TcpConnection) (data : List Byte) (env : Env) : TcpConnection :=
  if c.m_state = StateE.kConnected then sendInLoop c data env else c

/-- TcpConnection::shutdown called on the I/O thread, where runInLoop runs
shutdownInLoop at once. -/
def shutdown (c : TcpConnection) : TcpConnection :=
  if c.m_state = StateE.kConnected then shutdownInLoop (setState c StateE.kDisconnecting)
  else c

/-- TcpConnection::forceCloseInLoop. -/
def forceCloseInLoop (c : TcpConnection) : TcpConnection :=
  if c.m_state = StateE.kConnected ∨ c.m_state = StateE.kDisconnecting then handleClose c
  else c

/-- TcpConnection::forceClose. -/
def forceClose (c : TcpConnection) : TcpConnection :=
  if c.m_state = StateE.kConnected ∨ c.m_state = StateE.kDisconnecting then
    queueInLoop (setState c StateE.kDisconnecting) Task.forceCloseInLoop
  else c

/-- TcpConnection::forceCloseWithDelay; the timer later calls forceClose. -/
def forceCloseWithDelay (c : TcpConnection) : TcpConnection :=
  if c.m_state = StateE.kConnected ∨ c.m_state = StateE.kDisconnecting then
    emit (setState c StateE.kDisconnecting) Effect.runAfterForceClose
  else c

/-- TcpConnection::connectEstablished (its assertion is m_state == kConnecting). -/
def connectEstablished (c : TcpConnection) : TcpConnection :=
  let c0 := { c with assertFailed := c.assertFailed || !decide (c.m_state = StateE.kConnecting) }
  let c1 := setState c0 StateE.kConnected
  let c2 := { c1 with m_channel := { c1.m_channel with m_isTie := true, tieAlive := true } }
  let c3 := setEvents c2 (Int.lor c2.m_channel.m_events EVENT_TYPE_READ)
  emit c3 (Effect.connectionCallback c3.m_state)

/-- TcpConnection::connectDestroyed. -/
def connectDestroyed (c : TcpConnection) : TcpConnection :=
  let c1 :=
    if c.m_state = StateE.kConnected then
      let d1 := setState c StateE.kDisconnected
      let d2 := setEvents d1 EVENT_TYPE_NONE
      emit d2 (Effect.connectionCallback d2.m_state)
    else c
  emit c1 Effect.removeChannel

/-- The callback that the constructor has put into a slot of the channel. -/
def handler (env : Env) (c : TcpConnection) : Callback → TcpConnection
  | .read => handleRead c env
  | .write => handleWrite c env
  | .error => handleError c
  | .close => handleClose c

/-- One dispatch of the channel of the connection: the poller has set revents
and the loop calls Channel::handleEvent, which invokes the callbacks. -/
def dispatch (c : TcpConnection) (revents : Int) (env : Env) : TcpConnection :=
  let ch := c.m_channel.setRevents revents
  (Channel.handleEvent ch).2.foldl (handler env) { c with m_channel := ch }

/-- A queued functor runs. -/
def runTask (c : TcpConnection) : Task → TcpConnection
  | .writeComplete => emit c Effect.writeCompleteCallback
  | .highWaterMark n => emit c (Effect.highWaterMarkCallback n)
  | .forceCloseInLoop => forceCloseInLoop c

/-- The loop drains the first functor that the connection has queued. -/
def drain (c : TcpConnection) : TcpConnection :=
  match c.pending with
  | [] => c
  | t :: ts => runTask { c with pending := ts } t

/-- TcpConnection::setWriteCompleteCallback, with whether cb holds a target. -/
def setWriteCompleteCallback (c : TcpConnection) (cb : Bool) : TcpConnection :=
  { c with m_writeCompleteCallback := cb }

/-- TcpConnection::setHighWaterMarkCallback, with whether cb holds a target. -/
def setHighWaterMarkCallback (c : TcpConnection) (cb : Bool) (highWaterMark : Nat) :
    TcpConnection :=
  { c with m_highWaterMarkCallback := cb, m_highWaterMark := highWaterMark }

/-- The calls that reach a TcpConnection on its I/O thread. -/
inductive Event where
  | setWriteCompleteCallback (cb : Bool)
  | setHighWaterMarkCallback (cb : Bool) (highWaterMark : Nat)
  | connectEstablished
  | shutdown
  | forceClose
  | forceCloseWithDelay
  | connectDestroyed
  | send (data : List Byte) (env : Env)
  | dispatch (revents : Int) (env : Env)
  | drain
deriving DecidableEq, Repr

/-- One call. -/
def step (c : TcpConnection) : Event → TcpConnection
  | .setWriteCompleteCallback cb => setWriteCompleteCallback c cb
  | .setHighWaterMarkCallback cb highWaterMark => setHighWaterMarkCallback c cb highWaterMark
  | .connectEstablished => connectEstablished c
  | .shutdown => shutdown c
  | .forceClose => forceClose c
  | .forceCloseWithDelay => forceCloseWithDelay c
  | .connectDestroyed => connectDestroyed c
  | .send data env => send c data env
  | .dispatch revents env => dispatch c revents env
  | .drain => drain c

/-- A sequence of calls. -/
def run (c : TcpConnection) (events : List Event) : TcpConnection := events.foldl step c

/-- When a call can happen: connectEstablished under its assertion, and a
dispatch only for a channel that is subscribed to something, since the poller
reports no other. -/
def Enabled (c : TcpConnection) : Event → Prop
  | .connectEstablished => c.m_state = StateE.kConnecting
  | .dispatch _ _ => c.m_channel.m_events ≠ EVENT_TYPE_NONE
  | _ => True

instance (c : TcpConnection) (e : Event) : Decidable (Enabled c e) := by
  cases e <;> unfold Enabled <;> infer_instance

/-- The connections reached from the constructor by calls that can happen. -/
inductive Reachable : TcpConnection → Prop
  | ctor (sockfd : Int) : Reachable (ctor sockfd)
  | step (c : TcpConnection) (e : Event) : Reachable c → Enabled c e → Reachable (step c e)

/-- The transitions of the state machine, each with the calls that may take it:
no change; kConnecting to kConnected by connectEstablished; kConnected to
kDisconnecting by shutdown, forceClose and forceCloseWithDelay; kConnected or
kDisconnecting to kDisconnected by the close handler, which runs in a dispatch
or as the drained forceCloseInLoop, and kConnected to kDisconnected by
connectDestroyed. -/
def Allowed (s : StateE) (e : Event) (s2 : StateE) : Prop :=
  s2 = s ∨
  (s = StateE.kConnecting ∧ s2 = StateE.kConnected ∧ e = Event.connectEstablished) ∨
  (s = StateE.kConnected ∧ s2 = StateE.kDisconnecting ∧
    (e = Event.shutdown ∨ e = Event.forceClose ∨ e = Event.forceCloseWithDelay)) ∨
  ((s = StateE.kConnected ∨ s = StateE.kDisconnecting) ∧ s2 = StateE.kDisconnected ∧
    ((∃ revents env, e = Event.dispatch revents env) ∨ e = Event.drain)) ∨
  (s = StateE.kConnected ∧ s2 = StateE.kDisconnected ∧ e = Event.connectDestroyed)

/-- The user callbacks in a log: connection, message, writeComplete and
highWaterMark. -/
def userCallbacks : List Effect → List Effect
  | [] => []
  | Effect.connectionCallback s :: es => Effect.connectionCallback s :: userCallbacks es
  | Effect.messageCallback :: es => Effect.messageCallback :: userCallbacks es
  | Effect.writeCompleteCallback :: es => Effect.writeCompleteCallback :: userCallbacks es
  | Effect.highWaterMarkCallback n :: es => Effect.highWaterMarkCallback n :: userCallbacks es
  | _ :: es => userCallbacks es

/-- The bytes the socket has accepted so far, in order. -/
def sent : List Effect → List Byte
  | [] => []
  | Effect.write bytes :: es => bytes ++ sent es
  | _ :: es => sent es

/-- The sizes with which the highWaterMark callback has been queued and not yet
run. -/
def queuedHighWaterMarks : List Task → List Nat
  | [] => []
  | Task.highWaterMark n :: ts => n :: queuedHighWaterMarks ts
  | _ :: ts => queuedHighWaterMarks ts

/-- The calls of the write path: sendInLoop with its data and the answer of the
socket, and the write handler with the answer of the socket. -/
inductive IoStep where
  | sendInLoop (data : List Byte) (env : Env)
  | handleWrite (env : Env)
deriving DecidableEq, Repr

/-- One call of the write path. -/
def ioStep (c : TcpConnection) : IoStep → TcpConnection
  | .sendInLoop data env => sendInLoop c data env
  | .handleWrite env => handleWrite c env

/-- A sequence of calls of the write path. -/
def ioRun (c : TcpConnection) (steps : List IoStep) : TcpConnection := steps.foldl ioStep c

/-- The data of the sendInLoop calls of a sequence, in call order. -/
def stream : List IoStep → List Byte
  | [] => []
  | IoStep.sendInLoop data _ :: ss => data ++ stream ss
  | IoStep.handleWrite _ :: ss => stream ss

/-- The socket accepts at most what it is offered, and the data of a send fits
the address space together with the output buffer. -/
def Accepts (c : TcpConnection) : IoStep → Prop
  | .sendInLoop data env =>
      env.writeResult ≤ data.length ∧ Buffer.Fits c.m_outputBuffer data.length
  | .handleWrite env => env.writeResult ≤ Buffer.readableBytes c.m_outputBuffer

/-- Accepts at every call of a sequence. -/
def AcceptsAll (c : TcpConnection) : List IoStep → Prop
  | [] => True
  | s :: ss => Accepts c s ∧ AcceptsAll (ioStep c s) ss

instance (c : TcpConnection) (s : IoStep) : Decidable (Accepts c s) := by
  cases s <;> unfold Accepts <;> infer_instance

/-- AcceptsAll is decidable. -/
def decAcceptsAll : (steps : List IoStep) → (c : TcpConnection) → Decidable (AcceptsAll c steps)
  | [], _ => isTrue trivial
  | s :: ss, c => @instDecidableAnd _ _ _ (decAcceptsAll ss (ioStep c s))

instance (c : TcpConnection) (steps : List IoStep) : Decidable (AcceptsAll c steps) :=
  decAcceptsAll steps c

/-- A connection that connectEstablished has taken to kConnected. -/
def exampleConnected : TcpConnection := connectEstablished (ctor 5)

/-- A connection in kConnected with a highWaterMark callback and a threshold
of four bytes. -/
def exampleThreshold : TcpConnection :=
  setHighWaterMarkCallback exampleConnected true 4

/-- Two sends, of which the socket takes four bytes directly, and two write
events, at which it takes three and two bytes. -/
def exampleSteps : List IoStep :=
  [IoStep.sendInLoop [1, 2, 3, 4, 5, 6] { writeResult := 4 },
   IoStep.sendInLoop [7, 8, 9] { writeResult := 2 },
   IoStep.handleWrite { writeResult := 3 },
   IoStep.handleWrite { writeResult := 2 }]

/-- A connection in kConnected with a writeComplete callback, after a send of
three bytes that the socket took whole. -/
def exampleWriting : TcpConnection :=
  sendInLoop (setWriteCompleteCallback exampleConnected true) [1, 2, 3] { writeResult := 3 }

end TcpConnection

/-! ## tcp_connection.cpp: the calls one by one -/

namespace Channel

/-- The assertion at the head of Channel::remove, which PollPoller::removeChannel
repeats. -/
def remove_pre (c : Channel) : Prop := c.isNoneEvent = true

instance (c : Channel) : Decidable (remove_pre c) := by
  unfold remove_pre; infer_instance

end Channel

namespace TcpConnection

/-- The assertion of the destructor of TcpConnection. -/
def dtor_pre (c : TcpConnection) : Prop := c.m_state = StateE.kDisconnected

instance (c : TcpConnection) : Decidable (dtor_pre c) := by
  unfold dtor_pre; infer_instance

/-- The calls that reach a TcpConnection on its I/O thread, with the four
handlers of the channel one by one: a dispatch is a sequence of them, and a
user callback may make calls of its own in between. sendInLoop is also the
functor that send queues from another thread. -/
inductive Call where
  | setWriteCompleteCallback (cb : Bool)
  | setHighWaterMarkCallback (cb : Bool) (highWaterMark : Nat)
  | connectEstablished
  | send (data : List Byte) (env : Env)
  | sendInLoop (data : List Byte) (env : Env)
  | shutdown
  | forceClose
  | forceCloseWithDelay
  | connectDestroyed
  | handleRead (env : Env)
  | handleWrite (env : Env)
  | handleError
  | handleClose
  | drain
deriving DecidableEq, Repr

/-- One call. -/
def call (c : TcpConnection) : Call → TcpConnection
  | .setWriteCompleteCallback cb => setWriteCompleteCallback c cb
  | .setHighWaterMarkCallback cb highWaterMark => setHighWaterMarkCallback c cb highWaterMark
  | .connectEstablished => connectEstablished c
  | .send data env => send c data env
  | .sendInLoop data env => sendInLoop c data env
  | .shutdown => shutdown c
  | .forceClose => forceClose c
  | .forceCloseWithDelay => forceCloseWithDelay c
  | .connectDestroyed => connectDestroyed c
  | .handleRead env => handleRead c env
  | .handleWrite env => handleWrite c env
  | .handleError => handleError c
  | .handleClose => handleClose c
  | .drain => drain c

/-- When a call can happen: connectEstablished under its assertion, and a
socket write accepts at most what it is offered, the data of a send fitting
the address space together with the output buffer. -/
def Permitted (c : TcpConnection) : Call → Prop
  | .connectEstablished => c.m_state = StateE.kConnecting
  | .send data env => Accepts c (IoStep.sendInLoop data env)
  | .sendInLoop data env => Accepts c (IoStep.sendInLoop data env)
  | .handleWrite env => Accepts c (IoStep.handleWrite env)
  | _ => True

instance (c : TcpConnection) (k : Call) : Decidable (Permitted c k) := by
  cases k <;> unfold Permitted <;> infer_instance

/-- The connections reached from the constructor by calls that can happen. -/
inductive Served : TcpConnection → Prop
  | ctor (sockfd : Int) : Served (ctor sockfd)
  | call (c : TcpConnection) (k : Call) : Served c → Permitted c k → Served (call c k)

/-- The output buffer comes from the constructor by append and retrieve, and
until kDisconnected the channel is subscribed for write exactly when the
output buffer holds bytes. -/
structure Flushing (c : TcpConnection) : Prop where
  buffer : Buffer.Reach false false c.m_outputBuffer
  writing : c.m_state ≠ StateE.kDisconnected →
    (isWriting c = true ↔ Buffer.readableBytes c.m_outputBuffer ≠ 0)

/-- A connection in kConnected with three bytes of output pending. -/
def examplePending : TcpConnection :=
  sendInLoop exampleConnected [1, 2, 3] { writeResult := 0 }

end TcpConnection

/-! ## sockets_ops.cpp: accept; acceptor.h, acceptor.cpp -/

/-- Further error numbers of the Linux header errno.h, those that
sockets::accept tells apart. -/
def ENOMEM : Int := 12

/-- See ENOMEM. -/
def EINVAL : Int := 22

/-- See ENOMEM. -/
def ENFILE : Int := 23

/-- See ENOMEM. -/
def EMFILE : Int := 24

/-- See ENOMEM. -/
def EPROTO : Int := 71

/-- See ENOMEM. -/
def EOPNOTSUPP : Int := 95

/-- See ENOMEM. -/
def ECONNABORTED : Int := 103

/-- See ENOMEM. -/
def ENOBUFS : Int := 105

namespace sockets

/-- What accept(2) answers: the descriptor, negative on failure, and the value
it leaves in errno. -/
structure AcceptEnv where
  connfd : Int := -1
  errno : Int := 0
deriving DecidableEq, Repr

/-- What sockets::accept leaves behind: the descriptor it returns, the value of
errno, and whether a LOG_FATAL statement was executed. -/
structure AcceptResult where
  connfd : Int
  errno : Int
  fatal : Bool
deriving DecidableEq, Repr

/-- The value of errno after sockets::setNonBlockAndCloseOnExec of the LINUX
build: each of its fcntl calls fails with EBADF on a descriptor that is not
open, and leaves errno alone on an open one. -/
def setNonBlockAndCloseOnExec (sockfd errno : Int) : Int :=
  if sockfd < 0 then EBADF else errno

/-- The case labels of the switch of sockets::accept under the comment
expected errors. -/
def expectedErrors : List Int := [EAGAIN, ECONNABORTED, EINTR, EPROTO, EPERM, EMFILE]

/-- The case labels of the switch of sockets::accept under the comment
unexpected errors. -/
def unexpectedErrors : List Int :=
  [EBADF, EFAULT, EINVAL, ENFILE, ENOBUFS, ENOMEM, ENOTSOCK, EOPNOTSUPP]

/-- The switch of sockets::accept on savedErrno: the value of errno afterwards
and whether LOG_FATAL is executed. -/
def acceptSwitch (savedErrno errno : Int) : Int × Bool :=
  if savedErrno ∈ expectedErrors then (savedErrno, false)
  else if savedErrno ∈ unexpectedErrors then (errno, true)
  else (errno, true)

/-- sockets::accept of the LINUX build. -/
def accept (env : AcceptEnv) : AcceptResult :=
  let connfd := env.connfd
  let errno := setNonBlockAndCloseOnExec connfd env.errno
  if connfd < 0 then
    let savedErrno := errno
    let r := acceptSwitch savedErrno errno
    { connfd := connfd, errno := r.1, fatal := r.2 }
  else { connfd := connfd, errno := errno, fatal := false }

end sockets

namespace Acceptor

/-- What Acceptor::handleRead does to its surroundings. -/
inductive Effect where
  | newConnection (connfd : Int)
  | close (connfd : Int)
  | logError
deriving DecidableEq, Repr

end Acceptor

/-- The data members of class Acceptor that handleRead uses, whether a
LOG_FATAL statement was executed, and the log of what it has done. A callback
member is represented by whether it holds a target. -/
structure Acceptor where
  m_newConnectionCallback : Bool := false
  m_listen : Bool := false
  fatal : Bool := false
  log : List Acceptor.Effect := []
deriving DecidableEq, Repr

namespace Acceptor

/-- Acceptor::handleRead; Socket::accept passes the result of sockets::accept
on. -/
def handleRead (a : Acceptor) (env : sockets.AcceptEnv) : Acceptor :=
  let r := sockets.accept env
  let connfd := r.connfd
  let a1 := { a with fatal := a.fatal || r.fatal }
  if connfd ≥ 0 then
    if a1.m_newConnectionCallback then
      { a1 with log := a1.log ++ [Effect.newConnection connfd] }
    else { a1 with log := a1.log ++ [Effect.close connfd] }
  else { a1 with log := a1.log ++ [Effect.logError] }

end Acceptor

/-! ## event_loop_thread_pool.h, event_loop_thread_pool.cpp -/

/-- The value of an int after an increment, two's complement on 32 bits. -/
def wrapInt (x : Int) : Int := (x + 2147483648) % 4294967296 - 2147483648

/-- The conversion static_cast<size_t> of an int. -/
def toSizeT (x : Int) : Nat := (x % (sizeMod : Int)).toNat

/-- The data members of class EventLoopThreadPool; an EventLoop is
represented by its address. -/
structure EventLoopThreadPool where
  m_baseLoop : Nat
  m_numThreads : Int := 0
  m_next : Int := 0
  m_loops : List Nat := []
deriving DecidableEq, Repr

namespace EventLoopThreadPool

/-- The constructor. -/
def ctor (baseLoop : Nat) : EventLoopThreadPool := { m_baseLoop := baseLoop }

/-- EventLoopThreadPool::setThreadNum. -/
def setThreadNum (p : EventLoopThreadPool) (numThreads : Int) : EventLoopThreadPool :=
  { p with m_numThreads := numThreads }

/-- EventLoopThreadPool::start; loops are the addresses that startLoop
returns, one for each of the m_numThreads threads. -/
def start (p : EventLoopThreadPool) (loops : List Nat) : EventLoopThreadPool :=
  { p with m_loops := p.m_loops ++ loops.take p.m_numThreads.toNat }

/-- EventLoopThreadPool::getNextLoop: the loop returned, none for an index
outside the vector, and the pool afterwards. -/
def getNextLoop (p : EventLoopThreadPool) : Option Nat × EventLoopThreadPool :=
  if !p.m_loops.isEmpty then
    let loop := p.m_loops.get? (toSizeT p.m_next)
    let next := wrapInt (p.m_next + 1)
    let next := if toSizeT next ≥ p.m_loops.length then 0 else next
    (loop, { p with m_next := next })
  else (some p.m_baseLoop, p)

/-- The pool after a number of getNextLoop calls. -/
def calls : Nat → EventLoopThreadPool → EventLoopThreadPool
  | 0, p => p
  | i + 1, p => calls i (getNextLoop p).2

/-- A pool of three worker loops at addresses 11, 12 and 13 beside the base
loop at address 10. -/
def examplePool : EventLoopThreadPool := start (setThreadNum (ctor 10) 3) [11, 12, 13]

end EventLoopThreadPool

/-! ## connector.cpp: the dispatch of the channel -/

namespace Connector

/-- The assertion at the head of Connector::handleError. -/
def handleError_pre (c : Connector) : Prop := c.m_state = States.kConnecting

instance (c : Connector) : Decidable (handleError_pre c) := by
  unfold handleError_pre; infer_instance

/-- The callback that connecting has put into a slot of the channel; the read
and the close slot are empty. -/
def handler (env : Env) (c : Connector) : Callback → Connector
  | .write => handleWrite c env
  | .error => handleError c env
  | _ => c

/-- One dispatch of the channel of the connector: the poller has set revents
and the loop calls Channel::handleEvent, which invokes the callbacks. -/
def dispatch (c : Connector) (revents : Int) (env : Env) : Connector :=
  match c.m_channel with
  | none => c
  | some ch =>
    let ch1 := ch.setRevents revents
    (Channel.handleEvent ch1).2.foldl (handler env) { c with m_channel := some ch1 }

/-- The descriptors whose channel has been removed from the poller so far. -/
def removals : List Effect → List Int
  | [] => []
  | Effect.removeChannel fd :: es => fd :: removals es
  | _ :: es => removals es

/-- A connector after start whose connect(2) on descriptor 3 is in progress. -/
def exampleConnecting : Connector := start {} { ret := -1, errno := EINPROGRESS }

/-- The connector of exampleConnecting after one dispatch whose revents hold
WRITE and ERROR, with SO_ERROR = ECONNREFUSED. -/
def exampleRefused : Connector :=
  dispatch exampleConnecting (Int.lor EVENT_TYPE_WRITE EVENT_TYPE_ERROR) { err := ECONNREFUSED }

/-- A sequence of calls in which every handleError finds the assertion at its
head true. -/
def Asserted : Connector → List Event → Prop
  | _, [] => True
  | c, e :: es => (∀ env, e = Event.handleError env → handleError_pre c) ∧ Asserted (step c e) es

/-- The number of attempts in progress: 1 in kConnecting, 0 otherwise. -/
def inFlight (c : Connector) : Nat := if c.m_state = States.kConnecting then 1 else 0

end Connector

/-! ## timer_queue.cpp: the order of the primary set -/

namespace TimerQueue

/-- The primary set is a std::set of Entry: its elements are in ascending
order of (expiration, pointer). -/
def Ascending (xs : List (Nat × Nat)) : Prop :=
  xs.Pairwise (fun a b => entryLt a b = true)

instance (xs : List (Nat × Nat)) : Decidable (Ascending xs) := by
  unfold Ascending; infer_instance

/-- A queue with three timers, due at ticks 10, 20 and 5. -/
def exampleThree : TimerQueue :=
  (addTimer .timerfd (addTimer .timerfd (addTimer .timerfd {} 100 1 10 5).2
    200 2 20 0).2 300 3 5 0).2

end TimerQueue

/-! ## poller/poll_poller.cpp: several channels -/

/-- The lookup of a key in a std::map kept as a list of pairs. -/
def mapFind (m : List (Int × Nat)) (key : Int) : Option Nat :=
  (m.find? (fun kv => kv.1 == key)).map Prod.snd

/-- The call std::map::erase(key). -/
def mapErase (m : List (Int × Nat)) (key : Int) : List (Int × Nat) :=
  m.filter (fun kv => kv.1 != key)

/-- A loop with a PollPoller: the poller, and the Channel objects alive, by
address. -/
structure PollWorld where
  poller : PollPoller := {}
  channels : Nat → Option Channel := fun _ => none

namespace PollWorld

/-- The Channel object a pointer refers to. -/
def deref (w : PollWorld) (ptr : Nat) : Option Channel := w.channels ptr

/-- A Channel object placed at, or assigned to, an address. -/
def store (w : PollWorld) (ptr : Nat) (c : Channel) : PollWorld :=
  { w with channels := fun x => if x = ptr then some c else w.channels x }

/-- Channel::update of the channel at address ptr, through
EventLoop::updateChannel, to PollPoller::updateChannel. -/
def updateChannel (w : PollWorld) (ptr : Nat) : PollWorld :=
  match deref w ptr with
  | none => w
  | some channel =>
    let r := PollPoller.updateChannel w.poller ptr channel
    store { w with poller := r.1 } ptr r.2

/-- The descriptor that the fd field of a pollfd record stands for: a negative
field -fd - 1 is converted back. -/
def owner (r : PollFd) : Int := if r.fd < 0 then -r.fd - 1 else r.fd

/-- PollPoller::removeChannel for the channel at address ptr. What the source
asserts away (no record at the index, no channel for the record at the end)
is outside the model and leaves everything as it is. -/
def removeChannel (w : PollWorld) (ptr : Nat) : PollWorld :=
  match deref w ptr with
  | none => w
  | some channel =>
    let idx := channel.m_index
    let channels1 := mapErase w.poller.m_channels channel.m_fd
    let pollfds := w.poller.m_pollfds
    if toSizeT idx = subSz pollfds.length 1 then
      { w with poller := { m_pollfds := pollfds.dropLast, m_channels := channels1 } }
    else
      match pollfds.getLast?, pollfds.get? (toSizeT idx) with
      | some back, some slot =>
        let channelAtEnd := back.fd
        let swapped := (pollfds.set (toSizeT idx) back).set (pollfds.length - 1) slot
        let channelAtEnd := if channelAtEnd < 0 then -channelAtEnd - 1 else channelAtEnd
        match mapFind channels1 channelAtEnd with
        | none => w
        | some ptr2 =>
          match deref w ptr2 with
          | none => w
          | some c2 =>
            store { w with poller := { m_pollfds := swapped.dropLast, m_channels := channels1 } }
              ptr2 (c2.setIndex idx)
      | _, _ => w

/-- The poller with the channels at addresses reached from the empty poller by
updateChannel of a new channel (index -1, a descriptor not yet in the map, at
an address not in use, the new index fitting an int), by a change of the subscription mask of a registered
channel with its updateChannel, and by removeChannel of a registered channel
whose mask is empty. -/
inductive Reached : PollWorld → Prop
  | empty : Reached {}
  | add (w : PollWorld) (ptr : Nat) (c : Channel) :
      Reached w → deref w ptr = none → c.m_index = -1 → 0 ≤ c.m_fd →
      mapFind w.poller.m_channels c.m_fd = none →
      w.poller.m_pollfds.length < 2147483647 →
      Reached (updateChannel (store w ptr c) ptr)
  | update (w : PollWorld) (ptr : Nat) (c : Channel) (events : Int) :
      Reached w → deref w ptr = some c → mapFind w.poller.m_channels c.m_fd = some ptr →
      Reached (updateChannel (store w ptr { c with m_events := events }) ptr)
  | remove (w : PollWorld) (ptr : Nat) (c : Channel) :
      Reached w → deref w ptr = some c → mapFind w.poller.m_channels c.m_fd = some ptr →
      c.isNoneEvent = true → Reached (removeChannel w ptr)

/-- The bookkeeping of the poller: the map and the vector have the same number
of entries, and every registered channel has an index inside the vector whose
record carries its descriptor, as fd or as -fd - 1. -/
def Bookkeeping (w : PollWorld) : Prop :=
  w.poller.m_channels.length = w.poller.m_pollfds.length ∧
  ∀ fd ptr, (fd, ptr) ∈ w.poller.m_channels →
    ∃ c, deref w ptr = some c ∧ c.m_fd = fd ∧ 0 ≤ c.m_index ∧
      c.m_index < (w.poller.m_pollfds.length : Int) ∧
      ∃ r, w.poller.m_pollfds.get? c.m_index.toNat = some r ∧ (r.fd = fd ∨ r.fd = -fd - 1)

/-- What the proof of the bookkeeping carries along: besides it, the keys of
the map are distinct and not negative, and every record of the vector belongs
to a registered channel that has the index of the record; the indices fit an
int. -/
structure Sound (w : PollWorld) : Prop where
  small : w.poller.m_pollfds.length < 2147483648
  sizes : w.poller.m_channels.length = w.poller.m_pollfds.length
  keys : (w.poller.m_channels.map Prod.fst).Nodup
  entries : ∀ fd ptr, (fd, ptr) ∈ w.poller.m_channels →
    0 ≤ fd ∧ ∃ c, deref w ptr = some c ∧ c.m_fd = fd ∧ 0 ≤ c.m_index ∧
      ∃ r, w.poller.m_pollfds.get? c.m_index.toNat = some r ∧ (r.fd = fd ∨ r.fd = -fd - 1)
  records : ∀ i r, w.poller.m_pollfds.get? i = some r →
    ∃ ptr c, (owner r, ptr) ∈ w.poller.m_channels ∧ deref w ptr = some c ∧
      c.m_index = (i : Int)

/-- Three channels on descriptors 5, 6 and 7 at addresses 1, 2 and 3,
registered for read. -/
def exampleRegistered : PollWorld :=
  updateChannel (store
    (updateChannel (store
      (updateChannel (store {} 1 { m_fd := 5, m_events := EVENT_TYPE_READ }) 1)
      2 { m_fd := 6, m_events := EVENT_TYPE_READ }) 2)
    3 { m_fd := 7, m_events := EVENT_TYPE_READ }) 3

/-- The channel at address 1 of exampleRegistered. -/
def exampleFirst : Channel := { m_fd := 5, m_events := EVENT_TYPE_READ, m_index := 0 }

/-- The three channels after the first one has been disabled. -/
def exampleDisabled : PollWorld :=
  updateChannel (store exampleRegistered 1 { exampleFirst with m_events := EVENT_TYPE_NONE }) 1

/-- The three channels after the first one has been disabled and removed. -/
def exampleRemoved : PollWorld := removeChannel exampleDisabled 1

end PollWorld

/-! # Theorems -/

/-! ## Buffer: the vector primitives -/

theorem copyIn_length (xs : List Byte) : ∀ (buf : List Byte) (d : Nat),
    (copyIn buf d xs).length = buf.length := by
  induction xs with
  | nil => intro buf d; rfl
  | cons x xs ih => intro buf d; simp [copyIn, ih]

theorem copyIn_getElem?_lt (xs : List Byte) : ∀ (buf : List Byte) (d j : Nat),
    j < d → (copyIn buf d xs)[j]? = buf[j]? := by
  induction xs with
  | nil => intro buf d j _; rfl
  | cons x xs ih =>
    intro buf d j hj
    simp only [copyIn]
    rw [ih _ _ _ (by omega), List.getElem?_set_ne (by omega)]

theorem copyIn_getElem?_ge (xs : List Byte) : ∀ (buf : List Byte) (d j : Nat),
    d + xs.length ≤ j → (copyIn buf d xs)[j]? = buf[j]? := by
  induction xs with
  | nil => intro buf d j _; rfl
  | cons x xs ih =>
    intro buf d j hj
    simp only [copyIn, List.length_cons] at hj ⊢
    rw [ih _ _ _ (by omega), List.getElem?_set_ne (by omega)]

theorem copyIn_getElem?_mid (xs : List Byte) : ∀ (buf : List Byte) (d i : Nat),
    d + xs.length ≤ buf.length → i < xs.length →
    (copyIn buf d xs)[d + i]? = xs[i]? := by
  induction xs with
  | nil => intro buf d i _ hi; simp at hi
  | cons x xs ih =>
    intro buf d i hfit hi
    simp only [List.length_cons] at hfit hi
    simp only [copyIn]
    cases i with
    | zero =>
      rw [copyIn_getElem?_lt _ _ _ _ (by omega)]
      simp only [Nat.add_zero]
      have hd : d < buf.length := by omega
      rw [List.getElem?_set_self hd]
      simp
    | succ k =>
      have h := ih (buf.set d x) (d + 1) k (by simp; omega) (by omega)
      have e : d + (k + 1) = d + 1 + k := by omega
      rw [e, h]; simp

/-- Reading the slice that std::copy has just written gives back the source. -/
theorem copyIn_slice (xs buf : List Byte) (d : Nat) (hfit : d + xs.length ≤ buf.length) :
    ((copyIn buf d xs).drop d).take xs.length = xs := by
  apply List.ext_getElem?
  intro i
  by_cases hi : i < xs.length
  · rw [List.getElem?_take_of_lt hi, List.getElem?_drop, copyIn_getElem?_mid _ _ _ _ hfit hi]
  · rw [List.getElem?_eq_none (by simp; omega), List.getElem?_eq_none (by omega)]

/-- The slice in front of the written range is left alone. -/
theorem copyIn_slice_before (xs buf : List Byte) (d s n : Nat) (h : s + n ≤ d) :
    ((copyIn buf d xs).drop s).take n = (buf.drop s).take n := by
  apply List.ext_getElem?
  intro i
  by_cases hi : i < n
  · rw [List.getElem?_take_of_lt hi, List.getElem?_take_of_lt hi, List.getElem?_drop,
      List.getElem?_drop, copyIn_getElem?_lt _ _ _ _ (by omega)]
  · rw [List.getElem?_eq_none (by simp; omega), List.getElem?_eq_none (by simp; omega)]

theorem copyWithin_length (n : Nat) : ∀ (buf : List Byte) (f d : Nat),
    (copyWithin buf f d n).length = buf.length := by
  induction n with
  | zero => intro buf f d; rfl
  | succ n ih => intro buf f d; simp [copyWithin, ih]

theorem copyWithin_getElem?_lt (n : Nat) : ∀ (buf : List Byte) (f d j : Nat),
    j < d → (copyWithin buf f d n)[j]? = buf[j]? := by
  induction n with
  | zero => intro buf f d j _; rfl
  | succ n ih =>
    intro buf f d j hj
    simp only [copyWithin]
    rw [ih _ _ _ _ (by omega), List.getElem?_set_ne (by omega)]

theorem copyWithin_getElem?_mid (n : Nat) : ∀ (buf : List Byte) (f d i : Nat),
    d ≤ f → f + n ≤ buf.length → i < n →
    (copyWithin buf f d n)[d + i]? = buf[f + i]? := by
  induction n with
  | zero => intro buf f d i _ _ hi; omega
  | succ n ih =>
    intro buf f d i hdf hfit hi
    simp only [copyWithin]
    cases i with
    | zero =>
      simp only [Nat.add_zero]
      rw [copyWithin_getElem?_lt _ _ _ _ _ (by omega)]
      have hd : d < buf.length := by omega
      have hf : f < buf.length := by omega
      rw [List.getElem?_set_self hd]
      rw [List.getD_eq_getElem?_getD, List.getElem?_eq_getElem hf]
      rfl
    | succ k =>
      have h := ih (buf.set d (buf.getD f 0)) (f + 1) (d + 1) k (by omega)
        (by simp; omega) (by omega)
      have e1 : d + (k + 1) = d + 1 + k := by omega
      have e2 : f + (k + 1) = f + 1 + k := by omega
      rw [e1, e2, h, List.getElem?_set_ne (by omega)]

/-- Moving a range towards the front with std::copy keeps its content, also
when source and destination overlap. -/
theorem copyWithin_slice (buf : List Byte) (f d n : Nat) (hdf : d ≤ f)
    (hfit : f + n ≤ buf.length) :
    ((copyWithin buf f d n).drop d).take n = (buf.drop f).take n := by
  apply List.ext_getElem?
  intro i
  by_cases hi : i < n
  · rw [List.getElem?_take_of_lt hi, List.getElem?_take_of_lt hi, List.getElem?_drop,
      List.getElem?_drop, copyWithin_getElem?_mid _ _ _ _ _ hdf hfit hi]
  · rw [List.getElem?_eq_none (by simp; omega), List.getElem?_eq_none (by simp; omega)]

theorem vecResize_length (buf : List Byte) (n : Nat) : (vecResize buf n).length = n := by
  simp [vecResize]; omega

/-- Growing a vector keeps the elements it already has. -/
theorem vecResize_slice (buf : List Byte) (n s k : Nat) (h : s + k ≤ buf.length)
    (hn : buf.length ≤ n) :
    ((vecResize buf n).drop s).take k = (buf.drop s).take k := by
  have e : buf.take n = buf := List.take_of_length_le hn
  simp only [vecResize, e]
  rw [List.drop_append_of_le_length (by omega), List.take_append_of_le_length (by simp; omega)]

namespace Buffer

/-! ## Buffer: the operations -/

theorem ctor_length : ctor.m_buffer.length = 1032 := by
  simp only [ctor, List.length_replicate, initialPerpend, initialSize]

theorem addSz_eq (a b : Nat) (h : a + b < sizeMod) : addSz a b = a + b := by
  simp only [addSz, sizeMod] at *; omega

theorem subSz_eq (a b : Nat) (hb : b ≤ a) (ha : a < sizeMod) : subSz a b = a - b := by
  simp only [subSz, sizeMod] at *; omega

theorem readableBytes_eq (b : Buffer) (hrw : b.m_readerIndex ≤ b.m_writerIndex)
    (hw : b.m_writerIndex < sizeMod) :
    readableBytes b = b.m_writerIndex - b.m_readerIndex :=
  subSz_eq _ _ hrw hw

theorem writableBytes_eq (b : Buffer) (hws : b.m_writerIndex ≤ b.m_buffer.length)
    (hs : b.m_buffer.length < sizeMod) :
    writableBytes b = b.m_buffer.length - b.m_writerIndex :=
  subSz_eq _ _ hws hs

/-- What ensureWritableBytes guarantees on a buffer whose indices are in
order: the indices stay in order, the vector does not shrink, the readable
bytes stay, the requested room is there. -/
theorem ensureWritableBytes_spec (b : Buffer) (len : Nat)
    (hrw : b.m_readerIndex ≤ b.m_writerIndex) (hws : b.m_writerIndex ≤ b.m_buffer.length)
    (hfit : Fits b len) :
    (ensureWritableBytes b len).m_readerIndex ≤ (ensureWritableBytes b len).m_writerIndex ∧
    (ensureWritableBytes b len).m_writerIndex + len ≤
      (ensureWritableBytes b len).m_buffer.length ∧
    (ensureWritableBytes b len).m_buffer.length < sizeMod ∧
    b.m_buffer.length ≤ (ensureWritableBytes b len).m_buffer.length ∧
    (initialPerpend ≤ b.m_readerIndex →
      initialPerpend ≤ (ensureWritableBytes b len).m_readerIndex) ∧
    (ensureWritableBytes b len).m_readerIndex ≤ max b.m_readerIndex initialPerpend ∧
    (ensureWritableBytes b len).m_writerIndex - (ensureWritableBytes b len).m_readerIndex
      = b.m_writerIndex - b.m_readerIndex ∧
    readable (ensureWritableBytes b len) = readable b := by
  have hM : sizeMod = 18446744073709551616 := rfl
  have h8 : initialPerpend = 8 := rfl
  unfold Fits at hfit
  have ewr : writableBytes b = b.m_buffer.length - b.m_writerIndex :=
    writableBytes_eq b hws (by omega)
  have erd : readableBytes b = b.m_writerIndex - b.m_readerIndex :=
    readableBytes_eq b hrw (by omega)
  unfold ensureWritableBytes
  by_cases h1 : writableBytes b < len
  · rw [if_pos h1]
    unfold resize
    have ea : addSz (writableBytes b) (prependableBytes b)
        = b.m_buffer.length - b.m_writerIndex + b.m_readerIndex := by
      rw [ewr, prependableBytes, addSz_eq _ _ (by omega)]
    have eb : addSz len initialPerpend = len + initialPerpend := addSz_eq _ _ (by omega)
    rw [ea, eb]
    rw [ewr] at h1
    by_cases h2 : b.m_buffer.length - b.m_writerIndex + b.m_readerIndex < len + initialPerpend
    · rw [if_pos h2]
      have e : addSz b.m_writerIndex len = b.m_writerIndex + len := addSz_eq _ _ (by omega)
      rw [e]
      refine ⟨hrw, ?_, ?_, ?_, fun h => h, ?_, rfl, ?_⟩
      · show b.m_writerIndex + len ≤ (vecResize b.m_buffer (b.m_writerIndex + len)).length
        rw [vecResize_length]
      · show (vecResize b.m_buffer (b.m_writerIndex + len)).length < sizeMod
        rw [vecResize_length]; omega
      · show b.m_buffer.length ≤ (vecResize b.m_buffer (b.m_writerIndex + len)).length
        rw [vecResize_length]; omega
      · show b.m_readerIndex ≤ max b.m_readerIndex initialPerpend
        omega
      · show ((vecResize b.m_buffer (b.m_writerIndex + len)).drop b.m_readerIndex).take
            (subSz b.m_writerIndex b.m_readerIndex) = readable b
        apply vecResize_slice
        · rw [← readableBytes, erd]; omega
        · omega
    · rw [if_neg h2]
      have e1 : addSz initialPerpend (readableBytes b)
          = initialPerpend + (b.m_writerIndex - b.m_readerIndex) := by
        rw [erd, addSz_eq _ _ (by omega)]
      simp only [e1]
      refine ⟨?_, ?_, ?_, ?_, fun _ => le_refl _, ?_, ?_, ?_⟩
      · show initialPerpend ≤ initialPerpend + (b.m_writerIndex - b.m_readerIndex)
        omega
      · show initialPerpend + (b.m_writerIndex - b.m_readerIndex) + len
          ≤ (copyWithin b.m_buffer b.m_readerIndex initialPerpend
              (b.m_writerIndex - b.m_readerIndex)).length
        rw [copyWithin_length]; omega
      · show (copyWithin b.m_buffer b.m_readerIndex initialPerpend
              (b.m_writerIndex - b.m_readerIndex)).length < sizeMod
        rw [copyWithin_length]; omega
      · show b.m_buffer.length ≤ (copyWithin b.m_buffer b.m_readerIndex initialPerpend
              (b.m_writerIndex - b.m_readerIndex)).length
        rw [copyWithin_length]
      · show initialPerpend ≤ max b.m_readerIndex initialPerpend
        omega
      · show initialPerpend + (b.m_writerIndex - b.m_readerIndex) - initialPerpend
          = b.m_writerIndex - b.m_readerIndex
        omega
      · show ((copyWithin b.m_buffer b.m_readerIndex initialPerpend
              (b.m_writerIndex - b.m_readerIndex)).drop initialPerpend).take
            (subSz (initialPerpend + (b.m_writerIndex - b.m_readerIndex)) initialPerpend)
            = readable b
        rw [subSz_eq _ _ (by omega) (by omega)]
        have e3 : initialPerpend + (b.m_writerIndex - b.m_readerIndex) - initialPerpend
            = b.m_writerIndex - b.m_readerIndex := by omega
        rw [e3]
        show _ = (b.m_buffer.drop b.m_readerIndex).take (readableBytes b)
        rw [erd]
        apply copyWithin_slice <;> omega
  · rw [if_neg h1]
    rw [ewr] at h1
    refine ⟨hrw, ?_, ?_, le_refl _, fun h => h, ?_, rfl, rfl⟩
    · omega
    · omega
    · omega

/-- What append guarantees on a buffer whose indices are in order: the
indices stay in order and the readable bytes are the old ones followed by the
appended ones. -/
theorem append_spec (b : Buffer) (p : List Byte)
    (hrw : b.m_readerIndex ≤ b.m_writerIndex) (hws : b.m_writerIndex ≤ b.m_buffer.length)
    (hfit : Fits b p.length) :
    (append b p).m_readerIndex ≤ (append b p).m_writerIndex ∧
    (append b p).m_writerIndex ≤ (append b p).m_buffer.length ∧
    (append b p).m_buffer.length < sizeMod ∧
    b.m_buffer.length ≤ (append b p).m_buffer.length ∧
    (initialPerpend ≤ b.m_readerIndex → initialPerpend ≤ (append b p).m_readerIndex) ∧
    (append b p).m_writerIndex - (append b p).m_readerIndex
      = b.m_writerIndex - b.m_readerIndex + p.length ∧
    readable (append b p) = readable b ++ p := by
  obtain ⟨g1, g2, g3, g4, g5, _, g7, g8⟩ := ensureWritableBytes_spec b p.length hrw hws hfit
  have hM : sizeMod = 18446744073709551616 := rfl
  unfold append hasWritten
  generalize ensureWritableBytes b p.length = b1 at *
  have ew : addSz b1.m_writerIndex p.length = b1.m_writerIndex + p.length :=
    addSz_eq _ _ (by omega)
  simp only [ew]
  refine ⟨?_, ?_, ?_, ?_, g5, ?_, ?_⟩
  · show b1.m_readerIndex ≤ b1.m_writerIndex + p.length
    omega
  · show b1.m_writerIndex + p.length ≤ (copyIn b1.m_buffer b1.m_writerIndex p).length
    rw [copyIn_length]; exact g2
  · show (copyIn b1.m_buffer b1.m_writerIndex p).length < sizeMod
    rw [copyIn_length]; exact g3
  · show b.m_buffer.length ≤ (copyIn b1.m_buffer b1.m_writerIndex p).length
    rw [copyIn_length]; exact g4
  · show b1.m_writerIndex + p.length - b1.m_readerIndex = _
    omega
  · show ((copyIn b1.m_buffer b1.m_writerIndex p).drop b1.m_readerIndex).take
        (subSz (b1.m_writerIndex + p.length) b1.m_readerIndex) = readable b ++ p
    rw [subSz_eq _ _ (by omega) (by omega)]
    have e : b1.m_writerIndex + p.length - b1.m_readerIndex
        = (b1.m_writerIndex - b1.m_readerIndex) + p.length := by omega
    rw [e, List.take_add, List.drop_drop]
    have e2 : b1.m_readerIndex + (b1.m_writerIndex - b1.m_readerIndex) = b1.m_writerIndex := by
      omega
    have e2b : (b1.m_writerIndex - b1.m_readerIndex) + b1.m_readerIndex = b1.m_writerIndex := by
      omega
    simp only [e2, e2b]
    rw [copyIn_slice p _ _ g2, copyIn_slice_before p _ _ _ _ (by omega)]
    rw [← g8]
    show _ = (b1.m_buffer.drop b1.m_readerIndex).take (readableBytes b1) ++ p
    rw [readableBytes_eq b1 g1 (by omega)]

/-- The invariant kept by every public operation other than shrink. -/
theorem reach_inv (usePrepend : Bool) (b : Buffer) (h : Reach usePrepend false b) :
    b.m_readerIndex ≤ b.m_writerIndex ∧ b.m_writerIndex ≤ b.m_buffer.length ∧
    initialPerpend ≤ b.m_buffer.length ∧ b.m_buffer.length < sizeMod ∧
    (usePrepend = false → initialPerpend ≤ b.m_readerIndex) := by
  have hM : sizeMod = 18446744073709551616 := rfl
  have h8 : initialPerpend = 8 := rfl
  induction h with
  | ctor =>
    refine ⟨le_refl _, ?_, ?_, ?_, fun _ => le_refl _⟩
    · show initialPerpend ≤ ctor.m_buffer.length
      rw [ctor_length]; omega
    · rw [ctor_length]; omega
    · rw [ctor_length]; omega
  | append b data _ hfit ih =>
    obtain ⟨i1, i2, i3, i4, i5⟩ := ih
    obtain ⟨a1, a2, a3, a4, a5, _, _⟩ := append_spec b data i1 i2 hfit
    exact ⟨a1, a2, by omega, a3, fun hp => a5 (i5 hp)⟩
  | retrieve b len _ hpre ih =>
    obtain ⟨i1, i2, i3, i4, i5⟩ := ih
    unfold retrieve_pre at hpre
    rw [readableBytes_eq b i1 (by omega)] at hpre
    have e : addSz b.m_readerIndex len = b.m_readerIndex + len := addSz_eq _ _ (by omega)
    unfold retrieve
    simp only [e]
    exact ⟨by omega, i2, i3, i4, fun hp => by have := i5 hp; omega⟩
  | reset b _ ih =>
    obtain ⟨i1, i2, i3, i4, i5⟩ := ih
    exact ⟨le_refl _, i3, i3, i4, fun _ => le_refl _⟩
  | retrieveAsString b _ ih =>
    obtain ⟨i1, i2, i3, i4, i5⟩ := ih
    exact ⟨le_refl _, i3, i3, i4, fun _ => le_refl _⟩
  | ensureWritableBytes b len _ hfit ih =>
    obtain ⟨i1, i2, i3, i4, i5⟩ := ih
    obtain ⟨a1, a2, a3, a4, a5, _, _, _⟩ := ensureWritableBytes_spec b len i1 i2 hfit
    exact ⟨a1, by omega, by omega, a3, fun hp => a5 (i5 hp)⟩
  | hasWritten b len _ hpre ih =>
    obtain ⟨i1, i2, i3, i4, i5⟩ := ih
    rw [writableBytes_eq b i2 i4] at hpre
    have e : addSz b.m_writerIndex len = b.m_writerIndex + len := addSz_eq _ _ (by omega)
    unfold hasWritten
    simp only [e]
    exact ⟨by omega, by omega, i3, i4, i5⟩
  | prepend b data hp _ hpre ih =>
    obtain ⟨i1, i2, i3, i4, i5⟩ := ih
    unfold prepend_pre prependableBytes at hpre
    have e : subSz b.m_readerIndex data.length = b.m_readerIndex - data.length :=
      subSz_eq _ _ hpre (by omega)
    unfold prepend
    simp only [e, copyIn_length]
    exact ⟨by omega, i2, i3, i4, fun hf => by rw [hp] at hf; exact absurd hf (by decide)⟩
  | shrink b reserve hs _ _ _ => exact absurd hs (by decide)
  | swap_this b rhs _ _ _ ih2 => exact ih2
  | swap_rhs b rhs _ _ ih1 _ => exact ih1

/-- The indices after a first append of at most initialSize bytes to a fresh
buffer: no growth is needed and the bytes go to positions 8 and up. -/
theorem append_ctor_indices (p : List Byte) (hp : p.length ≤ 1024) :
    (append ctor p).m_readerIndex = 8 ∧ (append ctor p).m_writerIndex = 8 + p.length := by
  have hM : sizeMod = 18446744073709551616 := rfl
  have hc := ctor_length
  have hwc : ctor.m_writerIndex = 8 := rfl
  have hw : writableBytes ctor = 1024 := by
    rw [writableBytes_eq ctor (by omega) (by omega), hc, hwc]
  have he : ensureWritableBytes ctor p.length = ctor := by
    unfold ensureWritableBytes
    rw [if_neg (by omega)]
  unfold append hasWritten
  rw [he]
  exact ⟨rfl, by show addSz ctor.m_writerIndex p.length = _; rw [hwc, addSz_eq _ _ (by omega)]⟩

theorem shrink_length (b : Buffer) (reserve : Nat) :
    (shrink b reserve).m_buffer.length
      = addSz (addSz initialPerpend (readableBytes b)) reserve := by
  unfold shrink
  simp only [copyIn_length, List.length_replicate]

/-- C1, as stated, fails: prepend, called within its own precondition on a
fresh buffer, moves readerIndex below initialPerpend, so not every reachable
buffer satisfies the index invariant. -/
theorem index_invariant_fails_after_prepend :
    ¬ ∀ b : Buffer, Reach true true b → IndexInv b := by
  intro h
  have hr : Reach true true (prepend ctor [0]) :=
    Reach.prepend ctor [0] rfl Reach.ctor (by unfold prepend_pre; decide)
  have h8 := (h _ hr).1
  revert h8
  decide

/-- Buffer::shrink swaps in the new vector and keeps the old indices: after
three bytes are appended and two retrieved, shrink(0) leaves writerIndex 11 on
a vector of 9 bytes. -/
theorem shrink_leaves_indices_stale :
    (shrink (retrieve (append ctor [1, 2, 3]) 2) 0).m_writerIndex = 11 ∧
    (shrink (retrieve (append ctor [1, 2, 3]) 2) 0).m_buffer.length = 9 := by
  obtain ⟨hr, hw⟩ := append_ctor_indices [1, 2, 3] (by decide)
  constructor
  · exact hw
  · rw [shrink_length]
    unfold readableBytes retrieve
    simp only [hr, hw]
    decide

/-- C1, amended: every buffer reached from the constructor by append,
retrieve, reset, retrieveAsString, ensureWritableBytes, hasWritten, prepend and
swap (shrink apart), each within its precondition, has readerIndex <=
writerIndex <= size and readableBytes() == writerIndex - readerIndex; when
prepend is not among the operations used, initialPerpend <= readerIndex holds
as well, which is the whole index invariant. -/
theorem index_invariant_amended (usePrepend : Bool) (b : Buffer)
    (h : Reach usePrepend false b) :
    b.m_readerIndex ≤ b.m_writerIndex ∧ b.m_writerIndex ≤ b.m_buffer.length ∧
    readableBytes b = b.m_writerIndex - b.m_readerIndex ∧
    (usePrepend = false → IndexInv b) := by
  obtain ⟨i1, i2, _, i4, i5⟩ := reach_inv usePrepend b h
  have e : readableBytes b = b.m_writerIndex - b.m_readerIndex :=
    readableBytes_eq b i1 (Nat.lt_of_le_of_lt i2 i4)
  exact ⟨i1, i2, e, fun hp => ⟨i5 hp, i1, i2, e⟩⟩

/-- C3: on a buffer satisfying the index invariant, ensureWritableBytes(len)
leaves the readable bytes as they were, makes writableBytes() >= len (the
closing assertion), and keeps the index invariant; when resize takes the
relocate branch its own assertion initialPerpend < readerIndex holds. -/
theorem ensureWritableBytes_preserves_readable (b : Buffer) (len : Nat)
    (hinv : IndexInv b) (hfit : Fits b len) :
    readable (ensureWritableBytes b len) = readable b ∧
    len ≤ writableBytes (ensureWritableBytes b len) ∧
    IndexInv (ensureWritableBytes b len) ∧
    (writableBytes b < len →
      ¬ addSz (writableBytes b) (prependableBytes b) < addSz len initialPerpend →
      initialPerpend < b.m_readerIndex) := by
  obtain ⟨h8, hrw, hws, _⟩ := hinv
  obtain ⟨g1, g2, g3, _, g5, _, _, g8⟩ := ensureWritableBytes_spec b len hrw hws hfit
  have ew := writableBytes_eq (ensureWritableBytes b len) (by omega) g3
  have er := readableBytes_eq (ensureWritableBytes b len) g1 (by omega)
  refine ⟨g8, by rw [ew]; omega, ⟨g5 h8, g1, by omega, er⟩, ?_⟩
  unfold Fits at hfit
  have hM : sizeMod = 18446744073709551616 := rfl
  rw [writableBytes_eq b hws (by omega), prependableBytes, addSz_eq _ _ (by omega),
    addSz_eq _ _ (by omega)]
  intro h1 h2
  omega

/-- C4, as stated, fails: after three bytes are appended to a fresh buffer,
retrieve(readableBytes()) leaves readerIndex == writerIndex == 11, not 8. -/
theorem retrieve_all_does_not_reset :
    readableBytes (append ctor [1, 2, 3]) = 3 ∧
    (retrieve (append ctor [1, 2, 3]) 3).m_readerIndex = 11 ∧
    (retrieve (append ctor [1, 2, 3]) 3).m_writerIndex = 11 ∧
    (retrieve (append ctor [1, 2, 3]) 3).m_readerIndex ≠ initialPerpend := by
  obtain ⟨hr, hw⟩ := append_ctor_indices [1, 2, 3] (by decide)
  unfold readableBytes retrieve
  simp only [hr, hw]
  decide

/-- C4, amended: reset() and retrieveAsString() leave readerIndex ==
writerIndex == initialPerpend; retrieve(len) with len == readableBytes() only
advances readerIndex, so the buffer is empty with both indices at the old
writerIndex. -/
theorem empty_buffer_indices_amended (b : Buffer) (len : Nat)
    (hrw : b.m_readerIndex ≤ b.m_writerIndex) (hw : b.m_writerIndex < sizeMod)
    (hlen : len = readableBytes b) :
    (reset b).m_readerIndex = initialPerpend ∧ (reset b).m_writerIndex = initialPerpend ∧
    (retrieveAsString b).2.m_readerIndex = initialPerpend ∧
    (retrieveAsString b).2.m_writerIndex = initialPerpend ∧
    (retrieve b len).m_readerIndex = b.m_writerIndex ∧
    (retrieve b len).m_writerIndex = b.m_writerIndex ∧
    readableBytes (retrieve b len) = 0 := by
  have e : addSz b.m_readerIndex len = b.m_writerIndex := by
    rw [hlen, readableBytes_eq b hrw hw, addSz_eq _ _ (by omega)]; omega
  refine ⟨rfl, rfl, rfl, rfl, e, rfl, ?_⟩
  show subSz b.m_writerIndex (addSz b.m_readerIndex len) = 0
  rw [e]
  simp only [subSz, sizeMod]; omega

/-- The amended C1 at a concrete buffer: three bytes appended to a fresh buffer
and two of them retrieved. -/
theorem index_invariant_amended_witness :
    Reach false false (retrieve (append ctor [1, 2, 3]) 2) ∧
    IndexInv (retrieve (append ctor [1, 2, 3]) 2) := by
  have hfit : Fits ctor [(1 : Byte), 2, 3].length := by
    unfold Fits; rw [ctor_length]; decide
  have hpre : retrieve_pre (append ctor [1, 2, 3]) 2 := by
    obtain ⟨hr, hw⟩ := append_ctor_indices [1, 2, 3] (by decide)
    unfold retrieve_pre readableBytes
    rw [hr, hw]; decide
  have hr : Reach false false (retrieve (append ctor [1, 2, 3]) 2) :=
    Reach.retrieve _ _ (Reach.append _ _ Reach.ctor hfit) hpre
  exact ⟨hr, (index_invariant_amended false _ hr).2.2.2 rfl⟩

/-- C3 at a concrete buffer: a request of four bytes on the sample buffer takes
the relocate branch and moves the three readable bytes to position 8. -/
theorem ensureWritableBytes_preserves_readable_witness :
    IndexInv sample ∧ Fits sample 4 ∧
    readable (ensureWritableBytes sample 4) = [7, 8, 9] ∧
    (ensureWritableBytes sample 4).m_readerIndex = 8 ∧
    4 ≤ writableBytes (ensureWritableBytes sample 4) :=
  have h := ensureWritableBytes_preserves_readable sample 4 (by decide) (by decide)
  ⟨by decide, by decide, h.1.trans (by decide), by decide, h.2.1⟩

/-- The amended C4 at the sample buffer: retrieve(3) leaves both indices at 13,
reset brings them back to 8. -/
theorem empty_buffer_indices_amended_witness :
    3 = readableBytes sample ∧
    (retrieve sample 3).m_readerIndex = 13 ∧ (retrieve sample 3).m_writerIndex = 13 ∧
    readableBytes (retrieve sample 3) = 0 ∧ (reset sample).m_readerIndex = 8 :=
  have h := empty_buffer_indices_amended sample 3 (by decide) (by decide) (by decide)
  ⟨by decide, h.2.2.2.2.1, h.2.2.2.2.2.1, h.2.2.2.2.2.2, h.1⟩

end Buffer

/-! ## Channel -/

namespace Channel

theorem filter_four (p : Callback → Bool) (a b c d : Callback) :
    List.filter p [a, b, c, d]
      = (if p a then [a] else []) ++ (if p b then [b] else [])
        ++ (if p c then [c] else []) ++ (if p d then [d] else []) := by
  cases ha : p a <;> cases hb : p b <;> cases hc : p c <;> cases hd : p d <;>
    simp [List.filter_cons, ha, hb, hc, hd]

theorem one_slot (q : Prop) [Decidable q] (i : Bool) (k : Callback) :
    (if (decide q && i) = true then [k] else [])
      = if q then (if i = true then [k] else []) else [] := by
  by_cases hq : q <;> cases i <;> simp [hq]

/-- C5, as stated, fails: with READ and CLOSE both set and both callbacks
installed, the read callback runs before the close callback, so the dispatch
is not the close, error, read, write selection. -/
theorem dispatch_order_not_close_first :
    ¬ ∀ c : Channel, (handleEvent c).2 =
      if dispatches c then selected [.close, .error, .read, .write] c else [] := by
  intro h
  have h1 := h { m_fd := 3, m_revents := 9, m_readCallback := true, m_closeCallback := true }
  revert h1
  decide

/-- C5, amended: handleEvent invokes the installed callbacks whose bit is set
in revents in the order read, write, error, close, each at most once and none
whose bit is clear (and none at all when the tied owner is gone). -/
theorem dispatch_order_amended (c : Channel) :
    (handleEvent c).2 =
      (if dispatches c then selected [.read, .write, .error, .close] c else []) ∧
    (handleEvent c).2.Nodup ∧
    ∀ k ∈ (handleEvent c).2, Int.land c.m_revents (bitOf k) ≠ 0 ∧ installed c k = true := by
  have key : (handleEvent c).2 =
      (if dispatches c then selected [.read, .write, .error, .close] c else []) := by
    have hg : (handleEventWithGuard c).2 = selected [.read, .write, .error, .close] c := by
      unfold handleEventWithGuard selected
      simp only [filter_four, installed, bitOf, one_slot]
    unfold handleEvent dispatches
    cases c.m_isTie <;> cases c.tieAlive <;> simp [hg]
  refine ⟨key, ?_, ?_⟩
  · rw [key]
    split_ifs
    · exact List.Nodup.filter _ (by decide)
    · exact List.nodup_nil
  · intro k hk
    rw [key] at hk
    split_ifs at hk
    · unfold selected at hk
      have := (List.mem_filter.mp hk).2
      simpa using this
    · simp at hk

end Channel

/-! ## EventLoop -/

namespace EventLoop

theorem work_append (l : EventLoop) (e : LoopEvent) (he : e ≠ LoopEvent.wakeup) :
    work { l with log := l.log ++ [e] } = work l ++ [e] := by
  simp [work, List.filter_append, he]

theorem queueInLoop_fields (t : Bool) (l : EventLoop) (f : Nat) :
    (queueInLoop t l f).m_functors = l.m_functors ++ [f] ∧
    (queueInLoop t l f).m_callingFunctors = l.m_callingFunctors ∧
    work (queueInLoop t l f) = work l := by
  unfold queueInLoop wakeup work
  cases t <;> cases l.m_callingFunctors <;> simp

theorem queueAll_fields (calls : List (Bool × Nat)) : ∀ l : EventLoop,
    (queueAll l calls).m_functors = l.m_functors ++ queued calls ∧
    (queueAll l calls).m_callingFunctors = l.m_callingFunctors ∧
    work (queueAll l calls) = work l := by
  induction calls with
  | nil => intro l; simp [queueAll, queued]
  | cons c cs ih =>
    intro l
    obtain ⟨h1, h2, h3⟩ := ih (queueInLoop c.1 l c.2)
    obtain ⟨g1, g2, g3⟩ := queueInLoop_fields c.1 l c.2
    unfold queueAll at h1 h2 h3 ⊢
    simp only [List.foldl_cons]
    rw [h1, h2, h3, g1, g2, g3]
    simp [queued]

theorem dispatch_fold (u : Callbacks) (chs : List Nat) : ∀ l : EventLoop,
    (chs.foldl (dispatch u) l).m_functors
      = l.m_functors ++ chs.flatMap (fun ch => queued (u.onChannel ch)) ∧
    work (chs.foldl (dispatch u) l) = work l ++ chs.map LoopEvent.handleEvent := by
  induction chs with
  | nil => intro l; simp
  | cons ch chs ih =>
    intro l
    obtain ⟨h1, h2⟩ := ih (dispatch u l ch)
    obtain ⟨g1, _, g3⟩ :=
      queueAll_fields (u.onChannel ch) { l with log := l.log ++ [LoopEvent.handleEvent ch] }
    simp only [List.foldl_cons]
    rw [h1, h2]
    unfold dispatch
    rw [g1, g3, work_append _ _ (by simp)]
    simp

theorem call_fold (u : Callbacks) (fs : List Nat) : ∀ l : EventLoop,
    (fs.foldl (call u) l).m_functors
      = l.m_functors ++ fs.flatMap (fun f => queued (u.onFunctor f)) ∧
    (fs.foldl (call u) l).m_callingFunctors = l.m_callingFunctors ∧
    work (fs.foldl (call u) l) = work l ++ fs.map LoopEvent.runFunctor := by
  induction fs with
  | nil => intro l; simp
  | cons f fs ih =>
    intro l
    obtain ⟨h1, h2, h3⟩ := ih (call u l f)
    obtain ⟨g1, g2, g3⟩ :=
      queueAll_fields (u.onFunctor f) { l with log := l.log ++ [LoopEvent.runFunctor f] }
    simp only [List.foldl_cons]
    rw [h1, h2, h3]
    unfold call
    rw [g1, g2, g3, work_append _ _ (by simp)]
    simp

/-- C6: in one iteration of the loop every active channel is dispatched, in
the order the poller returned them, before any functor runs; then exactly the
functors in the queue at the swap run, once each and in enqueue order; the
functors enqueued while draining are the queue afterwards, in enqueue order. -/
theorem loop_cycle_order (u : Callbacks) (polled : List Nat) (l : EventLoop) :
    work (loopIteration u polled l)
      = work l ++ polled.map LoopEvent.handleEvent
        ++ (l.m_functors ++ polled.flatMap (fun ch => queued (u.onChannel ch))).map
            LoopEvent.runFunctor ∧
    (loopIteration u polled l).m_functors
      = (l.m_functors ++ polled.flatMap (fun ch => queued (u.onChannel ch))).flatMap
          (fun f => queued (u.onFunctor f)) := by
  obtain ⟨d1, d2⟩ := dispatch_fold u polled { l with m_activeChannels := polled }
  unfold loopIteration handleFunctors
  simp only []
  generalize List.foldl (dispatch u) { l with m_activeChannels := polled } polled = l2 at *
  obtain ⟨c1, _, c3⟩ := call_fold u l2.m_functors
    { l2 with m_callingFunctors := true, m_functors := [] }
  constructor
  · show List.filter _ (List.foldl (call u) _ l2.m_functors).log = _
    have := c3
    unfold work at this d2 ⊢
    rw [this, d1]
    simp only [] at d2 ⊢
    rw [d2]
  · show (List.foldl (call u) _ l2.m_functors).m_functors = _
    rw [c1, d1]
    simp

/-- C7: queueInLoop appends the functor at the end of the queue, and writes to
the wakeup descriptor if and only if the caller is not the I/O thread or
m_callingFunctors is set; otherwise the log is left as it was. While
handleFunctors drains a functor the flag is set. -/
theorem queueInLoop_wakeup (isInLoopThread : Bool) (l : EventLoop) (cb : Nat) :
    (queueInLoop isInLoopThread l cb).m_functors = l.m_functors ++ [cb] ∧
    ((queueInLoop isInLoopThread l cb).log = l.log ++ [LoopEvent.wakeup] ↔
      (isInLoopThread = false ∨ l.m_callingFunctors = true)) ∧
    ((queueInLoop isInLoopThread l cb).log = l.log ↔
      ¬ (isInLoopThread = false ∨ l.m_callingFunctors = true)) ∧
    ∀ (u : Callbacks) (fs : List Nat),
      (fs.foldl (call u) { l with m_callingFunctors := true, m_functors := [] }).m_callingFunctors
        = true := by
  refine ⟨(queueInLoop_fields _ _ _).1, ?_, ?_, fun u fs => (call_fold u fs _).2.1⟩
  · unfold queueInLoop wakeup
    cases isInLoopThread <;> cases l.m_callingFunctors <;> simp
  · unfold queueInLoop wakeup
    cases isInLoopThread <;> cases l.m_callingFunctors <;> simp

end EventLoop

/-! ## PollPoller -/

namespace PollPoller

/-- The update branch of updateChannel: the record of a registered channel
gets the events of the subscription mask; its descriptor field becomes
-fd - 1 when the mask is empty and is otherwise left as it was. -/
theorem updateChannel_record (p : PollPoller) (ptr : Nat) (c : Channel) (pfd : PollFd)
    (hidx : 0 ≤ c.m_index) (hget : p.m_pollfds.get? c.m_index.toNat = some pfd) :
    Channel.record (updateChannel p ptr c).1 (updateChannel p ptr c).2
      = some { fd := if c.isNoneEvent then -c.m_fd - 1 else pfd.fd
               events := getPollEvent c.m_events
               revents := 0 } := by
  have hlt : c.m_index.toNat < p.m_pollfds.length := by
    rcases Nat.lt_or_ge c.m_index.toNat p.m_pollfds.length with h | h
    · exact h
    · rw [List.get?_eq_none.mpr h] at hget; cases hget
  unfold updateChannel Channel.record
  rw [if_neg (by omega)]
  simp only [hget]
  rw [List.get?_eq_getElem?, List.getElem?_set_self hlt]
  cases c.isNoneEvent <;> simp

theorem updateChannel_tracks (fd : Int) (fresh : Bool) (ptr : Nat) (s : PollPoller × Channel)
    (c : Channel) (h : Channel.Tracks fd fresh s) (hfd : c.m_fd = s.2.m_fd)
    (hidx : c.m_index = s.2.m_index) :
    Channel.Tracks fd true (updateChannel s.1 ptr c) := by
  obtain ⟨h0, h1, r, hr, hrfd, _⟩ := h
  have hget : s.1.m_pollfds.get? c.m_index.toNat = some r := by
    rw [hidx]; exact hr
  have hu := updateChannel_record s.1 ptr c r (by omega) hget
  have hc2 : (updateChannel s.1 ptr c).2 = c := by
    unfold updateChannel
    rw [if_neg (by omega)]
    simp only [hget]
  refine ⟨by rw [hc2]; omega, by rw [hc2, hfd, h1], _, hu, ?_, fun _ => ⟨by rw [hc2], ?_⟩⟩
  · show (if c.isNoneEvent = true then -c.m_fd - 1 else r.fd) = fd ∨
      (if c.isNoneEvent = true then -c.m_fd - 1 else r.fd) = -fd - 1
    rw [hfd, h1]
    split_ifs
    · exact Or.inr rfl
    · exact hrfd
  · rw [hc2]
    intro hnone
    show (if c.isNoneEvent = true then -c.m_fd - 1 else r.fd) = -fd - 1
    rw [if_pos hnone, hfd, h1]

theorem step_tracks (fd : Int) (fresh : Bool) (ptr : Nat) (s : PollPoller × Channel)
    (op : Channel.Op) (h : Channel.Tracks fd fresh s) :
    Channel.Tracks fd true (Channel.step ptr s op) := by
  cases op <;> exact updateChannel_tracks fd fresh ptr s _ h rfl rfl

/-- What holds of the record after any non-empty sequence of mask operations
on a registered channel: it has the events of the mask, its descriptor field
is fd or -fd - 1, and it is -fd - 1 when the mask is empty. -/
theorem record_after_ops (fd : Int) (ptr : Nat) (ops : List Channel.Op) :
    ∀ (fresh : Bool) (s : PollPoller × Channel), Channel.Tracks fd fresh s → ops ≠ [] →
      Channel.Tracks fd true (Channel.run ptr s ops) := by
  induction ops with
  | nil => intro _ _ _ h; exact absurd rfl h
  | cons op ops ih =>
    intro fresh s h _
    have h1 := step_tracks fd fresh ptr s op h
    cases ops with
    | nil => exact h1
    | cons op2 ops2 => exact ih true _ h1 (by simp)

/-- C8 at the failing input: a channel on descriptor 5 is registered by
enableRead, then disableAll, then enableRead again. Its record has the events
of the mask, but the descriptor field is still -6, so poll(2) ignores it and
the record does not agree with the channel. -/
theorem reenabled_channel_keeps_negated_fd :
    Channel.record (Channel.run 7 ({}, { m_fd := 5 }) [.enableRead, .disableAll, .enableRead]).1
        (Channel.run 7 ({}, { m_fd := 5 }) [.enableRead, .disableAll, .enableRead]).2
      = some { fd := -6, events := 3, revents := 0 } ∧
    (Channel.run 7 ({}, { m_fd := 5 }) [.enableRead, .disableAll, .enableRead]).2.isNoneEvent
      = false ∧
    (Channel.run 7 ({}, { m_fd := 5 }) [.enableRead, .disableAll, .enableRead]).2.m_fd = 5 ∧
    Channel.Agrees (Channel.run 7 ({}, { m_fd := 5 }) [.enableRead]) ∧
    Channel.Agrees (Channel.run 7 ({}, { m_fd := 5 }) [.enableRead, .disableAll]) ∧
    ¬ Channel.Agrees
      (Channel.run 7 ({}, { m_fd := 5 }) [.enableRead, .disableAll, .enableRead]) := by
  decide

end PollPoller

/-! ## TimerQueue -/

namespace TimerQueue

theorem mem_setEmplace {α : Type} [DecidableEq α] (lt : α → α → Bool) (x : α) (xs : List α) :
    x ∈ (setEmplace lt x xs).1 := by
  induction xs with
  | nil => simp [setEmplace]
  | cons y ys ih =>
    unfold setEmplace
    split_ifs with h1 h2
    · simp [h1]
    · simp
    · simp [ih]

/-- A cancel issued while the expired batch runs, for a timer that is no longer
in m_activeTimers, records the pair in m_cancelingTimers and leaves the two
sets alone. -/
theorem cancel_while_calling (q : TimerQueue) (id : TimerId)
    (hcall : q.m_callingExpiredTimers = true)
    (hnot : (id.m_timer, id.m_sequence) ∉ q.m_activeTimers) :
    (id.m_timer, id.m_sequence) ∈ (cancel q id).m_cancelingTimers ∧
    (cancel q id).m_timers = q.m_timers ∧
    (cancel q id).m_activeTimers = q.m_activeTimers ∧
    (cancel q id).objects = q.objects := by
  have e : cancel q id = { q with m_cancelingTimers :=
      (setEmplace activeLt (id.m_timer, id.m_sequence) q.m_cancelingTimers).1 } := by
    unfold cancel
    simp only [if_neg hnot, hcall, if_true]
  rw [e]
  exact ⟨mem_setEmplace _ _ _, rfl, rfl, rfl⟩

/-- The reset of an expired timer whose pair is in m_cancelingTimers deletes the
timer and inserts nothing. -/
theorem reset_skips_canceled (q : TimerQueue) (e timer now : Nat) (t : Timer)
    (hd : deref q timer = some t)
    (hc : (timer, t.m_sequence) ∈ q.m_cancelingTimers) :
    reset q [(e, timer)] now = free q timer := by
  unfold reset
  simp [hd, hc]

/-- The thread build of addTimer returns the pointer with sequence 0, while the
timer it created carries the next value of the counter. -/
theorem addTimer_thread_id (q : TimerQueue) (addr cb when interval : Nat) :
    (addTimer .thread q addr cb when interval).1 = { m_timer := addr, m_sequence := 0 } ∧
    (deref (addTimer .thread q addr cb when interval).2 addr).map Timer.m_sequence
      = some (q.s_numCreated + 1) := by
  constructor
  · rfl
  · simp [addTimer, alloc, insert, deref, Timer.ctor]

/-- The timerfd build of addTimer returns the pointer with the sequence of the
timer it created. -/
theorem addTimer_timerfd_id (q : TimerQueue) (addr cb when interval : Nat) :
    (addTimer .timerfd q addr cb when interval).1
      = { m_timer := addr, m_sequence := q.s_numCreated + 1 } ∧
    (deref (addTimer .timerfd q addr cb when interval).2 addr).map Timer.m_sequence
      = some (q.s_numCreated + 1) := by
  constructor
  · rfl
  · simp [addTimer, alloc, insert, deref, Timer.ctor]

/-- The timerfd build on the example: a repeater whose callback cancels itself
is in neither set after its batch, and one that cancels on the third
invocation runs three times, however many batches follow. -/
theorem timerfd_self_cancel_example :
    (exampleRun .timerfd 2 [10]).1.m_timers = [] ∧
    (exampleRun .timerfd 2 [10]).1.m_activeTimers = [] ∧
    (exampleRun .timerfd 1 [10, 15, 20]).2.calls = 3 ∧
    (exampleRun .timerfd 1 [10, 15, 20]).1.m_timers = [] ∧
    (exampleRun .timerfd 1 [10, 15, 20]).1.m_activeTimers = [] ∧
    (exampleRun .timerfd 1 [10, 15, 20, 25, 30]).2.calls = 3 := by
  decide

/-- C9 at the failing input, the thread build: the callback of a repeater
calls cancel with the TimerId that addTimer returned, and after the batch the
timer is back in both sets; with a callback that cancels on the third
invocation there is a fourth invocation. -/
theorem thread_self_cancel_is_reinserted :
    (exampleStart .thread 2).2.id = { m_timer := 100, m_sequence := 0 } ∧
    (exampleRun .thread 2 [10]).1.m_timers = [(15, 100)] ∧
    (exampleRun .thread 2 [10]).1.m_activeTimers = [(100, 1)] ∧
    (exampleRun .thread 1 [10, 15, 20]).1.m_activeTimers = [(100, 1)] ∧
    (exampleRun .thread 1 [10, 15, 20, 25]).2.calls = 4 := by
  decide

/-- C10 at the failing input, the thread build: the TimerId returned for the
first timer is the pointer with sequence 0 although the timer has sequence 1,
and cancel with it, while the timer is pending, leaves both sets as they
were. -/
theorem thread_timer_id_does_not_cancel :
    (addTimer .thread {} 100 1 10 5).1 = { m_timer := 100, m_sequence := 0 } ∧
    (deref (addTimer .thread {} 100 1 10 5).2 100).map Timer.m_sequence = some 1 ∧
    (addTimer .thread {} 100 1 10 5).2.m_timers = [(10, 100)] ∧
    (addTimer .thread {} 100 1 10 5).2.m_activeTimers = [(100, 1)] ∧
    cancel (addTimer .thread {} 100 1 10 5).2 (addTimer .thread {} 100 1 10 5).1
      = (addTimer .thread {} 100 1 10 5).2 := by
  decide

/-- The timerfd build on the same input: cancel with the returned TimerId
empties both sets. -/
theorem timerfd_timer_id_cancels :
    (addTimer .timerfd {} 100 1 10 5).1 = { m_timer := 100, m_sequence := 1 } ∧
    (cancel (addTimer .timerfd {} 100 1 10 5).2 (addTimer .timerfd {} 100 1 10 5).1).m_timers
      = [] ∧
    (cancel (addTimer .timerfd {} 100 1 10 5).2
      (addTimer .timerfd {} 100 1 10 5).1).m_activeTimers = [] := by
  decide

theorem erase_setEmplace {α : Type} [DecidableEq α] [BEq α] [LawfulBEq α]
    (lt : α → α → Bool) (x : α) (xs : List α)
    (h : x ∉ xs) : ((setEmplace lt x xs).1).erase x = xs := by
  induction xs with
  | nil => simp [setEmplace]
  | cons y ys ih =>
    have hxy : x ≠ y := fun e => h (by simp [e])
    have hys : x ∉ ys := fun e => h (by simp [e])
    unfold setEmplace
    rw [if_neg hxy]
    split_ifs
    · simp
    · show (y :: (setEmplace lt x ys).1).erase x = y :: ys
      rw [List.erase_cons_tail (by simpa using Ne.symm hxy), ih hys]

theorem deref_alloc (q : TimerQueue) (addr : Nat) (t : Timer) :
    deref (alloc q addr t) addr = some t := by
  simp [deref, alloc]

theorem deref_free (q : TimerQueue) (timer : Nat) : deref (free q timer) timer = none := by
  simp [deref, free, List.find?_eq_none]

/-- The timerfd build, for every queue: the timer that addTimer creates is in
both sets, and cancel with the returned TimerId, issued while the timer is
pending, finds it and takes it out of both sets again. -/
theorem timerfd_addTimer_then_cancel (q : TimerQueue) (addr cb when interval : Nat)
    (h1 : (when, addr) ∉ q.m_timers) (h2 : (addr, q.s_numCreated + 1) ∉ q.m_activeTimers) :
    (when, addr) ∈ (addTimer .timerfd q addr cb when interval).2.m_timers ∧
    (addr, q.s_numCreated + 1) ∈ (addTimer .timerfd q addr cb when interval).2.m_activeTimers ∧
    (cancel (addTimer .timerfd q addr cb when interval).2
      (addTimer .timerfd q addr cb when interval).1).m_timers = q.m_timers ∧
    (cancel (addTimer .timerfd q addr cb when interval).2
      (addTimer .timerfd q addr cb when interval).1).m_activeTimers = q.m_activeTimers := by
  have hd := deref_alloc { q with s_numCreated := q.s_numCreated + 1 } addr
    (Timer.ctor (q.s_numCreated + 1) cb when interval)
  have hadd : (addTimer .timerfd q addr cb when interval).2 =
      { alloc { q with s_numCreated := q.s_numCreated + 1 } addr
          (Timer.ctor (q.s_numCreated + 1) cb when interval) with
        m_timers := (setEmplace entryLt (when, addr) q.m_timers).1
        m_activeTimers := (setEmplace activeLt (addr, q.s_numCreated + 1) q.m_activeTimers).1 } := by
    unfold addTimer insert
    simp only [hd]
    rfl
  have hid : (addTimer .timerfd q addr cb when interval).1
      = { m_timer := addr, m_sequence := q.s_numCreated + 1 } := rfl
  rw [hadd, hid]
  refine ⟨mem_setEmplace _ _ _, mem_setEmplace _ _ _, ?_, ?_⟩
  · unfold cancel
    simp only [mem_setEmplace, if_true]
    have hd2 : deref { alloc { q with s_numCreated := q.s_numCreated + 1 } addr
          (Timer.ctor (q.s_numCreated + 1) cb when interval) with
        m_timers := (setEmplace entryLt (when, addr) q.m_timers).1
        m_activeTimers := (setEmplace activeLt (addr, q.s_numCreated + 1) q.m_activeTimers).1 }
        addr = some (Timer.ctor (q.s_numCreated + 1) cb when interval) := hd
    simp only [hd2]
    show ((setEmplace entryLt (when, addr) q.m_timers).1).erase (when, addr) = q.m_timers
    exact erase_setEmplace _ _ _ h1
  · unfold cancel
    simp only [mem_setEmplace, if_true]
    have hd2 : deref { alloc { q with s_numCreated := q.s_numCreated + 1 } addr
          (Timer.ctor (q.s_numCreated + 1) cb when interval) with
        m_timers := (setEmplace entryLt (when, addr) q.m_timers).1
        m_activeTimers := (setEmplace activeLt (addr, q.s_numCreated + 1) q.m_activeTimers).1 }
        addr = some (Timer.ctor (q.s_numCreated + 1) cb when interval) := hd
    simp only [hd2]
    show ((setEmplace activeLt (addr, q.s_numCreated + 1) q.m_activeTimers).1).erase
      (addr, q.s_numCreated + 1) = q.m_activeTimers
    exact erase_setEmplace _ _ _ h2

theorem takeWhile_none {α : Type} (P : α → Bool) (xs : List α) (h : ∀ x ∈ xs, P x = false) :
    xs.takeWhile P = [] ∧ xs.dropWhile P = xs := by
  cases xs with
  | nil => simp
  | cons y ys => simp [List.takeWhile, List.dropWhile, h y (by simp)]

/-- The firing sequence on a queue whose only expired timer is a repeater at
address p, with the rest of the primary set not yet due. -/
theorem getExpired_single (q : TimerQueue) (p e now : Nat) (t : Timer) (rest : List (Nat × Nat))
    (hq : q.m_timers = (e, p) :: rest) (he : e ≤ now) (hp : p < UINTPTR_MAX)
    (hrest : ∀ x ∈ rest, now < x.1) (hd : deref q p = some t) :
    getExpired q now = ([(e, p)],
      { q with m_timers := rest
               m_activeTimers := q.m_activeTimers.erase (p, t.m_sequence) }) := by
  have hlt : entryLt (e, p) (now, UINTPTR_MAX) = true := by
    unfold entryLt
    rcases Nat.lt_or_eq_of_le he with h | h
    · simp [h]
    · simp [h, hp]
  have hno : ∀ x ∈ rest, entryLt x (now, UINTPTR_MAX) = false := by
    intro x hx
    have := hrest x hx
    unfold entryLt
    simp only [Bool.or_eq_false_iff, Bool.and_eq_false_imp, decide_eq_false_iff_not,
      beq_iff_eq, decide_eq_true_eq]
    constructor
    · omega
    · intro h; omega
  obtain ⟨ht, hdr⟩ := takeWhile_none (fun x => entryLt x (now, UINTPTR_MAX)) rest hno
  have hd1 : deref { q with m_timers := rest } p = some t := hd
  unfold getExpired
  simp only [hq, List.takeWhile, List.dropWhile, hlt, ht, hdr, List.foldl_cons, List.foldl_nil,
    hd1]

/-- The timerfd build, for every queue whose expired batch is one timer,
repeating or not: when the callback of the timer calls cancel with the TimerId
of the timer (pointer and sequence), the timer is deleted by reset and is in
neither set afterwards. -/
theorem timerfd_self_cancel_not_reinserted {σ : Type}
    (cbs : Nat → TimerQueue × σ → TimerQueue × σ) (f : σ → σ)
    (q : TimerQueue) (u : σ) (p e now : Nat) (t : Timer) (rest : List (Nat × Nat))
    (hq : q.m_timers = (e, p) :: rest) (he : e ≤ now) (hp : p < UINTPTR_MAX)
    (hrest : ∀ x ∈ rest, now < x.1)
    (hd : deref q p = some t)
    (hnodup : q.m_activeTimers.Nodup)
    (hcb : ∀ w, cbs t.m_callback w
      = (cancel w.1 { m_timer := p, m_sequence := t.m_sequence }, f w.2)) :
    (handleRead cbs now (q, u)).1.m_timers = rest ∧
    (handleRead cbs now (q, u)).1.m_activeTimers = q.m_activeTimers.erase (p, t.m_sequence) ∧
    deref (handleRead cbs now (q, u)).1 p = none ∧
    (handleRead cbs now (q, u)).2 = f u := by
  have hge := getExpired_single q p e now t rest hq he hp hrest hd
  have hnot : (p, t.m_sequence) ∉ q.m_activeTimers.erase (p, t.m_sequence) :=
    fun h => (List.Nodup.mem_erase_iff hnodup).mp h |>.1 rfl
  have hcan : cancel { q with m_timers := rest
                              m_activeTimers := q.m_activeTimers.erase (p, t.m_sequence)
                              m_callingExpiredTimers := true
                              m_cancelingTimers := [] }
        { m_timer := p, m_sequence := t.m_sequence }
      = { q with m_timers := rest
                 m_activeTimers := q.m_activeTimers.erase (p, t.m_sequence)
                 m_callingExpiredTimers := true
                 m_cancelingTimers := [(p, t.m_sequence)] } := by
    unfold cancel
    simp only [if_neg hnot, if_true]
    rfl
  have hd2 : deref { q with m_timers := rest
                            m_activeTimers := q.m_activeTimers.erase (p, t.m_sequence)
                            m_callingExpiredTimers := true
                            m_cancelingTimers := [] } p = some t := hd
  have hd3 : deref { q with m_timers := rest
                            m_activeTimers := q.m_activeTimers.erase (p, t.m_sequence)
                            m_callingExpiredTimers := false
                            m_cancelingTimers := [(p, t.m_sequence)] } p = some t := hd
  have hres := reset_skips_canceled
    { q with m_timers := rest
             m_activeTimers := q.m_activeTimers.erase (p, t.m_sequence)
             m_callingExpiredTimers := false
             m_cancelingTimers := [(p, t.m_sequence)] } e p now t hd3 (by simp)
  have hall : handleRead cbs now (q, u)
      = (free { q with m_timers := rest
                       m_activeTimers := q.m_activeTimers.erase (p, t.m_sequence)
                       m_callingExpiredTimers := false
                       m_cancelingTimers := [(p, t.m_sequence)] } p, f u) := by
    unfold handleRead
    simp only [hge, List.foldl_cons, List.foldl_nil, hd2, hcb, hcan]
    rw [hres]
  rw [hall]
  exact ⟨rfl, rfl, deref_free _ _, rfl⟩

theorem find_store (timer : Nat) (t t2 : Timer) (os : List (Nat × Timer))
    (h : (os.find? (fun o => o.1 == timer)).map Prod.snd = some t) :
    ((os.map (fun o => if (o.1 == timer) = true then (o.1, t2) else o)).find?
      (fun o => o.1 == timer)).map Prod.snd = some t2 := by
  induction os with
  | nil => simp at h
  | cons o os ih =>
    by_cases ho : o.1 = timer
    · simp [List.find?_cons, ho]
    · have hb : (o.1 == timer) = false := by simpa using ho
      rw [List.find?_cons, hb] at h
      rw [List.map_cons, hb, List.find?_cons]
      simp only [Bool.false_eq_true, if_false, hb]
      exact ih h

theorem deref_store (q : TimerQueue) (timer : Nat) (t t2 : Timer)
    (hd : deref q timer = some t) : deref (store q timer t2) timer = some t2 :=
  find_store timer t t2 q.objects hd

/-- The thread build, for every queue whose expired batch is one repeating
timer: the callback calls cancel with the TimerId that addTimer of this build
returns, the pointer with sequence 0, and reset puts the timer back into both
sets with its next expiration. -/
theorem thread_self_cancel_reinserted {σ : Type}
    (cbs : Nat → TimerQueue × σ → TimerQueue × σ) (f : σ → σ)
    (q : TimerQueue) (u : σ) (p e now : Nat) (t : Timer) (rest : List (Nat × Nat))
    (hq : q.m_timers = (e, p) :: rest) (he : e ≤ now) (hp : p < UINTPTR_MAX)
    (hrest : ∀ x ∈ rest, now < x.1)
    (hd : deref q p = some t) (hrep : t.m_repeat = true) (hseq : t.m_sequence ≠ 0)
    (hzero : (p, (0 : Int)) ∉ q.m_activeTimers)
    (hcb : ∀ w, cbs t.m_callback w = (cancel w.1 { m_timer := p }, f w.2)) :
    (addTime now t.m_interval, p) ∈ (handleRead cbs now (q, u)).1.m_timers ∧
    (p, t.m_sequence) ∈ (handleRead cbs now (q, u)).1.m_activeTimers ∧
    (handleRead cbs now (q, u)).2 = f u := by
  have hge := getExpired_single q p e now t rest hq he hp hrest hd
  have hnot : (p, (0 : Int)) ∉ q.m_activeTimers.erase (p, t.m_sequence) :=
    fun h => hzero (List.mem_of_mem_erase h)
  have hcan : cancel { q with m_timers := rest
                              m_activeTimers := q.m_activeTimers.erase (p, t.m_sequence)
                              m_callingExpiredTimers := true
                              m_cancelingTimers := [] }
        { m_timer := p }
      = { q with m_timers := rest
                 m_activeTimers := q.m_activeTimers.erase (p, t.m_sequence)
                 m_callingExpiredTimers := true
                 m_cancelingTimers := [(p, 0)] } := by
    unfold cancel
    simp only [if_neg hnot, if_true]
    rfl
  have hd2 : deref { q with m_timers := rest
                            m_activeTimers := q.m_activeTimers.erase (p, t.m_sequence)
                            m_callingExpiredTimers := true
                            m_cancelingTimers := [] } p = some t := hd
  have hd3 : deref { q with m_timers := rest
                            m_activeTimers := q.m_activeTimers.erase (p, t.m_sequence)
                            m_callingExpiredTimers := false
                            m_cancelingTimers := [(p, 0)] } p = some t := hd
  have hd4 := deref_store _ p t (t.restart now) hd3
  have hexp : (t.restart now).m_expiration = addTime now t.m_interval := by
    unfold Timer.restart; rw [if_pos hrep]
  have hsq : (t.restart now).m_sequence = t.m_sequence := by
    unfold Timer.restart; rw [if_pos hrep]
  have hne : ¬ ((p, t.m_sequence) ∈ [(p, (0 : Int))]) := by
    simp [hseq]
  unfold handleRead
  simp only [hge, List.foldl_cons, List.foldl_nil, hd2, hcb, hcan]
  unfold reset
  simp only [List.foldl_cons, List.foldl_nil, hd3, hrep, hne, decide_False, Bool.not_false,
    Bool.and_self, if_true]
  unfold insert
  simp only [hd4, hexp, hsq]
  refine ⟨mem_setEmplace _ _ _, mem_setEmplace _ _ _, ?_⟩
  trivial

end TimerQueue

/-! ## TimerQueue: cancel twice -/

namespace TimerQueue

theorem setEmplace_again {α : Type} [DecidableEq α] (lt : α → α → Bool) (x : α) (xs : List α) :
    (setEmplace lt x (setEmplace lt x xs).1).1 = (setEmplace lt x xs).1 := by
  induction xs with
  | nil => simp [setEmplace]
  | cons y ys ih =>
    by_cases h1 : x = y
    · simp [setEmplace, h1]
    · by_cases h2 : lt x y = true
      · simp [setEmplace, h1, h2]
      · simp only [setEmplace, h1, h2, if_false]
        simp only [Bool.false_eq_true, if_false]
        rw [ih]

/-- C11, as stated, fails: while a batch fires, the first cancel of a pending
timer takes it out of the primary and auxiliary set, and the second cancel
with the same id records the id in the canceling set, which the first had left
empty. -/
theorem cancel_twice_differs_while_firing :
    exampleFiring.m_callingExpiredTimers = true ∧
    (200, 2) ∈ exampleFiring.m_activeTimers ∧
    sets (cancel exampleFiring { m_timer := 200, m_sequence := 2 }) = ([], [], []) ∧
    sets (cancel (cancel exampleFiring { m_timer := 200, m_sequence := 2 })
      { m_timer := 200, m_sequence := 2 }) = ([], [], [(200, 2)]) := by
  decide

/-- C11, amended: cancelling an id twice leaves the primary and the auxiliary
set as cancelling it once; the canceling set is the same too unless a batch is
firing and the id named a timer in the auxiliary set, in which case the second
cancel records the id; and when the id names no timer in the auxiliary set and
no batch is firing, cancel leaves the queue as it is. -/
theorem cancel_idempotent_amended (q : TimerQueue) (id : TimerId)
    (hnodup : q.m_activeTimers.Nodup) :
    (cancel (cancel q id) id).m_timers = (cancel q id).m_timers ∧
    (cancel (cancel q id) id).m_activeTimers = (cancel q id).m_activeTimers ∧
    ((q.m_callingExpiredTimers = false ∨ (id.m_timer, id.m_sequence) ∉ q.m_activeTimers) →
      (cancel (cancel q id) id).m_cancelingTimers = (cancel q id).m_cancelingTimers) ∧
    ((id.m_timer, id.m_sequence) ∉ q.m_activeTimers → q.m_callingExpiredTimers = false →
      cancel q id = q) := by
  by_cases hin : (id.m_timer, id.m_sequence) ∈ q.m_activeTimers
  · cases hd : deref q id.m_timer with
    | none =>
      have e : cancel q id = q := by
        unfold cancel
        simp only [hin, if_true, hd]
      rw [e, e]
      exact ⟨rfl, rfl, fun _ => rfl, fun h => absurd hin h⟩
    | some t =>
      have e : cancel q id =
          { free { q with m_timers := q.m_timers.erase (t.m_expiration, id.m_timer) }
              id.m_timer with
            m_activeTimers := q.m_activeTimers.erase (id.m_timer, id.m_sequence) } := by
        unfold cancel
        simp only [hin, if_true, hd]
        rfl
      have hnot : (id.m_timer, id.m_sequence) ∉
          q.m_activeTimers.erase (id.m_timer, id.m_sequence) :=
        fun h => (List.Nodup.mem_erase_iff hnodup).mp h |>.1 rfl
      rw [e]
      generalize hq1 : ({ free { q with m_timers := q.m_timers.erase (t.m_expiration, id.m_timer) }
              id.m_timer with
            m_activeTimers := q.m_activeTimers.erase (id.m_timer, id.m_sequence) } : TimerQueue)
        = q1
      have ha : q1.m_activeTimers = q.m_activeTimers.erase (id.m_timer, id.m_sequence) := by
        rw [← hq1]
      have hc : q1.m_callingExpiredTimers = q.m_callingExpiredTimers := by
        rw [← hq1]; rfl
      have hnot1 : (id.m_timer, id.m_sequence) ∉ q1.m_activeTimers := by rw [ha]; exact hnot
      refine ⟨?_, ?_, ?_, fun h => absurd hin h⟩
      · unfold cancel
        simp only [hnot1, if_false]
        split_ifs <;> rfl
      · unfold cancel
        simp only [hnot1, if_false]
        split_ifs <;> rfl
      · intro h
        rcases h with h | h
        · unfold cancel
          simp only [hnot1, if_false, hc, h]
          rfl
        · exact absurd hin h
  · by_cases hcall : q.m_callingExpiredTimers = true
    · have e : cancel q id = { q with m_cancelingTimers :=
          (setEmplace activeLt (id.m_timer, id.m_sequence) q.m_cancelingTimers).1 } := by
        unfold cancel
        simp only [hin, if_false, hcall, if_true]
      have e2 : cancel { q with m_cancelingTimers :=
          (setEmplace activeLt (id.m_timer, id.m_sequence) q.m_cancelingTimers).1 } id
          = { q with m_cancelingTimers :=
          (setEmplace activeLt (id.m_timer, id.m_sequence) q.m_cancelingTimers).1 } := by
        unfold cancel
        simp only [hin, if_false, hcall, if_true, setEmplace_again]
      rw [e, e2]
      exact ⟨rfl, rfl, fun _ => rfl, fun _ h => by rw [h] at hcall; cases hcall⟩
    · have e : cancel q id = q := by
        unfold cancel
        simp only [hin, if_false, hcall]
        rfl
      rw [e, e]
      exact ⟨rfl, rfl, fun _ => rfl, fun _ _ => rfl⟩

/-- The amended C11 on the queue of the example while a batch fires. -/
theorem cancel_idempotent_amended_witness :
    exampleFiring.m_activeTimers.Nodup ∧
    (cancel (cancel exampleFiring { m_timer := 200, m_sequence := 2 })
      { m_timer := 200, m_sequence := 2 }).m_timers = [] ∧
    (cancel (cancel exampleFiring { m_timer := 200, m_sequence := 2 })
      { m_timer := 200, m_sequence := 2 }).m_activeTimers = [] :=
  have h := cancel_idempotent_amended exampleFiring { m_timer := 200, m_sequence := 2 }
    (by decide)
  ⟨by decide, h.1.trans (by decide), h.2.1.trans (by decide)⟩

end TimerQueue

/-! ## TimerQueue: set agreement -/

namespace TimerQueue

theorem deref_alloc_ne (q : TimerQueue) (addr p : Nat) (t : Timer) (h : p ≠ addr) :
    deref (alloc q addr t) p = deref q p := by
  have hb : (addr == p) = false := by simpa using Ne.symm h
  simp [deref, alloc, List.find?_cons, hb]

theorem find_filter_ne (timer p : Nat) (os : List (Nat × Timer)) (h : p ≠ timer) :
    (os.filter (fun o => o.1 != timer)).find? (fun o => o.1 == p)
      = os.find? (fun o => o.1 == p) := by
  induction os with
  | nil => rfl
  | cons o os ih =>
    by_cases ho : o.1 = timer
    · have hop : (o.1 == p) = false := by simpa [ho] using Ne.symm h
      have hot : (o.1 != timer) = false := by simp [ho]
      simp only [List.filter_cons, hot, Bool.false_eq_true, if_false, List.find?_cons, hop, ih]
    · have hb : (o.1 != timer) = true := by simpa using ho
      simp only [List.filter_cons, hb, if_true, List.find?_cons, ih]

theorem deref_free_ne (q : TimerQueue) (timer p : Nat) (h : p ≠ timer) :
    deref (free q timer) p = deref q p := by
  unfold deref free
  simp only [find_filter_ne timer p q.objects h]

theorem find_map_ne (timer p : Nat) (t2 : Timer) (os : List (Nat × Timer)) (h : p ≠ timer) :
    (os.map (fun o => if (o.1 == timer) = true then (o.1, t2) else o)).find?
        (fun o => o.1 == p)
      = os.find? (fun o => o.1 == p) := by
  induction os with
  | nil => rfl
  | cons o os ih =>
    by_cases ho : o.1 = timer
    · have hop : (o.1 == p) = false := by simpa [ho] using Ne.symm h
      have hot : (o.1 == timer) = true := by simpa using ho
      simp only [List.map_cons, hot, if_true, List.find?_cons, hop, ih]
    · have hb : (o.1 == timer) = false := by simpa using ho
      simp only [List.map_cons, hb, Bool.false_eq_true, if_false, List.find?_cons, ih]

theorem deref_store_ne (q : TimerQueue) (timer p : Nat) (t2 : Timer) (h : p ≠ timer) :
    deref (store q timer t2) p = deref q p := by
  unfold deref store
  simp only [find_map_ne timer p t2 q.objects h]

theorem mem_setEmplace_iff {α : Type} [DecidableEq α] (lt : α → α → Bool) (x y : α)
    (xs : List α) : y ∈ (setEmplace lt x xs).1 ↔ y = x ∨ y ∈ xs := by
  induction xs with
  | nil => simp [setEmplace]
  | cons z zs ih =>
    unfold setEmplace
    split_ifs with h1 h2
    · subst h1; simp
    · simp
    · simp only [List.mem_cons, ih]
      tauto

theorem setEmplace_perm {α : Type} [DecidableEq α] (lt : α → α → Bool) (x : α) (xs : List α)
    (h : x ∉ xs) : List.Perm (setEmplace lt x xs).1 (x :: xs) := by
  induction xs with
  | nil => simp [setEmplace]
  | cons z zs ih =>
    have hxz : x ≠ z := fun e => h (by simp [e])
    have hzs : x ∉ zs := fun e => h (by simp [e])
    unfold setEmplace
    rw [if_neg hxz]
    split_ifs
    · exact List.Perm.refl _
    · exact ((ih hzs).cons z).trans (List.Perm.swap x z zs)

/-- Erasing an element from a list whose images under f are distinct removes
exactly its image. -/
theorem mem_map_erase {α β : Type} [BEq α] [LawfulBEq α] (f : α → β) (l : List α) (x : α)
    (hn : (l.map f).Nodup) (hx : x ∈ l) (b : β) :
    b ∈ (l.erase x).map f ↔ b ∈ l.map f ∧ b ≠ f x := by
  have hl : l.Nodup := List.Nodup.of_map f hn
  have hinj := List.inj_on_of_nodup_map hn
  simp only [List.mem_map]
  constructor
  · rintro ⟨y, hy, rfl⟩
    have hy2 := (List.Nodup.mem_erase_iff hl).mp hy
    exact ⟨⟨y, hy2.2, rfl⟩, fun e => hy2.1 (hinj hy2.2 hx e)⟩
  · rintro ⟨⟨y, hy, rfl⟩, hne⟩
    exact ⟨y, (List.Nodup.mem_erase_iff hl).mpr ⟨fun e => hne (by rw [e]), hy⟩, rfl⟩

theorem nodup_map_erase {α β : Type} [BEq α] [LawfulBEq α] (f : α → β) (l : List α) (x : α)
    (hn : (l.map f).Nodup) : ((l.erase x).map f).Nodup :=
  List.Nodup.sublist ((List.erase_sublist x l).map f) hn

theorem mem_timerPtrs (q : TimerQueue) (p : Nat) :
    p ∈ timerPtrs q ↔ ∃ e, (e, p) ∈ q.m_timers := by
  simp [timerPtrs]

theorem mem_activePtrs (q : TimerQueue) (p : Nat) :
    p ∈ activePtrs q ↔ ∃ s, (p, s) ∈ q.m_activeTimers := by
  simp [activePtrs]

/-- A step that leaves the two sets alone, and the Timer objects they and the
batch refer to, keeps the queue consistent. -/
theorem consistent_frame (q q2 : TimerQueue) (batch : List (Nat × Nat))
    (hobj : ∀ p, (p ∈ timerPtrs q ∨ p ∈ batch.map Prod.snd) → deref q2 p = deref q p)
    (ht : q2.m_timers = q.m_timers) (ha : q2.m_activeTimers = q.m_activeTimers)
    (h : Consistent q batch) : Consistent q2 batch := by
  have htp : timerPtrs q2 = timerPtrs q := by unfold timerPtrs; rw [ht]
  have hap : activePtrs q2 = activePtrs q := by unfold activePtrs; rw [ha]
  refine ⟨?_, ?_, ?_, ?_, ?_, ?_, h.batch_nodup⟩
  · intro e p hm
    rw [ht] at hm
    rw [hobj p (Or.inl ((mem_timerPtrs q p).mpr ⟨e, hm⟩))]
    exact h.timers_live e p hm
  · intro p s hm
    rw [ha] at hm
    rw [hobj p (Or.inl ((h.same p).mpr ((mem_activePtrs q p).mpr ⟨s, hm⟩)))]
    exact h.active_live p s hm
  · rw [htp]; exact h.timers_nodup
  · rw [hap]; exact h.active_nodup
  · intro p; rw [htp, hap]; exact h.same p
  · intro e p hm
    rw [htp, hobj p (Or.inr (List.mem_map.mpr ⟨(e, p), hm, rfl⟩))]
    exact h.batch_live e p hm

theorem consistent_tail (q : TimerQueue) (it : Nat × Nat) (batch : List (Nat × Nat))
    (h : Consistent q (it :: batch)) : Consistent q batch :=
  ⟨h.timers_live, h.active_live, h.timers_nodup, h.active_nodup, h.same,
    fun e p hm => h.batch_live e p (List.mem_cons_of_mem _ hm),
    (List.nodup_cons.mp (by simpa using h.batch_nodup)).2⟩

/-- The insertion of a live timer that is in neither set and not in the batch
keeps the queue consistent. -/
theorem insert_consistent (q : TimerQueue) (batch : List (Nat × Nat)) (p0 : Nat) (t : Timer)
    (h : Consistent q batch) (hd : deref q p0 = some t) (hp : p0 ∉ timerPtrs q)
    (hb : p0 ∉ batch.map Prod.snd) : Consistent (insert q p0).1 batch := by
  have hpa : p0 ∉ activePtrs q := fun hm => hp ((h.same p0).mpr hm)
  have hnt : (t.m_expiration, p0) ∉ q.m_timers :=
    fun hm => hp ((mem_timerPtrs q p0).mpr ⟨_, hm⟩)
  have hna : (p0, t.m_sequence) ∉ q.m_activeTimers :=
    fun hm => hpa ((mem_activePtrs q p0).mpr ⟨_, hm⟩)
  have e : (insert q p0).1 = { q with
      m_timers := (setEmplace entryLt (t.m_expiration, p0) q.m_timers).1
      m_activeTimers := (setEmplace activeLt (p0, t.m_sequence) q.m_activeTimers).1 } := by
    unfold insert
    simp only [hd]
  rw [e]
  have pt := (setEmplace_perm entryLt (t.m_expiration, p0) q.m_timers hnt).map Prod.snd
  have pa := (setEmplace_perm activeLt (p0, t.m_sequence) q.m_activeTimers hna).map Prod.fst
  simp only [List.map_cons] at pt pa
  refine ⟨?_, ?_, ?_, ?_, ?_, ?_, h.batch_nodup⟩
  · intro e1 p hm
    rcases (mem_setEmplace_iff _ _ _ _).mp hm with h1 | h1
    · cases h1; exact ⟨t, hd, rfl⟩
    · exact h.timers_live e1 p h1
  · intro p s hm
    rcases (mem_setEmplace_iff _ _ _ _).mp hm with h1 | h1
    · cases h1; exact ⟨t, hd, rfl⟩
    · exact h.active_live p s h1
  · exact (List.Perm.nodup_iff pt).mpr (List.nodup_cons.mpr ⟨hp, h.timers_nodup⟩)
  · exact (List.Perm.nodup_iff pa).mpr (List.nodup_cons.mpr ⟨hpa, h.active_nodup⟩)
  · intro p
    show p ∈ List.map Prod.snd _ ↔ p ∈ List.map Prod.fst _
    rw [pt.mem_iff, pa.mem_iff, List.mem_cons, List.mem_cons]
    have := h.same p
    unfold timerPtrs activePtrs at this
    rw [this]
  · intro e1 p hm
    obtain ⟨hl, hnp⟩ := h.batch_live e1 p hm
    refine ⟨hl, ?_⟩
    show p ∉ List.map Prod.snd _
    rw [pt.mem_iff, List.mem_cons]
    rintro (h1 | h1)
    · exact hb (List.mem_map.mpr ⟨(e1, p), hm, h1⟩)
    · exact hnp h1

theorem addTimer_consistent (v : Variant) (q : TimerQueue) (batch : List (Nat × Nat))
    (addr cb when interval : Nat) (h : Consistent q batch) (hfresh : deref q addr = none) :
    Consistent (addTimer v q addr cb when interval).2 batch := by
  have hlive : ∀ p, (p ∈ timerPtrs q ∨ p ∈ batch.map Prod.snd) → p ≠ addr := by
    intro p hp hpa
    subst hpa
    rcases hp with hp | hp
    · obtain ⟨e, he⟩ := (mem_timerPtrs q p).mp hp
      obtain ⟨t, ht, _⟩ := h.timers_live e p he
      rw [hfresh] at ht; cases ht
    · obtain ⟨x, hx, hxp⟩ := List.mem_map.mp hp
      obtain ⟨⟨t, ht⟩, _⟩ := h.batch_live x.1 p (by rw [← hxp]; exact hx)
      rw [hfresh] at ht; cases ht
  have h1 : Consistent (alloc { q with s_numCreated := q.s_numCreated + 1 } addr
      (Timer.ctor (q.s_numCreated + 1) cb when interval)) batch :=
    consistent_frame q _ batch (fun p hp => deref_alloc_ne _ addr p _ (hlive p hp)) rfl rfl h
  have h2 := insert_consistent _ batch addr _ h1 (deref_alloc _ addr _)
    (fun hm => hlive addr (Or.inl hm) rfl) (fun hm => hlive addr (Or.inr hm) rfl)
  cases v <;> exact h2

theorem cancel_consistent (q : TimerQueue) (batch : List (Nat × Nat)) (id : TimerId)
    (h : Consistent q batch) : Consistent (cancel q id) batch := by
  by_cases hin : (id.m_timer, id.m_sequence) ∈ q.m_activeTimers
  · obtain ⟨t, hd, hseq⟩ := h.active_live _ _ hin
    have e : cancel q id =
        { free { q with m_timers := q.m_timers.erase (t.m_expiration, id.m_timer) }
            id.m_timer with
          m_activeTimers := q.m_activeTimers.erase (id.m_timer, id.m_sequence) } := by
      unfold cancel
      simp only [hin, if_true, hd]
      rfl
    have hpa : id.m_timer ∈ activePtrs q := (mem_activePtrs q _).mpr ⟨_, hin⟩
    have hpt : id.m_timer ∈ timerPtrs q := (h.same _).mpr hpa
    have hent : (t.m_expiration, id.m_timer) ∈ q.m_timers := by
      obtain ⟨e1, he1⟩ := (mem_timerPtrs q _).mp hpt
      obtain ⟨t1, ht1, hexp⟩ := h.timers_live e1 _ he1
      rw [hd] at ht1; cases ht1
      rw [hexp]; exact he1
    have mt := mem_map_erase Prod.snd q.m_timers (t.m_expiration, id.m_timer)
      h.timers_nodup hent
    have ma := mem_map_erase Prod.fst q.m_activeTimers (id.m_timer, id.m_sequence)
      h.active_nodup hin
    rw [e]
    refine ⟨?_, ?_, ?_, ?_, ?_, ?_, h.batch_nodup⟩
    · intro e1 p hm
      have hm1 : (e1, p) ∈ q.m_timers.erase (t.m_expiration, id.m_timer) := hm
      have hne : p ≠ id.m_timer :=
        ((mt p).mp (List.mem_map.mpr ⟨(e1, p), hm1, rfl⟩)).2
      obtain ⟨t1, ht1, hexp⟩ := h.timers_live e1 p (List.mem_of_mem_erase hm1)
      exact ⟨t1, by rw [← ht1]; exact deref_free_ne _ _ _ hne, hexp⟩
    · intro p s hm
      have hm1 : (p, s) ∈ q.m_activeTimers.erase (id.m_timer, id.m_sequence) := hm
      have hne : p ≠ id.m_timer :=
        ((ma p).mp (List.mem_map.mpr ⟨(p, s), hm1, rfl⟩)).2
      obtain ⟨t1, ht1, hs⟩ := h.active_live p s (List.mem_of_mem_erase hm1)
      exact ⟨t1, by rw [← ht1]; exact deref_free_ne _ _ _ hne, hs⟩
    · show (List.map Prod.snd (q.m_timers.erase (t.m_expiration, id.m_timer))).Nodup
      exact nodup_map_erase Prod.snd _ _ h.timers_nodup
    · show (List.map Prod.fst (q.m_activeTimers.erase (id.m_timer, id.m_sequence))).Nodup
      exact nodup_map_erase Prod.fst _ _ h.active_nodup
    · intro p
      show p ∈ List.map Prod.snd (q.m_timers.erase (t.m_expiration, id.m_timer)) ↔
        p ∈ List.map Prod.fst (q.m_activeTimers.erase (id.m_timer, id.m_sequence))
      rw [mt p, ma p]
      have := h.same p
      unfold timerPtrs activePtrs at this
      rw [this]
    · intro e1 p hm
      obtain ⟨⟨t1, ht1⟩, hnp⟩ := h.batch_live e1 p hm
      have hne : p ≠ id.m_timer := fun e2 => hnp (by rw [e2]; exact hpt)
      refine ⟨⟨t1, by rw [← ht1]; exact deref_free_ne _ _ _ hne⟩, ?_⟩
      intro hm2
      have hm3 : p ∈ List.map Prod.snd (q.m_timers.erase (t.m_expiration, id.m_timer)) := hm2
      exact hnp (((mt p).mp hm3).1)
  · refine consistent_frame q _ batch (fun p _ => ?_) ?_ ?_ h
    · unfold cancel
      simp only [hin, if_false]
      split_ifs <;> rfl
    · unfold cancel
      simp only [hin, if_false]
      split_ifs <;> rfl
    · unfold cancel
      simp only [hin, if_false]
      split_ifs <;> rfl

/-- One step of the loop of reset. -/
theorem reset_step_consistent (q : TimerQueue) (it : Nat × Nat) (batch : List (Nat × Nat))
    (now : Nat) (h : Consistent q (it :: batch)) :
    Consistent (reset q [it] now) batch := by
  obtain ⟨⟨t, hd⟩, hnp⟩ := h.batch_live it.1 it.2 (by simp)
  have hnb : it.2 ∉ batch.map Prod.snd :=
    (List.nodup_cons.mp (by simpa using h.batch_nodup)).1
  have h0 := consistent_tail q it batch h
  have hne : ∀ p, (p ∈ timerPtrs q ∨ p ∈ batch.map Prod.snd) → p ≠ it.2 := by
    intro p hp e
    subst e
    rcases hp with hp | hp
    · exact hnp hp
    · exact hnb hp
  unfold reset
  simp only [List.foldl_cons, List.foldl_nil, hd]
  split_ifs
  · have h1 : Consistent (store q it.2 (t.restart now)) batch :=
      consistent_frame q _ batch (fun p hp => deref_store_ne _ _ _ _ (hne p hp)) rfl rfl h0
    exact insert_consistent _ batch it.2 _ h1 (deref_store q it.2 t _ hd) hnp hnb
  · exact consistent_frame q _ batch (fun p hp => deref_free_ne _ _ _ (hne p hp)) rfl rfl h0

theorem reset_cons (q : TimerQueue) (it : Nat × Nat) (batch : List (Nat × Nat)) (now : Nat) :
    reset q (it :: batch) now = reset (reset q [it] now) batch now := by
  simp [reset]

theorem reset_consistent (batch : List (Nat × Nat)) (now : Nat) :
    ∀ q : TimerQueue, Consistent q batch → Consistent (reset q batch now) [] := by
  induction batch with
  | nil => intro q h; exact h
  | cons it batch ih =>
    intro q h
    rw [reset_cons]
    exact ih _ (reset_step_consistent q it batch now h)

theorem deref_congr (q q2 : TimerQueue) (h : q2.objects = q.objects) (p : Nat) :
    deref q2 p = deref q p := by
  unfold deref; rw [h]

theorem getExpired_eq (q : TimerQueue) (now : Nat) :
    getExpired q now =
      (q.m_timers.takeWhile (fun e => entryLt e (now, UINTPTR_MAX)),
        (q.m_timers.takeWhile (fun e => entryLt e (now, UINTPTR_MAX))).foldl eraseActive
          { q with m_timers := q.m_timers.dropWhile (fun e => entryLt e (now, UINTPTR_MAX)) }) :=
  rfl

/-- The loop of getExpired that takes the expired timers out of the auxiliary
set: when the auxiliary set holds the timers of the primary set and those of
the list still to be erased, it ends with the timers of the primary set. -/
theorem erase_expired_fold (pending : List (Nat × Nat)) :
    ∀ q : TimerQueue,
      (∀ p s, (p, s) ∈ q.m_activeTimers → ∃ t, deref q p = some t ∧ t.m_sequence = s) →
      (activePtrs q).Nodup →
      (∀ p, p ∈ activePtrs q ↔ p ∈ timerPtrs q ∨ p ∈ pending.map Prod.snd) →
      (pending.map Prod.snd).Nodup →
      (∀ p, p ∈ pending.map Prod.snd → p ∉ timerPtrs q ∧ ∃ t, deref q p = some t) →
      (pending.foldl eraseActive q).objects = q.objects ∧
      (pending.foldl eraseActive q).m_timers = q.m_timers ∧
      (∀ p s, (p, s) ∈ (pending.foldl eraseActive q).m_activeTimers →
        ∃ t, deref q p = some t ∧ t.m_sequence = s) ∧
      (activePtrs (pending.foldl eraseActive q)).Nodup ∧
      (∀ p, p ∈ activePtrs (pending.foldl eraseActive q) ↔ p ∈ timerPtrs q) := by
  induction pending with
  | nil =>
    intro q ha hn hs _ _
    refine ⟨rfl, rfl, ha, hn, ?_⟩
    intro p
    rw [List.foldl_nil, hs p]
    simp
  | cons each rest ih =>
    intro q ha hn hs hd hl
    obtain ⟨hnt, t, ht⟩ := hl each.2 (by simp)
    have hmem : (each.2, t.m_sequence) ∈ q.m_activeTimers := by
      obtain ⟨s, hs1⟩ := (mem_activePtrs q each.2).mp ((hs each.2).mpr (Or.inr (by simp)))
      obtain ⟨t1, ht1, hseq⟩ := ha _ _ hs1
      rw [ht] at ht1; cases ht1
      rw [hseq]; exact hs1
    have hnr : each.2 ∉ rest.map Prod.snd :=
      (List.nodup_cons.mp (by simpa using hd)).1
    have ma := mem_map_erase Prod.fst q.m_activeTimers (each.2, t.m_sequence) hn hmem
    have hstep : eraseActive q each =
        { q with m_activeTimers := q.m_activeTimers.erase (each.2, t.m_sequence) } := by
      unfold eraseActive
      simp only [ht]
    rw [List.foldl_cons, hstep]
    exact ih { q with m_activeTimers := q.m_activeTimers.erase (each.2, t.m_sequence) }
      (fun p s hm => ha p s (List.mem_of_mem_erase hm))
      (nodup_map_erase Prod.fst _ _ hn)
      (by
        intro p
        show p ∈ List.map Prod.fst (q.m_activeTimers.erase (each.2, t.m_sequence)) ↔ _
        rw [ma p]
        have h1 := hs p
        unfold activePtrs at h1
        rw [h1]
        show (p ∈ timerPtrs q ∨ p ∈ List.map Prod.snd (each :: rest)) ∧ p ≠ each.2 ↔
          p ∈ timerPtrs q ∨ p ∈ List.map Prod.snd rest
        simp only [List.map_cons, List.mem_cons]
        constructor
        · rintro ⟨h2 | h2 | h2, h3⟩
          · exact Or.inl h2
          · exact absurd h2 h3
          · exact Or.inr h2
        · rintro (h2 | h2)
          · exact ⟨Or.inl h2, fun e => hnt (e ▸ h2)⟩
          · exact ⟨Or.inr (Or.inr h2), fun e => hnr (e ▸ h2)⟩)
      (List.nodup_cons.mp (by simpa using hd)).2
      (fun p hp => hl p (by simp only [List.map_cons, List.mem_cons]; exact Or.inr hp))

theorem getExpired_consistent (q : TimerQueue) (now : Nat) (h : Consistent q []) :
    Consistent (getExpired q now).2 (getExpired q now).1 := by
  rw [getExpired_eq]
  generalize hP : (fun e : Nat × Nat => entryLt e (now, UINTPTR_MAX)) = P
  have happ : q.m_timers.takeWhile P ++ q.m_timers.dropWhile P = q.m_timers :=
    List.takeWhile_append_dropWhile P q.m_timers
  have hptr : timerPtrs q
      = (q.m_timers.takeWhile P).map Prod.snd ++ (q.m_timers.dropWhile P).map Prod.snd := by
    unfold timerPtrs
    rw [← List.map_append, happ]
  have hnd := h.timers_nodup
  rw [hptr] at hnd
  have hdisj := List.nodup_append.mp hnd
  have hmemdr : ∀ x, x ∈ q.m_timers.dropWhile P → x ∈ q.m_timers := by
    intro x hx; rw [← happ]; exact List.mem_append_right _ hx
  have hmemtk : ∀ x, x ∈ q.m_timers.takeWhile P → x ∈ q.m_timers := by
    intro x hx; rw [← happ]; exact List.mem_append_left _ hx
  obtain ⟨f1, f2, f3, f4, f5⟩ := erase_expired_fold (q.m_timers.takeWhile P)
    { q with m_timers := q.m_timers.dropWhile P }
    h.active_live h.active_nodup
    (by
      intro p
      show p ∈ activePtrs q ↔
        p ∈ List.map Prod.snd (q.m_timers.dropWhile P) ∨
          p ∈ List.map Prod.snd (q.m_timers.takeWhile P)
      rw [← h.same p, hptr, List.mem_append]
      exact Or.comm)
    hdisj.1
    (by
      intro p hp
      refine ⟨fun hp2 => hdisj.2.2 hp hp2, ?_⟩
      obtain ⟨x, hx, hxp⟩ := List.mem_map.mp hp
      obtain ⟨t, ht, _⟩ := h.timers_live x.1 p (by rw [← hxp]; exact hmemtk x hx)
      exact ⟨t, ht⟩)
  have hder : ∀ p, deref (List.foldl eraseActive
      { q with m_timers := q.m_timers.dropWhile P } (q.m_timers.takeWhile P)) p = deref q p :=
    fun p => deref_congr q _ f1 p
  refine ⟨?_, ?_, ?_, f4, ?_, ?_, hdisj.1⟩
  · intro e p hm
    rw [f2] at hm
    rw [hder]
    exact h.timers_live e p (hmemdr _ hm)
  · intro p s hm
    rw [hder]
    exact f3 p s hm
  · show (List.map Prod.snd (List.foldl eraseActive _ _).m_timers).Nodup
    rw [f2]
    exact hdisj.2.1
  · intro p
    rw [f5 p]
    show p ∈ List.map Prod.snd (List.foldl eraseActive _ _).m_timers ↔ _
    rw [f2]
    rfl
  · intro e p hm
    rw [hder]
    obtain ⟨t, ht, _⟩ := h.timers_live e p (hmemtk _ hm)
    refine ⟨⟨t, ht⟩, ?_⟩
    show p ∉ List.map Prod.snd (List.foldl eraseActive _ _).m_timers
    rw [f2]
    exact fun hp2 => hdisj.2.2 (List.mem_map.mpr ⟨(e, p), hm, rfl⟩) hp2

/-- Every reached queue is consistent with the batch in flight. -/
theorem reached_consistent (q : TimerQueue) (batch : List (Nat × Nat)) (h : Reached q batch) :
    Consistent q batch := by
  induction h with
  | empty =>
    exact ⟨fun e p hm => by simp at hm, fun p s hm => by simp at hm, List.nodup_nil,
      List.nodup_nil, fun p => Iff.rfl, fun e p hm => by simp at hm, List.nodup_nil⟩
  | addTimer v q batch addr cb when interval _ hfresh ih =>
    exact addTimer_consistent v q batch addr cb when interval ih hfresh
  | cancel q batch id _ ih => exact cancel_consistent q batch id ih
  | getExpired q now _ ih => exact getExpired_consistent q now ih
  | beginCalls q batch _ ih => exact consistent_frame q _ batch (fun _ _ => rfl) rfl rfl ih
  | endCalls q batch _ ih => exact consistent_frame q _ batch (fun _ _ => rfl) rfl rfl ih
  | reset q batch now _ ih => exact reset_consistent batch now q ih

/-- C12: starting from the empty queue, after every addTimer (insert), cancel,
getExpired and reset the primary set and the auxiliary set have the same size
and hold the same timers, which is what the size assertions of those functions
compare. -/
theorem set_agreement (q : TimerQueue) (batch : List (Nat × Nat)) (h : Reached q batch) :
    q.m_timers.length = q.m_activeTimers.length ∧
    (∀ p, p ∈ timerPtrs q ↔ p ∈ activePtrs q) ∧ Agreement q := by
  have hc := reached_consistent q batch h
  have hperm : List.Perm (timerPtrs q) (activePtrs q) :=
    (List.perm_ext_iff_of_nodup hc.timers_nodup hc.active_nodup).mpr hc.same
  have hlen : q.m_timers.length = q.m_activeTimers.length := by
    have := hperm.length_eq
    simpa [timerPtrs, activePtrs] using this
  exact ⟨hlen, hc.same, hlen, hc.same⟩

/-- C12 on a concrete run: a repeater and a one-shot are added, the batch at
tick 10 is collected, the pending one-shot is cancelled from a callback and the
batch is reset. -/
theorem set_agreement_witness :
    Reached
      (reset (cancel (getExpired (addTimer .thread (addTimer .timerfd {} 100 1 10 5).2
        200 0 50 0).2 10).2 { m_timer := 200, m_sequence := 2 })
        (getExpired (addTimer .thread (addTimer .timerfd {} 100 1 10 5).2 200 0 50 0).2 10).1
        12) [] ∧
    Agreement
      (reset (cancel (getExpired (addTimer .thread (addTimer .timerfd {} 100 1 10 5).2
        200 0 50 0).2 10).2 { m_timer := 200, m_sequence := 2 })
        (getExpired (addTimer .thread (addTimer .timerfd {} 100 1 10 5).2 200 0 50 0).2 10).1
        12) := by
  have hr : Reached
      (reset (cancel (getExpired (addTimer .thread (addTimer .timerfd {} 100 1 10 5).2
        200 0 50 0).2 10).2 { m_timer := 200, m_sequence := 2 })
        (getExpired (addTimer .thread (addTimer .timerfd {} 100 1 10 5).2 200 0 50 0).2 10).1
        12) [] :=
    Reached.reset _ _ 12 (Reached.cancel _ _ _ (Reached.getExpired _ 10
      (Reached.addTimer .thread _ [] 200 0 50 0
        (Reached.addTimer .timerfd {} [] 100 1 10 5 Reached.empty (by decide)) (by decide))))
  exact ⟨hr, (set_agreement _ _ hr).2.2⟩

end TimerQueue

/-! ## Connector -/

namespace Connector

theorem delays_append (l1 l2 : List Effect) : delays (l1 ++ l2) = delays l1 ++ delays l2 := by
  induction l1 with
  | nil => rfl
  | cons e es ih => cases e <;> simp [delays, ih]

theorem attempts_append (l1 l2 : List Effect) :
    attempts (l1 ++ l2) = attempts l1 ++ attempts l2 := by
  induction l1 with
  | nil => rfl
  | cons e es ih => cases e <;> simp [attempts, ih]

theorem schedule_succ (k : Nat) : min (schedule k * 2) maxRetryDelayMs = schedule (k + 1) := by
  unfold schedule maxRetryDelayMs
  have h : (500 : Int) * 2 ^ (k + 1) = 2 * (500 * 2 ^ k) := by ring
  rw [h]
  have hp : (0 : Int) < 500 * 2 ^ k := by positivity
  omega

theorem schedule_bounds (k : Nat) : 500 ≤ schedule k ∧ schedule k ≤ 30000 := by
  unfold schedule
  have hp : (1 : Int) ≤ 2 ^ k := by
    have h1 : 1 ≤ 2 ^ k := Nat.one_le_two_pow
    exact_mod_cast h1
  omega

/-- What retry does: it closes the descriptor and sets kDisconnected; with
m_connect set it schedules startInLoop after the stored delay and doubles the
delay up to the maximum, otherwise it schedules nothing. -/
theorem retry_spec (c : Connector) (env : Env) (sockfd : Int) :
    (retry c env sockfd).m_connect = c.m_connect ∧
    (retry c env sockfd).m_state = States.kDisconnected ∧
    (retry c env sockfd).m_channel = c.m_channel ∧
    (c.m_connect = true →
      (retry c env sockfd).log = c.log ++ [Effect.close sockfd, Effect.runAfter c.m_retryDelayMs] ∧
      (retry c env sockfd).m_retryDelayMs = min (c.m_retryDelayMs * 2) maxRetryDelayMs) ∧
    (c.m_connect = false →
      (retry c env sockfd).log = c.log ++ [Effect.close sockfd] ∧
      (retry c env sockfd).m_retryDelayMs = c.m_retryDelayMs) := by
  unfold retry setState
  cases h : c.m_connect <;> simp [h]

theorem view_retry (c : Connector) (env : Env) (sockfd : Int) :
    view (retry c env sockfd) =
      if c.m_connect then
        (true, min (c.m_retryDelayMs * 2) maxRetryDelayMs, delays c.log ++ [c.m_retryDelayMs],
          attempts c.log)
      else view c := by
  unfold retry setState view
  cases h : c.m_connect <;> simp [h, delays_append, attempts_append, delays, attempts]

theorem view_removeAndResetChannel (c : Connector) (ch : Channel) :
    view (removeAndResetChannel c ch).1 = view c := by
  unfold removeAndResetChannel view
  simp [delays_append, attempts_append, delays, attempts]

theorem view_connecting (c : Connector) (sockfd : Int) : view (connecting c sockfd) = view c := by
  unfold connecting setState view
  simp [delays_append, attempts_append, delays, attempts]

theorem view_log_close (c : Connector) (sockfd : Int) :
    view { c with log := c.log ++ [Effect.close sockfd] } = view c := by
  unfold view
  simp [delays_append, attempts_append, delays, attempts]

theorem view_log_newConnection (c : Connector) (sockfd : Int) :
    view { c with log := c.log ++ [Effect.newConnection sockfd] } = view c := by
  unfold view
  simp [delays_append, attempts_append, delays, attempts]

theorem view_log_connect (c : Connector) (sockfd : Int) :
    view { c with log := c.log ++ [Effect.connect sockfd] } =
      (c.m_connect, c.m_retryDelayMs, delays c.log, attempts c.log ++ [sockfd]) := by
  unfold view
  simp [delays_append, attempts_append, delays, attempts]

theorem summary_of_view (c c2 : Connector) (h : view c2 = view c) : Summary c c2 := by
  have h1 : c2.m_connect = c.m_connect := congrArg Prod.fst h
  have h2 : c2.m_retryDelayMs = c.m_retryDelayMs := congrArg (fun v => v.2.1) h
  have h3 : delays c2.log = delays c.log := congrArg (fun v => v.2.2.1) h
  exact ⟨fun _ => h, fun hc => ⟨by rw [h1]; exact hc, Or.inl ⟨h2, h3⟩⟩⟩

theorem summary_of_retry (c c1 : Connector) (env : Env) (sockfd : Int)
    (h1 : c1.m_connect = c.m_connect) (h2 : c1.m_retryDelayMs = c.m_retryDelayMs)
    (h3 : delays c1.log = delays c.log)
    (h4 : c.m_connect = false → attempts c1.log = attempts c.log) :
    Summary c (retry c1 env sockfd) := by
  have hv := view_retry c1 env sockfd
  constructor
  · intro hc
    rw [hv, h1, hc]
    unfold view
    rw [h1, h2, h3, h4 hc]
    rfl
  · intro hc
    rw [h1, hc, if_pos rfl, h2, h3] at hv
    exact ⟨congrArg Prod.fst hv, Or.inr ⟨congrArg (fun v => v.2.1) hv,
      congrArg (fun v => v.2.2.1) hv⟩⟩

theorem summary_of_retry_view (c c1 : Connector) (env : Env) (sockfd : Int)
    (h : view c1 = view c) : Summary c (retry c1 env sockfd) :=
  summary_of_retry c c1 env sockfd (congrArg Prod.fst h) (congrArg (fun v => v.2.1) h)
    (congrArg (fun v => v.2.2.1) h) (fun _ => congrArg (fun v => v.2.2.2) h)

theorem summary_startInLoop (c : Connector) (env : Env) : Summary c (startInLoop c env) := by
  unfold startInLoop
  cases hc : c.m_connect
  · exact summary_of_view c c rfl
  · rw [if_pos rfl]
    have base : ∀ c2 : Connector,
        view c2 = (c.m_connect, c.m_retryDelayMs, delays c.log, attempts c.log ++ [env.sockfd]) →
        Summary c c2 := by
      intro c2 h
      have h1 : c2.m_connect = c.m_connect := congrArg Prod.fst h
      have h2 : c2.m_retryDelayMs = c.m_retryDelayMs := congrArg (fun v => v.2.1) h
      have h3 : delays c2.log = delays c.log := congrArg (fun v => v.2.2.1) h
      refine ⟨fun hf => ?_, fun _ => ⟨?_, Or.inl ⟨h2, h3⟩⟩⟩
      · rw [hc] at hf; cases hf
      · rw [h1]; exact hc
    unfold connect
    simp only []
    split_ifs
    · apply base
      rw [view_connecting]
      unfold view
      simp [delays_append, attempts_append, delays, attempts]
    · exact summary_of_retry c _ env _ rfl rfl (by simp [delays_append, delays])
        (fun hf => by rw [hc] at hf; cases hf)
    · apply base
      unfold view
      simp [delays_append, attempts_append, delays, attempts]
    · apply base
      unfold view
      simp [delays_append, attempts_append, delays, attempts]

theorem summary_stopInLoop (c : Connector) (env : Env) : Summary c (stopInLoop c env) := by
  unfold stopInLoop
  by_cases hs : c.m_state = States.kConnecting
  · rw [if_pos hs]
    split
    · exact summary_of_view c c rfl
    · exact summary_of_retry_view c _ env _
        (view_removeAndResetChannel (setState c States.kDisconnected) _)
  · rw [if_neg hs]
    exact summary_of_view c c rfl

theorem summary_handleError (c : Connector) (env : Env) : Summary c (handleError c env) := by
  unfold handleError
  split
  · exact summary_of_view c c rfl
  · exact summary_of_retry_view c _ env _ (view_removeAndResetChannel c _)

theorem summary_handleWrite (c : Connector) (env : Env) : Summary c (handleWrite c env) := by
  unfold handleWrite
  by_cases hs : c.m_state = States.kConnecting
  · rw [if_pos hs]
    split
    · exact summary_of_view c c rfl
    · rename_i ch _
      simp only []
      by_cases he : env.err ≠ 0
      · rw [if_pos he]
        exact summary_of_retry_view c _ env _ (view_removeAndResetChannel c ch)
      · rw [if_neg he]
        by_cases hself : isSelfConnect env.localaddr env.peeraddr = true
        · rw [if_pos hself]
          exact summary_of_retry_view c _ env _ (view_removeAndResetChannel c ch)
        · rw [if_neg hself]
          split_ifs
          · apply summary_of_view
            rw [← view_removeAndResetChannel c ch]
            unfold view setState
            simp [delays_append, attempts_append, delays, attempts]
          · apply summary_of_view
            rw [← view_removeAndResetChannel c ch]
            unfold view setState
            simp [delays_append, attempts_append, delays, attempts]
  · rw [if_neg hs]
    exact summary_of_view c c rfl

/-- A call that is not start, stop or restart either leaves m_connect, the
delay and the scheduled delays as they were, or, with m_connect set, schedules
one retry after the stored delay and doubles the delay up to the maximum. With
m_connect clear it tries no descriptor either. -/
theorem step_summary (c : Connector) (e : Event) (h : e.isControl = false) :
    Summary c (step c e) := by
  cases e with
  | start env => cases h
  | stop => cases h
  | restart env => cases h
  | resetChannel => exact summary_of_view c _ rfl
  | startInLoop env => exact summary_startInLoop c env
  | stopInLoop env => exact summary_stopInLoop c env
  | handleError env => exact summary_handleError c env
  | handleWrite env => exact summary_handleWrite c env

theorem run_schedule (events : List Event) :
    ∀ (c : Connector) (k : Nat), (∀ e ∈ events, e.isControl = false) →
      c.m_connect = true → c.m_retryDelayMs = schedule k →
      ∃ n, delays (run c events).log = delays c.log ++ (List.range n).map (fun j => schedule (k + j)) ∧
        (run c events).m_retryDelayMs = schedule (k + n) ∧ (run c events).m_connect = true := by
  induction events with
  | nil =>
    intro c k _ hc hd
    exact ⟨0, by simp [run], by simpa [run] using hd, hc⟩
  | cons e es ih =>
    intro c k hno hc hd
    obtain ⟨_, hs⟩ := step_summary c e (hno e (by simp))
    obtain ⟨hc2, hcase⟩ := hs hc
    have hno2 : ∀ e2 ∈ es, e2.isControl = false := fun e2 h2 => hno e2 (by simp [h2])
    have hrun : run c (e :: es) = run (step c e) es := rfl
    rw [hrun]
    rcases hcase with ⟨h1, h2⟩ | ⟨h1, h2⟩
    · obtain ⟨n, a1, a2, a3⟩ := ih (step c e) k hno2 hc2 (by rw [h1]; exact hd)
      exact ⟨n, by rw [a1, h2], a2, a3⟩
    · obtain ⟨n, a1, a2, a3⟩ := ih (step c e) (k + 1) hno2 hc2
        (by rw [h1, hd]; exact schedule_succ k)
      refine ⟨n + 1, ?_, ?_, a3⟩
      · rw [a1, h2, hd, List.range_succ_eq_map, List.map_cons, List.map_map, List.append_assoc]
        simp only [List.singleton_append, Nat.add_zero]
        congr 2
        apply List.map_congr_left
        intro j _
        simp only [Function.comp]
        congr 1
        omega
      · rw [a2]; congr 1; omega

theorem step_bounds (c : Connector) (e : Event)
    (h : 500 ≤ c.m_retryDelayMs ∧ c.m_retryDelayMs ≤ 30000) :
    500 ≤ (step c e).m_retryDelayMs ∧ (step c e).m_retryDelayMs ≤ 30000 := by
  have key : ∀ c1 c2 : Connector, Summary c1 c2 →
      500 ≤ c1.m_retryDelayMs ∧ c1.m_retryDelayMs ≤ 30000 →
      500 ≤ c2.m_retryDelayMs ∧ c2.m_retryDelayMs ≤ 30000 := by
    intro c1 c2 hs hb
    cases hc : c1.m_connect
    · have hv : c2.m_retryDelayMs = c1.m_retryDelayMs := congrArg (fun v => v.2.1) (hs.1 hc)
      rw [hv]; exact hb
    · rcases (hs.2 hc).2 with ⟨h1, _⟩ | ⟨h1, _⟩
      · rw [h1]; exact hb
      · rw [h1]; unfold maxRetryDelayMs; omega
  cases e with
  | start env => exact key { c with m_connect := true } _ (summary_startInLoop _ env) h
  | stop => exact h
  | restart env =>
    exact key { setState c States.kDisconnected with
      m_retryDelayMs := initRetryDelayMs, m_connect := true } _ (summary_startInLoop _ env)
      (by show 500 ≤ initRetryDelayMs ∧ initRetryDelayMs ≤ 30000; decide)
  | resetChannel => exact h
  | startInLoop env => exact key c _ (summary_startInLoop c env) h
  | stopInLoop env => exact key c _ (summary_stopInLoop c env) h
  | handleError env => exact key c _ (summary_handleError c env) h
  | handleWrite env => exact key c _ (summary_handleWrite c env) h

theorem run_bounds (events : List Event) :
    ∀ c : Connector, 500 ≤ c.m_retryDelayMs ∧ c.m_retryDelayMs ≤ 30000 →
      500 ≤ (run c events).m_retryDelayMs ∧ (run c events).m_retryDelayMs ≤ 30000 := by
  induction events with
  | nil => intro c h; exact h
  | cons e es ih => intro c h; exact ih (step c e) (step_bounds c e h)

/-- The schedule of the retries: after construction and start, and after every
restart, as long as neither start, stop nor restart is called, the k-th retry
scheduled (counting from 0) waits min(500 * 2^k, 30000) ms and the stored delay
is the next value of that schedule; the schedule begins 500, 1000, 2000, 4000,
8000, 16000, 30000, 30000; whatever is called, the stored delay stays between 500 and
30000, so doubling it never overflows an int. -/
theorem backoff_schedule (c : Connector) (env : Env) (events : List Event)
    (hno : ∀ e ∈ events, e.isControl = false) :
    (∃ n, delays (run (start {} env) events).log = (List.range n).map schedule ∧
      (run (start {} env) events).m_retryDelayMs = schedule n) ∧
    (∃ n, delays (run (restart c env) events).log = delays c.log ++ (List.range n).map schedule ∧
      (run (restart c env) events).m_retryDelayMs = schedule n) ∧
    (∀ k, schedule k = min (500 * 2 ^ k) 30000) ∧
    (List.range 8).map schedule = [500, 1000, 2000, 4000, 8000, 16000, 30000, 30000] ∧
    (∀ all : List Event, 500 ≤ (run {} all).m_retryDelayMs ∧
      (run {} all).m_retryDelayMs ≤ 30000 ∧ (run {} all).m_retryDelayMs * 2 < 2 ^ 31) := by
  have hfun : (fun j => schedule (0 + j)) = schedule := by
    funext j; rw [Nat.zero_add]
  refine ⟨?_, ?_, fun k => rfl, by decide, ?_⟩
  · have h := run_schedule (Event.startInLoop env :: events) { m_connect := true } 0
      (by
        intro e he
        rcases List.mem_cons.mp he with h1 | h1
        · rw [h1]; rfl
        · exact hno e h1)
      rfl rfl
    obtain ⟨n, a1, a2, _⟩ := h
    rw [hfun] at a1
    exact ⟨n, by simpa [delays] using a1, by simpa using a2⟩
  · have h := run_schedule (Event.startInLoop env :: events)
      { setState c States.kDisconnected with
        m_retryDelayMs := initRetryDelayMs, m_connect := true } 0
      (by
        intro e he
        rcases List.mem_cons.mp he with h1 | h1
        · rw [h1]; rfl
        · exact hno e h1)
      rfl rfl
    obtain ⟨n, a1, a2, _⟩ := h
    rw [hfun] at a1
    exact ⟨n, a1, by simpa using a2⟩
  · intro all
    have h := run_bounds all {} (by decide)
    exact ⟨h.1, h.2, by omega⟩

/-- The schedule on a concrete run: the first attempt and seven further ones
are refused, and the eight delays are the first eight values of the schedule. -/
theorem backoff_schedule_witness :
    delays (run (start {} { ret := -1, errno := 111 })
      (List.replicate 7 (Event.startInLoop { ret := -1, errno := 111 }))).log
      = [500, 1000, 2000, 4000, 8000, 16000, 30000, 30000] ∧
    ∃ n, delays (run (start {} { ret := -1, errno := 111 })
      (List.replicate 7 (Event.startInLoop { ret := -1, errno := 111 }))).log
      = (List.range n).map schedule :=
  have h := backoff_schedule {} { ret := -1, errno := 111 }
    (List.replicate 7 (Event.startInLoop { ret := -1, errno := 111 }))
    (by decide)
  ⟨by decide, h.1.imp fun _ hn => hn.1⟩

theorem handed_append (l1 l2 : List Effect) : handed (l1 ++ l2) = handed l1 ++ handed l2 := by
  induction l1 with
  | nil => rfl
  | cons e es ih => cases e <;> simp [handed, ih]

theorem closed_append (l1 l2 : List Effect) : closed (l1 ++ l2) = closed l1 ++ closed l2 := by
  induction l1 with
  | nil => rfl
  | cons e es ih => cases e <;> simp [closed, ih]

/-- C14: called by startInLoop (m_connect set, state kDisconnected), connect
goes to kConnecting with a channel on the descriptor subscribed for write
exactly on 0, EINPROGRESS, EINTR and EISCONN; closes the descriptor and
schedules a retry, staying kDisconnected, exactly on EAGAIN, EADDRINUSE,
EADDRNOTAVAIL, ECONNREFUSED and ENETUNREACH; and on every other error closes
the descriptor, schedules nothing and stays kDisconnected. -/
theorem connect_classification (c : Connector) (env : Env)
    (hc : c.m_connect = true) (hs : c.m_state = States.kDisconnected) :
    (((connect c env).m_state = States.kConnecting ∧
        ∃ ch, (connect c env).m_channel = some ch ∧ ch.m_fd = env.sockfd ∧
          Int.land ch.m_events EVENT_TYPE_WRITE ≠ 0) ↔
      savedErrno env ∈ inProgressErrors) ∧
    (((connect c env).log = c.log ++ [Effect.connect env.sockfd, Effect.close env.sockfd,
          Effect.runAfter c.m_retryDelayMs] ∧
        (connect c env).m_state = States.kDisconnected) ↔
      savedErrno env ∈ retryErrors) ∧
    (savedErrno env ∉ inProgressErrors → savedErrno env ∉ retryErrors →
      (connect c env).log = c.log ++ [Effect.connect env.sockfd, Effect.close env.sockfd] ∧
      (connect c env).m_state = States.kDisconnected ∧
      (connect c env).m_channel = c.m_channel ∧
      (connect c env).m_retryDelayMs = c.m_retryDelayMs) := by
  have hin : savedErrno env ∈ inProgressErrors ↔
      (savedErrno env = 0 ∨ savedErrno env = EINPROGRESS ∨ savedErrno env = EINTR ∨
        savedErrno env = EISCONN) := by
    simp [inProgressErrors]
  have hre : savedErrno env ∈ retryErrors ↔
      (savedErrno env = EAGAIN ∨ savedErrno env = EADDRINUSE ∨ savedErrno env = EADDRNOTAVAIL ∨
        savedErrno env = ECONNREFUSED ∨ savedErrno env = ENETUNREACH) := by
    simp [retryErrors]
  have hdisj : savedErrno env ∈ retryErrors → savedErrno env ∉ inProgressErrors := by
    rw [hin, hre]
    unfold EAGAIN EADDRINUSE EADDRNOTAVAIL ECONNREFUSED ENETUNREACH EINPROGRESS EINTR EISCONN
    omega
  rw [hin, hre] at *
  by_cases h1 : savedErrno env = 0 ∨ savedErrno env = EINPROGRESS ∨ savedErrno env = EINTR ∨
      savedErrno env = EISCONN
  · have e : connect c env
        = connecting { c with log := c.log ++ [Effect.connect env.sockfd] } env.sockfd := by
      unfold connect
      simp only [if_pos h1]
    have h2 : ¬ (savedErrno env = EAGAIN ∨ savedErrno env = EADDRINUSE ∨
        savedErrno env = EADDRNOTAVAIL ∨ savedErrno env = ECONNREFUSED ∨
        savedErrno env = ENETUNREACH) := fun h => hdisj h h1
    have hw : Int.land (Int.lor (0 : Int) EVENT_TYPE_WRITE) EVENT_TYPE_WRITE ≠ 0 := by decide
    rw [e]
    refine ⟨⟨fun _ => h1, fun _ => ⟨rfl, _, rfl, rfl, hw⟩⟩,
      ⟨fun h => ?_, fun h => absurd h h2⟩, fun h => absurd h1 h⟩
    have hst : (connecting { c with log := c.log ++ [Effect.connect env.sockfd] }
        env.sockfd).m_state = States.kConnecting := rfl
    rw [hst] at h
    cases h.2
  · by_cases h2 : savedErrno env = EAGAIN ∨ savedErrno env = EADDRINUSE ∨
        savedErrno env = EADDRNOTAVAIL ∨ savedErrno env = ECONNREFUSED ∨
        savedErrno env = ENETUNREACH
    · have e : connect c env
          = retry { c with log := c.log ++ [Effect.connect env.sockfd] } env env.sockfd := by
        unfold connect
        simp only [if_neg h1, if_pos h2]
      obtain ⟨_, r2, _, r4, _⟩ :=
        retry_spec { c with log := c.log ++ [Effect.connect env.sockfd] } env env.sockfd
      rw [e]
      refine ⟨⟨fun h => ?_, fun h => absurd h h1⟩, ⟨fun _ => h2, fun _ => ⟨?_, r2⟩⟩,
        fun _ h => absurd h2 h⟩
      · rw [r2] at h; cases h.1
      · rw [(r4 hc).1]; simp
    · have e : connect c env
          = { c with log := c.log ++ [Effect.connect env.sockfd] ++ [Effect.close env.sockfd] } := by
        unfold connect
        simp only [if_neg h1, if_neg h2]
        split_ifs <;> rfl
      rw [e]
      refine ⟨⟨fun h => ?_, fun h => absurd h h1⟩, ⟨fun h => ?_, fun h => absurd h h2⟩,
        fun _ _ => ⟨by simp, hs, rfl, rfl⟩⟩
      · have h3 : c.m_state = States.kConnecting := h.1
        rw [hs] at h3; cases h3
      · have h3 : c.log ++ [Effect.connect env.sockfd] ++ [Effect.close env.sockfd]
            = c.log ++ [Effect.connect env.sockfd, Effect.close env.sockfd,
                Effect.runAfter c.m_retryDelayMs] := h.1
        have h4 := congrArg List.length h3
        simp at h4

/-- C14 on a concrete call: connect(2) is refused on a fresh connector that
start has switched on. -/
theorem connect_classification_witness :
    savedErrno { ret := -1, errno := ECONNREFUSED } ∈ retryErrors ∧
    (connect { m_connect := true } { ret := -1, errno := ECONNREFUSED }).log
      = [Effect.connect 3, Effect.close 3, Effect.runAfter 500] ∧
    (connect { m_connect := true } { ret := -1, errno := ECONNREFUSED }).m_state
      = States.kDisconnected :=
  have h := (connect_classification { m_connect := true } { ret := -1, errno := ECONNREFUSED }
    rfl rfl).2.1
  ⟨by decide, (h.mpr (by decide)).1, (h.mpr (by decide)).2⟩

/-- C15, as stated, fails: with m_connect cleared by stop, a write-ready
socket without error and without self-connect takes the connector to
kConnected, but the descriptor is closed instead of handed to the callback;
and with SO_ERROR set the descriptor is closed and no retry is scheduled. -/
theorem handleWrite_stopped_no_callback :
    exampleStopped.m_state = States.kConnecting ∧
    (handleWrite exampleStopped {}).m_state = States.kConnected ∧
    handed (handleWrite exampleStopped {}).log = [] ∧
    closed (handleWrite exampleStopped {}).log = [3] ∧
    (handleWrite exampleStopped { err := 111 }).m_state = States.kDisconnected ∧
    delays (handleWrite exampleStopped { err := 111 }).log = [] := by
  decide

/-- C15, amended: in state kConnecting, handleWrite moves to kConnected iff
SO_ERROR == 0 and the socket is not a self-connect, and hands the descriptor to
the new-connection callback iff moreover m_connect is still set (otherwise the
descriptor is closed); if SO_ERROR != 0 or the socket is a self-connect, the
callback is not invoked, the descriptor is closed, the state becomes
kDisconnected, and a retry is scheduled iff m_connect is set. -/
theorem handleWrite_amended (c : Connector) (env : Env) (ch : Channel)
    (hs : c.m_state = States.kConnecting) (hch : c.m_channel = some ch) :
    ((handleWrite c env).m_state = States.kConnected ↔
      (env.err = 0 ∧ isSelfConnect env.localaddr env.peeraddr = false)) ∧
    (handed (handleWrite c env).log = handed c.log ++ [ch.m_fd] ↔
      (env.err = 0 ∧ isSelfConnect env.localaddr env.peeraddr = false ∧ c.m_connect = true)) ∧
    (¬ (env.err = 0 ∧ isSelfConnect env.localaddr env.peeraddr = false ∧ c.m_connect = true) →
      handed (handleWrite c env).log = handed c.log ∧
      closed (handleWrite c env).log = closed c.log ++ [ch.m_fd]) ∧
    (¬ (env.err = 0 ∧ isSelfConnect env.localaddr env.peeraddr = false) →
      (handleWrite c env).m_state = States.kDisconnected ∧
      (delays (handleWrite c env).log = delays c.log ++ [c.m_retryDelayMs] ↔ c.m_connect = true) ∧
      (c.m_connect = false → delays (handleWrite c env).log = delays c.log)) := by
  have hr : removeAndResetChannel c ch =
      ({ c with m_channel := some { ch with m_events := EVENT_TYPE_NONE }
                log := c.log ++ [Effect.updateChannel ch.m_fd EVENT_TYPE_NONE,
                  Effect.removeChannel ch.m_fd, Effect.queueResetChannel] }, ch.m_fd) := rfl
  have hne : ∀ (l : List Int) (x : Int), l ≠ l ++ [x] := by
    intro l x h
    have := congrArg List.length h
    simp at this
  unfold handleWrite
  rw [if_pos hs]
  simp only [hch, hr]
  by_cases he : env.err ≠ 0
  · rw [if_pos he]
    have he0 : ¬ env.err = 0 := he
    cases hc : c.m_connect <;>
      simp [retry, setState, hc, he0, handed_append, closed_append, delays_append, handed,
        closed, delays, hne]
  · rw [if_neg he]
    have he0 : env.err = 0 := not_not.mp he
    cases hself : isSelfConnect env.localaddr env.peeraddr
    · cases hc : c.m_connect <;>
        simp [retry, setState, hc, he0, handed_append, closed_append, delays_append, handed,
          closed, delays, hne]
    · cases hc : c.m_connect <;>
        simp [retry, setState, hc, he0, handed_append, closed_append, delays_append, handed,
          closed, delays, hne]

/-- The amended C15 on a concrete call: a connector that is still switched on
and whose socket turns out to be a self-connect. -/
theorem handleWrite_amended_witness :
    (handleWrite { exampleStopped with m_connect := true }
      { localaddr := { sin_port := 5000, s_addr := 1 },
        peeraddr := { sin_port := 5000, s_addr := 1 } }).m_state = States.kDisconnected ∧
    handed (handleWrite { exampleStopped with m_connect := true }
      { localaddr := { sin_port := 5000, s_addr := 1 },
        peeraddr := { sin_port := 5000, s_addr := 1 } }).log = [] :=
  have h := handleWrite_amended { exampleStopped with m_connect := true }
    { localaddr := { sin_port := 5000, s_addr := 1 },
      peeraddr := { sin_port := 5000, s_addr := 1 } }
    { m_fd := 3, m_events := 2, m_writeCallback := true, m_errorCallback := true } rfl rfl
  ⟨(h.2.2.2 (by decide)).1, (h.2.2.1 (by decide)).1⟩

theorem view_stop (c : Connector) :
    view (stop c) = (false, c.m_retryDelayMs, delays c.log, attempts c.log) := by
  unfold stop view
  simp [delays_append, attempts_append, delays, attempts]

theorem step_stopped (c : Connector) (e : Event) (hstop : c.m_connect = false)
    (h : e.starts = false) : view (step c e) = view c := by
  cases e with
  | start env => cases h
  | restart env => cases h
  | stop =>
    show view (stop c) = view c
    rw [view_stop]
    unfold view
    rw [hstop]
  | resetChannel => exact (step_summary c Event.resetChannel rfl).1 hstop
  | startInLoop env => exact (step_summary c (Event.startInLoop env) rfl).1 hstop
  | stopInLoop env => exact (step_summary c (Event.stopInLoop env) rfl).1 hstop
  | handleError env => exact (step_summary c (Event.handleError env) rfl).1 hstop
  | handleWrite env => exact (step_summary c (Event.handleWrite env) rfl).1 hstop

theorem run_stopped (events : List Event) :
    ∀ c : Connector, c.m_connect = false → (∀ e ∈ events, e.starts = false) →
      view (run c events) = view c := by
  induction events with
  | nil => intro c _ _; rfl
  | cons e es ih =>
    intro c hstop hno
    have h1 := step_stopped c e hstop (hno e (by simp))
    have h2 : (step c e).m_connect = false := by
      have := congrArg Prod.fst h1
      exact this.trans hstop
    have hrun : run c (e :: es) = run (step c e) es := rfl
    rw [hrun, ih (step c e) h2 (fun e2 he2 => hno e2 (by simp [he2])), h1]

/-- C16: after stop, whatever is called other than start and restart (the
timer of an earlier retry firing startInLoop, the queued stopInLoop and
resetChannel, the channel callbacks, stop again), m_connect stays clear, no
descriptor is tried with connect(2), no retry is scheduled and the stored
delay stays; in particular retry only closes the descriptor, and startInLoop
does nothing. -/
theorem stop_prevents_retries (c : Connector) (events : List Event)
    (hno : ∀ e ∈ events, e.starts = false) :
    (run (stop c) events).m_connect = false ∧
    attempts (run (stop c) events).log = attempts c.log ∧
    delays (run (stop c) events).log = delays c.log ∧
    (run (stop c) events).m_retryDelayMs = c.m_retryDelayMs ∧
    (∀ env sockfd,
      (retry (run (stop c) events) env sockfd).log
        = (run (stop c) events).log ++ [Effect.close sockfd] ∧
      (retry (run (stop c) events) env sockfd).m_retryDelayMs = c.m_retryDelayMs) ∧
    (∀ env, startInLoop (run (stop c) events) env = run (stop c) events) := by
  have hv := run_stopped events (stop c) rfl hno
  rw [view_stop] at hv
  have h1 : (run (stop c) events).m_connect = false := congrArg Prod.fst hv
  have h2 : (run (stop c) events).m_retryDelayMs = c.m_retryDelayMs :=
    congrArg (fun v => v.2.1) hv
  have h3 : delays (run (stop c) events).log = delays c.log := congrArg (fun v => v.2.2.1) hv
  have h4 : attempts (run (stop c) events).log = attempts c.log :=
    congrArg (fun v => v.2.2.2) hv
  refine ⟨h1, h4, h3, h2, fun env sockfd => ?_, fun env => ?_⟩
  · obtain ⟨_, _, _, _, r5⟩ := retry_spec (run (stop c) events) env sockfd
    exact ⟨(r5 h1).1, (r5 h1).2.trans h2⟩
  · unfold startInLoop
    rw [h1]
    rfl

/-- C16 on a concrete run: a connector whose first attempt was refused is
stopped; the timer of the retry still fires, and the channel callbacks and
the queued calls run. -/
theorem stop_prevents_retries_witness :
    attempts (run (stop (start {} { ret := -1, errno := 111 }))
      [Event.startInLoop {}, Event.stopInLoop {}, Event.handleWrite {},
        Event.handleError {}, Event.resetChannel, Event.stop]).log = [3] ∧
    delays (run (stop (start {} { ret := -1, errno := 111 }))
      [Event.startInLoop {}, Event.stopInLoop {}, Event.handleWrite {},
        Event.handleError {}, Event.resetChannel, Event.stop]).log = [500] ∧
    (run (stop (start {} { ret := -1, errno := 111 }))
      [Event.startInLoop {}, Event.stopInLoop {}, Event.handleWrite {},
        Event.handleError {}, Event.resetChannel, Event.stop]).m_retryDelayMs = 1000 :=
  have h := stop_prevents_retries (start {} { ret := -1, errno := 111 })
    [Event.startInLoop {}, Event.stopInLoop {}, Event.handleWrite {},
      Event.handleError {}, Event.resetChannel, Event.stop] (by decide)
  ⟨h.2.1.trans (by decide), h.2.2.1.trans (by decide), h.2.2.2.1.trans (by decide)⟩

end Connector

namespace TcpConnection

/-! ## TcpConnection: the state machine -/

theorem handleClose_state (c : TcpConnection) :
    (handleClose c).m_state = StateE.kDisconnected := rfl

theorem shutdownInLoop_state (c : TcpConnection) :
    (shutdownInLoop c).m_state = c.m_state := by
  unfold shutdownInLoop
  split <;> rfl

theorem handleRead_state (c : TcpConnection) (env : Env) :
    (handleRead c env).m_state = c.m_state ∨
    (handleRead c env).m_state = StateE.kDisconnected := by
  unfold handleRead
  by_cases h1 : (Buffer.readFd c.m_inputBuffer env.readResult env.readData).2 > 0
  · left; simp only [h1, if_true]; rfl
  · by_cases h2 : (Buffer.readFd c.m_inputBuffer env.readResult env.readData).2 = 0
    · right; simp only [h1, h2, if_true, if_false]; rfl
    · left; simp only [h1, h2, if_false]; rfl

theorem handleWrite_state (c : TcpConnection) (env : Env) :
    (handleWrite c env).m_state = c.m_state := by
  unfold handleWrite shutdownInLoop queueInLoop setEvents emit
  simp only []
  split_ifs <;> rfl

theorem sendInLoop_state (c : TcpConnection) (data : List Byte) (env : Env) :
    (sendInLoop c data env).m_state = c.m_state := by
  unfold sendInLoop queueInLoop setEvents emit
  simp only []
  split_ifs <;> rfl

theorem handler_state (env : Env) (c : TcpConnection) (k : Callback) :
    (handler env c k).m_state = c.m_state ∨
    (handler env c k).m_state = StateE.kDisconnected := by
  cases k
  · exact handleRead_state c env
  · exact Or.inl (handleWrite_state c env)
  · exact Or.inl rfl
  · exact Or.inr rfl

theorem handlers_state (env : Env) (ks : List Callback) : ∀ c : TcpConnection,
    (ks.foldl (handler env) c).m_state = c.m_state ∨
    (ks.foldl (handler env) c).m_state = StateE.kDisconnected := by
  induction ks with
  | nil => intro c; exact Or.inl rfl
  | cons k ks ih =>
    intro c
    rw [List.foldl_cons]
    rcases ih (handler env c k) with h | h
    · rcases handler_state env c k with h2 | h2
      · exact Or.inl (h.trans h2)
      · exact Or.inr (h.trans h2)
    · exact Or.inr h

theorem dispatch_state (c : TcpConnection) (revents : Int) (env : Env) :
    (dispatch c revents env).m_state = c.m_state ∨
    (dispatch c revents env).m_state = StateE.kDisconnected :=
  handlers_state env _ _

theorem runTask_state (c : TcpConnection) (t : Task) :
    (runTask c t).m_state = c.m_state ∨
    ((c.m_state = StateE.kConnected ∨ c.m_state = StateE.kDisconnecting) ∧
      (runTask c t).m_state = StateE.kDisconnected) := by
  cases t
  · exact Or.inl rfl
  · exact Or.inl rfl
  · show (forceCloseInLoop c).m_state = _ ∨ (_ ∧ (forceCloseInLoop c).m_state = _)
    unfold forceCloseInLoop
    by_cases h : c.m_state = StateE.kConnected ∨ c.m_state = StateE.kDisconnecting
    · rw [if_pos h]; exact Or.inr ⟨h, rfl⟩
    · rw [if_neg h]; exact Or.inl rfl

theorem drain_state (c : TcpConnection) :
    (drain c).m_state = c.m_state ∨
    ((c.m_state = StateE.kConnected ∨ c.m_state = StateE.kDisconnecting) ∧
      (drain c).m_state = StateE.kDisconnected) := by
  unfold drain
  split
  · exact Or.inl rfl
  · exact runTask_state _ _

/-- Every call that can happen takes the state along a transition of the state
machine, on a connection that is subscribed to nothing while kConnecting. -/
theorem step_allowed (c : TcpConnection) (e : Event) (he : Enabled c e)
    (hi : c.m_state = StateE.kConnecting → c.m_channel.m_events = EVENT_TYPE_NONE) :
    Allowed c.m_state e (step c e).m_state := by
  unfold Allowed
  cases e with
  | setWriteCompleteCallback cb => exact Or.inl rfl
  | setHighWaterMarkCallback cb highWaterMark => exact Or.inl rfl
  | connectEstablished => exact Or.inr (Or.inl ⟨he, rfl, rfl⟩)
  | shutdown =>
    have hstep : step c (Event.shutdown) = shutdown c := rfl
    rw [hstep]
    unfold shutdown
    by_cases hc : c.m_state = StateE.kConnected
    · rw [if_pos hc, shutdownInLoop_state]
      exact Or.inr (Or.inr (Or.inl ⟨hc, rfl, Or.inl rfl⟩))
    · rw [if_neg hc]; exact Or.inl rfl
  | forceClose =>
    have hstep : step c (Event.forceClose) = forceClose c := rfl
    rw [hstep]
    unfold forceClose
    by_cases hc : c.m_state = StateE.kConnected ∨ c.m_state = StateE.kDisconnecting
    · rw [if_pos hc]
      rcases hc with hc | hc
      · exact Or.inr (Or.inr (Or.inl ⟨hc, rfl, Or.inr (Or.inl rfl)⟩))
      · exact Or.inl hc.symm
    · rw [if_neg hc]; exact Or.inl rfl
  | forceCloseWithDelay =>
    have hstep : step c (Event.forceCloseWithDelay) = forceCloseWithDelay c := rfl
    rw [hstep]
    unfold forceCloseWithDelay
    by_cases hc : c.m_state = StateE.kConnected ∨ c.m_state = StateE.kDisconnecting
    · rw [if_pos hc]
      rcases hc with hc | hc
      · exact Or.inr (Or.inr (Or.inl ⟨hc, rfl, Or.inr (Or.inr rfl)⟩))
      · exact Or.inl hc.symm
    · rw [if_neg hc]; exact Or.inl rfl
  | connectDestroyed =>
    have hstep : step c (Event.connectDestroyed) = connectDestroyed c := rfl
    rw [hstep]
    unfold connectDestroyed
    by_cases hc : c.m_state = StateE.kConnected
    · simp only [if_pos hc]
      exact Or.inr (Or.inr (Or.inr (Or.inr ⟨hc, rfl, trivial⟩)))
    · simp only [if_neg hc]; exact Or.inl rfl
  | send data env =>
    have hstep : step c (Event.send data env) = send c data env := rfl
    rw [hstep]
    unfold send
    by_cases hc : c.m_state = StateE.kConnected
    · rw [if_pos hc]; exact Or.inl (sendInLoop_state c data env)
    · rw [if_neg hc]; exact Or.inl rfl
  | dispatch revents env =>
    have hstep : step c (Event.dispatch revents env) = dispatch c revents env := rfl
    rw [hstep]
    rcases dispatch_state c revents env with h | h
    · exact Or.inl h
    · have hne : c.m_state ≠ StateE.kConnecting := fun hc => he (hi hc)
      cases hs : c.m_state with
      | kConnecting => exact absurd hs hne
      | kConnected =>
        exact Or.inr (Or.inr (Or.inr (Or.inl ⟨Or.inl rfl, h, Or.inl ⟨revents, env, rfl⟩⟩)))
      | kDisconnecting =>
        exact Or.inr (Or.inr (Or.inr (Or.inl ⟨Or.inr rfl, h, Or.inl ⟨revents, env, rfl⟩⟩)))
      | kDisconnected => exact Or.inl h
  | drain =>
    have hstep : step c (Event.drain) = drain c := rfl
    rw [hstep]
    rcases drain_state c with h | ⟨h1, h2⟩
    · exact Or.inl h
    · exact Or.inr (Or.inr (Or.inr (Or.inl ⟨h1, h2, Or.inr rfl⟩)))

theorem allowed_not_reentered (s s2 : StateE) (e : Event) (h : Allowed s e s2)
    (hs : s2 = StateE.kConnecting) : s = StateE.kConnecting := by
  rcases h with h | ⟨_, h, _⟩ | ⟨_, h, _⟩ | ⟨_, h, _⟩ | ⟨_, h, _⟩
  · rw [← h]; exact hs
  all_goals rw [hs] at h; cases h

theorem allowed_absorbing (s s2 : StateE) (e : Event) (h : Allowed s e s2)
    (hs : s = StateE.kDisconnected) : s2 = StateE.kDisconnected := by
  rcases h with h | ⟨h, _⟩ | ⟨h, _⟩ | ⟨h, _⟩ | ⟨h, _⟩
  · rw [h]; exact hs
  · rw [hs] at h; cases h
  · rw [hs] at h; cases h
  · rw [hs] at h; rcases h with h | h <;> cases h
  · rw [hs] at h; cases h

/-- A call in kConnecting that leaves the state there leaves the subscription
as it was. -/
theorem step_events (c : TcpConnection) (e : Event) (he : Enabled c e)
    (hi : c.m_state = StateE.kConnecting → c.m_channel.m_events = EVENT_TYPE_NONE)
    (hs : c.m_state = StateE.kConnecting) (hs2 : (step c e).m_state = StateE.kConnecting) :
    (step c e).m_channel.m_events = EVENT_TYPE_NONE := by
  have hnc : c.m_state ≠ StateE.kConnected := by rw [hs]; decide
  have hnd : ¬ (c.m_state = StateE.kConnected ∨ c.m_state = StateE.kDisconnecting) := by
    rw [hs]; decide
  cases e with
  | setWriteCompleteCallback cb => exact hi hs
  | setHighWaterMarkCallback cb highWaterMark => exact hi hs
  | connectEstablished => cases hs2
  | shutdown =>
    show (shutdown c).m_channel.m_events = _
    unfold shutdown; rw [if_neg hnc]; exact hi hs
  | forceClose =>
    show (forceClose c).m_channel.m_events = _
    unfold forceClose; rw [if_neg hnd]; exact hi hs
  | forceCloseWithDelay =>
    show (forceCloseWithDelay c).m_channel.m_events = _
    unfold forceCloseWithDelay; rw [if_neg hnd]; exact hi hs
  | connectDestroyed =>
    show (connectDestroyed c).m_channel.m_events = _
    unfold connectDestroyed; simp only [if_neg hnc]; exact hi hs
  | send data env =>
    show (send c data env).m_channel.m_events = _
    unfold send; rw [if_neg hnc]; exact hi hs
  | dispatch revents env => exact absurd (hi hs) he
  | drain =>
    show (drain c).m_channel.m_events = _
    unfold drain
    split
    · exact hi hs
    · rename_i t ts _
      cases t
      · exact hi hs
      · exact hi hs
      · show (forceCloseInLoop _).m_channel.m_events = _
        unfold forceCloseInLoop
        rw [if_neg hnd]; exact hi hs

theorem reachable_inv (c : TcpConnection) (h : Reachable c) :
    c.m_state = StateE.kConnecting → c.m_channel.m_events = EVENT_TYPE_NONE := by
  induction h with
  | ctor sockfd => intro _; rfl
  | step c e _ he ih =>
    intro hs2
    exact step_events c e he ih
      (allowed_not_reentered _ _ e (step_allowed c e he ih) hs2) hs2

/-- C17: a connection starts in kConnecting, and on every connection reached
from the constructor every call that can happen (the setters of the
writeComplete and highWaterMark callbacks, connectEstablished under its
assertion, shutdown, forceClose, forceCloseWithDelay, connectDestroyed, send, a
dispatch of the channel with its read, write, error and close handlers, a
drained functor) moves the state only along kConnecting to kConnected by
connectEstablished, kConnected to kDisconnecting by shutdown, forceClose and
forceCloseWithDelay, kConnected or kDisconnecting to kDisconnected by the close
handler and kConnected to kDisconnected by connectDestroyed; kDisconnected is
absorbing, kConnecting is never re-entered, and send and the write handler
leave the state as it is. -/
theorem state_machine (c : TcpConnection) (e : Event) (hr : Reachable c) (he : Enabled c e) :
    (∀ sockfd, (ctor sockfd).m_state = StateE.kConnecting) ∧
    Allowed c.m_state e (step c e).m_state ∧
    (c.m_state = StateE.kDisconnected → (step c e).m_state = StateE.kDisconnected) ∧
    (c.m_state ≠ StateE.kConnecting → (step c e).m_state ≠ StateE.kConnecting) ∧
    (∀ data env, (send c data env).m_state = c.m_state) ∧
    (∀ env, (handleWrite c env).m_state = c.m_state) ∧
    (∀ env, (handleRead c env).m_state = c.m_state ∨
      (handleRead c env).m_state = StateE.kDisconnected) ∧
    (handleClose c).m_state = StateE.kDisconnected := by
  have ha := step_allowed c e he (reachable_inv c hr)
  refine ⟨fun _ => rfl, ha, allowed_absorbing _ _ e ha,
    fun hne hs2 => hne (allowed_not_reentered _ _ e ha hs2), ?_, handleWrite_state c,
    handleRead_state c, rfl⟩
  intro data env
  unfold send
  split
  · exact sendInLoop_state c data env
  · rfl

theorem state_machine_witness :
    Reachable exampleConnected ∧ Enabled exampleConnected Event.shutdown ∧
    Allowed exampleConnected.m_state Event.shutdown
      (step exampleConnected Event.shutdown).m_state ∧
    (step exampleConnected Event.shutdown).m_state = StateE.kDisconnecting :=
  ⟨Reachable.step _ Event.connectEstablished (Reachable.ctor 5) rfl, trivial,
    (state_machine exampleConnected Event.shutdown
      (Reachable.step _ Event.connectEstablished (Reachable.ctor 5) rfl) trivial).2.1,
    by decide⟩

set_option maxRecDepth 100000 in
/-- C18 evaluated: a connection in kConnected gets one dispatch whose revents
hold READ and CLOSE (the mask that parsePollEvent makes of POLLHUP | POLLPRI)
and whose read returns 0. The read handler closes the connection and notifies
the user; the close handler of the same dispatch then runs in kDisconnected,
against the assertion of handleClose, and the connection callback and the close
callback are invoked a second time. Likewise a writeComplete functor queued
before the close is invoked after it. -/
theorem close_notified_twice :
    PollPoller.parsePollEvent (Int.lor POLLHUP POLLPRI) =
      Int.lor EVENT_TYPE_READ EVENT_TYPE_CLOSE ∧
    exampleConnected.m_state = StateE.kConnected ∧
    exampleConnected.assertFailed = false ∧
    (handleRead exampleConnected {}).m_state = StateE.kDisconnected ∧
    (handleRead exampleConnected {}).assertFailed = false ∧
    (dispatch exampleConnected (Int.lor EVENT_TYPE_READ EVENT_TYPE_CLOSE) {}).log =
      [Effect.connectionCallback StateE.kConnected,
       Effect.connectionCallback StateE.kDisconnected, Effect.closeCallback,
       Effect.connectionCallback StateE.kDisconnected, Effect.closeCallback] ∧
    (dispatch exampleConnected (Int.lor EVENT_TYPE_READ EVENT_TYPE_CLOSE) {}).assertFailed
      = true ∧
    (dispatch exampleWriting EVENT_TYPE_READ {}).m_state = StateE.kDisconnected ∧
    (drain (dispatch exampleWriting EVENT_TYPE_READ {})).log =
      (dispatch exampleWriting EVENT_TYPE_READ {}).log ++ [Effect.writeCompleteCallback] := by
  decide

/-! ## TcpConnection: the write path -/

theorem queuedHighWaterMarks_append (a b : List Task) :
    queuedHighWaterMarks (a ++ b) = queuedHighWaterMarks a ++ queuedHighWaterMarks b := by
  induction a with
  | nil => rfl
  | cons t ts ih =>
    cases t <;> simp [queuedHighWaterMarks, ih]

theorem remaining_eq (c : TcpConnection) (len : Nat) (env : Env)
    (hn : env.writeResult ≤ len) (hl : len < sizeMod) :
    nwrote c env ≤ len ∧ remaining c len env = len - nwrote c env := by
  unfold remaining nwrote
  by_cases h : (directWrite c && decide (env.writeResult ≥ 0)) = true
  · simp only [h, if_true]
    have h0 : env.writeResult ≥ 0 := by
      simp only [Bool.and_eq_true, decide_eq_true_eq] at h; exact h.2
    have hle : env.writeResult.toNat ≤ len := by omega
    exact ⟨hle, Buffer.subSz_eq _ _ hle hl⟩
  · simp only [h, Bool.false_eq_true, if_false]
    exact ⟨Nat.zero_le _, rfl⟩

theorem sendInLoop_pending (c : TcpConnection) (data : List Byte) (env : Env)
    (hs : c.m_state ≠ StateE.kDisconnected) :
    (sendInLoop c data env).pending =
      c.pending ++
      (if (directWrite c && decide (env.writeResult ≥ 0) &&
          decide (remaining c data.length env = 0) && c.m_writeCompleteCallback) = true
        then [Task.writeComplete] else []) ++
      (if remaining c data.length env > 0 ∧
          addSz (Buffer.readableBytes c.m_outputBuffer) (remaining c data.length env)
            ≥ c.m_highWaterMark ∧
          Buffer.readableBytes c.m_outputBuffer < c.m_highWaterMark ∧
          c.m_highWaterMarkCallback = true
        then [Task.highWaterMark
          (addSz (Buffer.readableBytes c.m_outputBuffer) (remaining c data.length env))]
        else []) := by
  unfold sendInLoop queueInLoop setEvents emit
  rw [if_neg hs]
  simp only []
  split_ifs <;> simp_all

/-- C19: for a sendInLoop call in a state other than kDisconnected, where the
socket accepts no more than it is offered and the sizes stay inside size_t,
remaining is len minus the bytes written directly, and the highWaterMark
callback is queued exactly once, with the argument old + remaining, when a
callback is installed, remaining > 0 and old < highWaterMark <= old +
remaining, and is not queued otherwise (old is readableBytes() of the output
buffer before the call). Hence with an installed callback, threshold 1024, an
empty output buffer and a send of 4096 bytes of which fewer than 3073 are
written directly, it is queued exactly once with an argument in [1024, 4096]. -/
theorem highWaterMark_notification (c : TcpConnection) (data : List Byte) (env : Env)
    (hs : c.m_state ≠ StateE.kDisconnected) (hn : env.writeResult ≤ data.length)
    (hfit : Buffer.readableBytes c.m_outputBuffer + data.length < sizeMod) :
    nwrote c env ≤ data.length ∧
    remaining c data.length env = data.length - nwrote c env ∧
    queuedHighWaterMarks (sendInLoop c data env).pending =
      queuedHighWaterMarks c.pending ++
      (if c.m_highWaterMarkCallback = true ∧ remaining c data.length env > 0 ∧
          Buffer.readableBytes c.m_outputBuffer < c.m_highWaterMark ∧
          c.m_highWaterMark ≤
            Buffer.readableBytes c.m_outputBuffer + remaining c data.length env
        then [Buffer.readableBytes c.m_outputBuffer + remaining c data.length env]
        else []) ∧
    (c.m_highWaterMarkCallback = true → c.m_highWaterMark = 1024 →
      Buffer.readableBytes c.m_outputBuffer = 0 → data.length = 4096 →
      nwrote c env < 3073 →
      queuedHighWaterMarks (sendInLoop c data env).pending =
        queuedHighWaterMarks c.pending ++ [4096 - nwrote c env] ∧
      1024 ≤ 4096 - nwrote c env ∧ 4096 - nwrote c env ≤ 4096) := by
  have hl : data.length < sizeMod := by omega
  obtain ⟨r1, r2⟩ := remaining_eq c data.length env hn hl
  have hadd : addSz (Buffer.readableBytes c.m_outputBuffer) (remaining c data.length env) =
      Buffer.readableBytes c.m_outputBuffer + remaining c data.length env := by
    apply Buffer.addSz_eq; rw [r2]; omega
  have key : queuedHighWaterMarks (sendInLoop c data env).pending =
      queuedHighWaterMarks c.pending ++
      (if c.m_highWaterMarkCallback = true ∧ remaining c data.length env > 0 ∧
          Buffer.readableBytes c.m_outputBuffer < c.m_highWaterMark ∧
          c.m_highWaterMark ≤
            Buffer.readableBytes c.m_outputBuffer + remaining c data.length env
        then [Buffer.readableBytes c.m_outputBuffer + remaining c data.length env]
        else []) := by
    rw [sendInLoop_pending c data env hs, hadd, queuedHighWaterMarks_append,
      queuedHighWaterMarks_append]
    have e1 : queuedHighWaterMarks
        (if (directWrite c && decide (env.writeResult ≥ 0) &&
          decide (remaining c data.length env = 0) && c.m_writeCompleteCallback) = true
        then [Task.writeComplete] else []) = [] := by
      split <;> rfl
    rw [e1, List.append_nil]
    congr 1
    split_ifs with h1 h2 h2
    · rfl
    · exact absurd ⟨h1.2.2.2, h1.1, h1.2.2.1, h1.2.1⟩ h2
    · exact absurd ⟨h2.2.1, h2.2.2.2, h2.2.2.1, h2.1⟩ h1
    · rfl
  refine ⟨r1, r2, key, ?_⟩
  intro hcb hm ho hlen hw
  rw [key, r2, ho, hm, hlen]
  have hc : (c.m_highWaterMarkCallback = true ∧ 4096 - nwrote c env > 0 ∧ 0 < 1024 ∧
      1024 ≤ 0 + (4096 - nwrote c env)) := ⟨hcb, by omega, by omega, by omega⟩
  rw [if_pos hc, Nat.zero_add]
  exact ⟨rfl, by omega, by omega⟩

set_option maxRecDepth 100000 in
theorem highWaterMark_notification_witness :
    exampleThreshold.m_state ≠ StateE.kDisconnected ∧
    queuedHighWaterMarks
      (sendInLoop exampleThreshold [1, 2, 3, 4, 5, 6] { writeResult := 1 }).pending =
      queuedHighWaterMarks exampleThreshold.pending ++
      (if exampleThreshold.m_highWaterMarkCallback = true ∧
          remaining exampleThreshold 6 { writeResult := 1 } > 0 ∧
          Buffer.readableBytes exampleThreshold.m_outputBuffer
            < exampleThreshold.m_highWaterMark ∧
          exampleThreshold.m_highWaterMark ≤
            Buffer.readableBytes exampleThreshold.m_outputBuffer +
              remaining exampleThreshold 6 { writeResult := 1 }
        then [Buffer.readableBytes exampleThreshold.m_outputBuffer +
          remaining exampleThreshold 6 { writeResult := 1 }]
        else []) ∧
    queuedHighWaterMarks
      (sendInLoop exampleThreshold [1, 2, 3, 4, 5, 6] { writeResult := 1 }).pending = [5] :=
  ⟨by decide,
    (highWaterMark_notification exampleThreshold [1, 2, 3, 4, 5, 6] { writeResult := 1 }
      (by decide) (by decide) (by decide)).2.2.1,
    by decide⟩

end TcpConnection

namespace Buffer

theorem retrieve_readable (b : Buffer) (n : Nat)
    (hrw : b.m_readerIndex ≤ b.m_writerIndex) (hws : b.m_writerIndex ≤ b.m_buffer.length)
    (hsz : b.m_buffer.length < sizeMod) (hn : n ≤ readableBytes b) :
    readable (retrieve b n) = (readable b).drop n := by
  have hw : b.m_writerIndex < sizeMod := Nat.lt_of_le_of_lt hws hsz
  have e := readableBytes_eq b hrw hw
  rw [e] at hn
  have er : addSz b.m_readerIndex n = b.m_readerIndex + n := addSz_eq _ _ (by omega)
  have e2 : readableBytes (retrieve b n) = b.m_writerIndex - b.m_readerIndex - n := by
    show subSz b.m_writerIndex (addSz b.m_readerIndex n) = _
    rw [er, subSz_eq _ _ (by omega) hw]; omega
  unfold readable
  rw [e2, e]
  show List.take _ (List.drop (addSz b.m_readerIndex n) b.m_buffer) = _
  rw [er, List.drop_take]
  show _ = List.take _ (List.drop n (List.drop b.m_readerIndex b.m_buffer))
  rw [List.drop_drop]

theorem readable_nil (b : Buffer) (h : readableBytes b = 0) : readable b = [] := by
  unfold readable; rw [h, List.take_zero]

end Buffer

namespace TcpConnection

theorem sent_append (a b : List Effect) : sent (a ++ b) = sent a ++ sent b := by
  induction a with
  | nil => rfl
  | cons e es ih =>
    cases e <;> simp [sent, ih]

theorem sendInLoop_effect (c : TcpConnection) (data : List Byte) (env : Env)
    (hs : c.m_state ≠ StateE.kDisconnected) :
    (sendInLoop c data env).log =
      c.log ++ (if (directWrite c && decide (env.writeResult ≥ 0)) = true
        then [Effect.write (data.take (nwrote c env))] else []) ∧
    (sendInLoop c data env).m_outputBuffer =
      (if remaining c data.length env > 0
        then Buffer.append c.m_outputBuffer
          ((data.drop (nwrote c env)).take (remaining c data.length env))
        else c.m_outputBuffer) := by
  unfold sendInLoop queueInLoop setEvents emit
  rw [if_neg hs]
  simp only []
  split_ifs <;> simp_all

theorem handleWrite_effect (c : TcpConnection) (env : Env) :
    sent (handleWrite c env).log =
      sent c.log ++ (if isWriting c = true ∧ env.writeResult > 0
        then (Buffer.readable c.m_outputBuffer).take env.writeResult.toNat else []) ∧
    (handleWrite c env).m_outputBuffer =
      (if isWriting c = true ∧ env.writeResult > 0
        then Buffer.retrieve c.m_outputBuffer env.writeResult.toNat
        else c.m_outputBuffer) := by
  unfold handleWrite shutdownInLoop queueInLoop setEvents emit
  simp only []
  split_ifs <;> simp_all [sent_append, sent]

theorem sendInLoop_stream (c : TcpConnection) (data : List Byte) (env : Env)
    (hs : c.m_state ≠ StateE.kDisconnected)
    (hb : Buffer.Reach false false c.m_outputBuffer)
    (ha : Accepts c (IoStep.sendInLoop data env)) :
    Buffer.Reach false false (sendInLoop c data env).m_outputBuffer ∧
    sent (sendInLoop c data env).log = sent c.log ++ data.take (nwrote c env) ∧
    Buffer.readable (sendInLoop c data env).m_outputBuffer =
      Buffer.readable c.m_outputBuffer ++ data.drop (nwrote c env) ∧
    (directWrite c = false → nwrote c env = 0) ∧
    (directWrite c = true → Buffer.readable c.m_outputBuffer = []) := by
  obtain ⟨hn, hfit⟩ := ha
  obtain ⟨i1, i2, _, i4, _⟩ := Buffer.reach_inv false _ hb
  have hl : data.length < sizeMod := by
    unfold Buffer.Fits at hfit; omega
  obtain ⟨r1, r2⟩ := remaining_eq c data.length env hn hl
  obtain ⟨e1, e2⟩ := sendInLoop_effect c data env hs
  have hp : (data.drop (nwrote c env)).take (remaining c data.length env) =
      data.drop (nwrote c env) := by
    apply List.take_of_length_le
    rw [List.length_drop, r2]
  have hpl : (data.drop (nwrote c env)).length ≤ data.length := by
    rw [List.length_drop]; omega
  have hfit2 : Buffer.Fits c.m_outputBuffer (data.drop (nwrote c env)).length := by
    unfold Buffer.Fits at *; omega
  have hd0 : directWrite c = false → nwrote c env = 0 := by
    intro h; unfold nwrote; rw [h]; rfl
  have hd1 : directWrite c = true → Buffer.readable c.m_outputBuffer = [] := by
    intro h
    apply Buffer.readable_nil
    unfold directWrite at h
    simp only [Bool.and_eq_true, decide_eq_true_eq] at h
    exact h.2
  refine ⟨?_, ?_, ?_, hd0, hd1⟩
  · rw [e2, hp]
    split
    · exact Buffer.Reach.append _ _ hb hfit2
    · exact hb
  · rw [e1, sent_append]
    congr 1
    by_cases hw : (directWrite c && decide (env.writeResult ≥ 0)) = true
    · rw [if_pos hw]; simp only [sent, List.append_nil]
    · rw [if_neg hw]
      have : nwrote c env = 0 := by unfold nwrote; rw [if_neg hw]
      rw [this, List.take_zero]; rfl
  · rw [e2, hp]
    split
    · exact (Buffer.append_spec _ _ i1 i2 hfit2).2.2.2.2.2.2
    · rename_i h0
      have : data.drop (nwrote c env) = [] := by
        apply List.drop_eq_nil_of_le; omega
      rw [this, List.append_nil]

theorem handleWrite_stream (c : TcpConnection) (env : Env)
    (hb : Buffer.Reach false false c.m_outputBuffer)
    (ha : Accepts c (IoStep.handleWrite env)) :
    Buffer.Reach false false (handleWrite c env).m_outputBuffer ∧
    sent (handleWrite c env).log ++ Buffer.readable (handleWrite c env).m_outputBuffer =
      sent c.log ++ Buffer.readable c.m_outputBuffer := by
  obtain ⟨i1, i2, _, i4, _⟩ := Buffer.reach_inv false _ hb
  obtain ⟨e1, e2⟩ := handleWrite_effect c env
  have hn : env.writeResult ≤ Buffer.readableBytes c.m_outputBuffer := ha
  have hn2 : env.writeResult.toNat ≤ Buffer.readableBytes c.m_outputBuffer := by omega
  rw [e1, e2]
  by_cases h : isWriting c = true ∧ env.writeResult > 0
  · rw [if_pos h, if_pos h]
    refine ⟨Buffer.Reach.retrieve _ _ hb hn2, ?_⟩
    rw [Buffer.retrieve_readable _ _ i1 i2 i4 hn2, List.append_assoc, List.take_append_drop]
  · rw [if_neg h, if_neg h]
    exact ⟨hb, by rw [List.append_nil]⟩

theorem ioStep_stream (c : TcpConnection) (s : IoStep)
    (hs : c.m_state ≠ StateE.kDisconnected)
    (hb : Buffer.Reach false false c.m_outputBuffer) (ha : Accepts c s) :
    (ioStep c s).m_state ≠ StateE.kDisconnected ∧
    Buffer.Reach false false (ioStep c s).m_outputBuffer ∧
    sent (ioStep c s).log ++ Buffer.readable (ioStep c s).m_outputBuffer =
      sent c.log ++ Buffer.readable c.m_outputBuffer ++ stream [s] := by
  cases s with
  | sendInLoop data env =>
    obtain ⟨g1, g2, g3, g4, g5⟩ := sendInLoop_stream c data env hs hb ha
    refine ⟨?_, g1, ?_⟩
    · show (sendInLoop c data env).m_state ≠ _
      rw [sendInLoop_state]; exact hs
    · show sent (sendInLoop c data env).log ++
        Buffer.readable (sendInLoop c data env).m_outputBuffer = _ ++ (data ++ [])
      rw [g2, g3, List.append_nil]
      by_cases hd : directWrite c = true
      · rw [g5 hd, List.nil_append, List.append_nil, List.append_assoc, List.take_append_drop]
      · have hd2 : directWrite c = false := by
          cases hdw : directWrite c
          · rfl
          · exact absurd hdw hd
        rw [g4 hd2, List.take_zero, List.append_nil, List.drop_zero, List.append_assoc]
  | handleWrite env =>
    obtain ⟨g1, g2⟩ := handleWrite_stream c env hb ha
    refine ⟨?_, g1, ?_⟩
    · show (handleWrite c env).m_state ≠ _
      rw [handleWrite_state]; exact hs
    · show sent (handleWrite c env).log ++ Buffer.readable (handleWrite c env).m_outputBuffer
        = _ ++ []
      rw [g2, List.append_nil]

theorem stream_cons (s : IoStep) (ss : List IoStep) : stream (s :: ss) = stream [s] ++ stream ss := by
  cases s
  · show _ ++ _ = (_ ++ []) ++ _
    rw [List.append_nil]
  · rfl

theorem ioRun_stream (steps : List IoStep) : ∀ c : TcpConnection,
    c.m_state ≠ StateE.kDisconnected → Buffer.Reach false false c.m_outputBuffer →
    AcceptsAll c steps →
    sent (ioRun c steps).log ++ Buffer.readable (ioRun c steps).m_outputBuffer =
      sent c.log ++ Buffer.readable c.m_outputBuffer ++ stream steps := by
  induction steps with
  | nil => intro c _ _ _; show _ = _ ++ []; rw [List.append_nil]; rfl
  | cons s ss ih =>
    intro c hs hb ha
    obtain ⟨ha1, ha2⟩ := ha
    obtain ⟨g1, g2, g3⟩ := ioStep_stream c s hs hb ha1
    have hrun : ioRun c (s :: ss) = ioRun (ioStep c s) ss := rfl
    rw [hrun, ih (ioStep c s) g1 g2 ha2, g3, stream_cons s ss, List.append_assoc]

/-- C20: for every sequence of sendInLoop and handleWrite calls on a connection
that is not kDisconnected and whose output buffer came from the constructor,
where each socket write accepts no more than it is offered and the data fits
the address space, the bytes handed to the socket so far followed by the
readable content of the output buffer are what they were before the sequence
followed by data_1 ++ data_2 ++ ... in call order. In one sendInLoop call the
socket gets data[0..nwrote) and data[nwrote..len) is appended to the output
buffer, and nwrote is 0 unless write is not subscribed and the output buffer is
empty. -/
theorem send_preserves_stream (c : TcpConnection) (steps : List IoStep)
    (hs : c.m_state ≠ StateE.kDisconnected)
    (hb : Buffer.Reach false false c.m_outputBuffer) (ha : AcceptsAll c steps) :
    sent (ioRun c steps).log ++ Buffer.readable (ioRun c steps).m_outputBuffer =
      sent c.log ++ Buffer.readable c.m_outputBuffer ++ stream steps ∧
    (∀ data env, Accepts c (IoStep.sendInLoop data env) →
      sent (sendInLoop c data env).log = sent c.log ++ data.take (nwrote c env) ∧
      Buffer.readable (sendInLoop c data env).m_outputBuffer =
        Buffer.readable c.m_outputBuffer ++ data.drop (nwrote c env) ∧
      (isWriting c = true ∨ Buffer.readableBytes c.m_outputBuffer ≠ 0 →
        nwrote c env = 0 ∧ sent (sendInLoop c data env).log = sent c.log)) := by
  refine ⟨ioRun_stream steps c hs hb ha, ?_⟩
  intro data env hacc
  obtain ⟨_, g2, g3, g4, _⟩ := sendInLoop_stream c data env hs hb hacc
  refine ⟨g2, g3, ?_⟩
  intro hor
  have hd : directWrite c = false := by
    unfold directWrite
    rcases hor with h | h
    · rw [h]; rfl
    · simp only [h, decide_False, Bool.and_false]
  have h0 := g4 hd
  refine ⟨h0, ?_⟩
  rw [g2, h0, List.take_zero, List.append_nil]

set_option maxRecDepth 100000 in
theorem send_preserves_stream_witness :
    exampleConnected.m_state ≠ StateE.kDisconnected ∧
    AcceptsAll exampleConnected exampleSteps ∧
    sent (ioRun exampleConnected exampleSteps).log ++
      Buffer.readable (ioRun exampleConnected exampleSteps).m_outputBuffer =
      sent exampleConnected.log ++ Buffer.readable exampleConnected.m_outputBuffer ++
        stream exampleSteps ∧
    sent exampleConnected.log ++ Buffer.readable exampleConnected.m_outputBuffer ++
      stream exampleSteps = [1, 2, 3, 4, 5, 6, 7, 8, 9] :=
  ⟨by decide, by decide,
    (send_preserves_stream exampleConnected exampleSteps (by decide) Buffer.Reach.ctor
      (by decide)).1,
    by decide⟩

end TcpConnection

/-! ## Event masks -/

theorem int_eq_zero_of_testBit (z : Int) (h : ∀ k, z.testBit k = false) : z = 0 := by
  cases z with
  | ofNat n =>
    have hn : n = 0 := by
      apply Nat.eq_of_testBit_eq
      intro i
      have := h i
      simp only [Int.testBit] at this
      rw [this, Nat.zero_testBit]
    rw [hn]; rfl
  | negSucc n =>
    exfalso
    obtain ⟨k, hk⟩ : ∃ k, n < 2 ^ k := ⟨n, Nat.lt_two_pow n⟩
    have h1 := h k
    simp only [Int.testBit] at h1
    rw [Nat.testBit_lt_two_pow hk] at h1
    cases h1

theorem land_write_ne_zero (x : Int) :
    Int.land x EVENT_TYPE_WRITE ≠ 0 ↔ x.testBit 1 = true := by
  have h2 : ∀ k, (EVENT_TYPE_WRITE).testBit k = decide (k = 1) := by
    intro k
    show Nat.testBit (2 ^ 1) k = _
    rw [Nat.testBit_two_pow]
    by_cases hk : k = 1
    · simp [hk]
    · have : ¬ 1 = k := fun h => hk h.symm
      simp [hk, this]
  constructor
  · intro hne
    by_contra hx
    apply hne
    apply int_eq_zero_of_testBit
    intro k
    rw [Int.testBit_land, h2]
    by_cases hk : k = 1
    · rw [hk]; simp at hx; simp [hx]
    · simp [hk]
  · intro hx h0
    have := congrArg (fun z => Int.testBit z 1) h0
    simp only [Int.testBit_land, hx, h2] at this
    revert this
    decide

namespace Buffer

theorem readableBytes_append (b : Buffer) (p : List Byte) (hb : Reach false false b)
    (hfit : Fits b p.length) :
    readableBytes (append b p) = readableBytes b + p.length := by
  obtain ⟨i1, i2, _, i4, _⟩ := reach_inv false b hb
  obtain ⟨a1, a2, a3, _, _, a6, _⟩ := append_spec b p i1 i2 hfit
  rw [readableBytes_eq (append b p) a1 (by omega), readableBytes_eq b i1 (by omega), a6]

theorem readableBytes_retrieve (b : Buffer) (n : Nat) (hb : Reach false false b)
    (hn : n ≤ readableBytes b) :
    readableBytes (retrieve b n) = readableBytes b - n := by
  obtain ⟨i1, i2, _, i4, _⟩ := reach_inv false b hb
  have hw : b.m_writerIndex < sizeMod := by omega
  have e := readableBytes_eq b i1 hw
  rw [e] at hn
  have er : addSz b.m_readerIndex n = b.m_readerIndex + n := addSz_eq _ _ (by omega)
  show subSz b.m_writerIndex (addSz b.m_readerIndex n) = _
  rw [er, subSz_eq _ _ (by omega) hw, e]; omega

end Buffer

namespace TcpConnection

/-! ## TcpConnection: write subscription and pending output -/

theorem isWriting_iff (c : TcpConnection) :
    isWriting c = true ↔ c.m_channel.m_events.testBit 1 = true := by
  unfold isWriting
  rw [decide_eq_true_iff]
  exact land_write_ne_zero _

theorem isWriting_false_iff (c : TcpConnection) :
    isWriting c = false ↔ c.m_channel.m_events.testBit 1 = false := by
  rw [← Bool.not_eq_true, ← Bool.not_eq_true, isWriting_iff]

theorem testBit_write : (EVENT_TYPE_WRITE).testBit 1 = true := by decide

theorem testBit_read : (EVENT_TYPE_READ).testBit 1 = false := by decide

theorem testBit_none : (EVENT_TYPE_NONE).testBit 1 = false := by decide

theorem isWriting_enableWrite (c : TcpConnection) :
    isWriting (setEvents c (Int.lor c.m_channel.m_events EVENT_TYPE_WRITE)) = true := by
  rw [isWriting_iff]
  show (Int.lor c.m_channel.m_events EVENT_TYPE_WRITE).testBit 1 = true
  rw [Int.testBit_lor, testBit_write, Bool.or_true]

theorem isWriting_disableWrite (c : TcpConnection) :
    isWriting (setEvents c (Int.land c.m_channel.m_events (Int.lnot EVENT_TYPE_WRITE)))
      = false := by
  rw [isWriting_false_iff]
  show (Int.land c.m_channel.m_events (Int.lnot EVENT_TYPE_WRITE)).testBit 1 = false
  rw [Int.testBit_land, Int.testBit_lnot, testBit_write]
  simp

theorem isWriting_enableRead (c : TcpConnection) :
    isWriting (setEvents c (Int.lor c.m_channel.m_events EVENT_TYPE_READ)) = isWriting c := by
  cases h : isWriting c
  · rw [isWriting_false_iff] at *
    show (Int.lor c.m_channel.m_events EVENT_TYPE_READ).testBit 1 = false
    rw [Int.testBit_lor, h, testBit_read]; rfl
  · rw [isWriting_iff] at *
    show (Int.lor c.m_channel.m_events EVENT_TYPE_READ).testBit 1 = true
    rw [Int.testBit_lor, h]; rfl

/-- The subscription mask after sendInLoop. -/
theorem sendInLoop_events (c : TcpConnection) (data : List Byte) (env : Env)
    (hs : c.m_state ≠ StateE.kDisconnected) :
    (sendInLoop c data env).m_channel =
      (if remaining c data.length env > 0 ∧ isWriting c = false
        then (setEvents c (Int.lor c.m_channel.m_events EVENT_TYPE_WRITE)).m_channel
        else c.m_channel) := by
  unfold sendInLoop queueInLoop setEvents emit isWriting
  rw [if_neg hs]
  simp only []
  split_ifs <;> simp_all

/-- The subscription mask after handleWrite. -/
theorem handleWrite_events (c : TcpConnection) (env : Env) :
    (handleWrite c env).m_channel =
      (if isWriting c = true ∧ env.writeResult > 0 ∧
          Buffer.readableBytes (Buffer.retrieve c.m_outputBuffer env.writeResult.toNat) = 0
        then (setEvents c
          (Int.land c.m_channel.m_events (Int.lnot EVENT_TYPE_WRITE))).m_channel
        else c.m_channel) := by
  unfold handleWrite shutdownInLoop queueInLoop setEvents emit
  simp only []
  split_ifs <;> simp_all

theorem isWriting_congr (c c2 : TcpConnection) (h : c2.m_channel = c.m_channel) :
    isWriting c2 = isWriting c := by
  unfold isWriting; rw [h]

theorem flushing_frame (c c2 : TcpConnection) (hf : Flushing c)
    (hout : c2.m_outputBuffer = c.m_outputBuffer) (hw : isWriting c2 = isWriting c)
    (hst : c2.m_state ≠ StateE.kDisconnected → c.m_state ≠ StateE.kDisconnected) :
    Flushing c2 := by
  refine ⟨?_, ?_⟩
  · rw [hout]; exact hf.buffer
  · intro h; rw [hout, hw]; exact hf.writing (hst h)

theorem sendInLoop_flushing (c : TcpConnection) (data : List Byte) (env : Env)
    (hf : Flushing c) (ha : Accepts c (IoStep.sendInLoop data env)) :
    Flushing (sendInLoop c data env) := by
  by_cases hs : c.m_state = StateE.kDisconnected
  · have e : sendInLoop c data env = c := by unfold sendInLoop; rw [if_pos hs]
    rw [e]; exact hf
  · obtain ⟨g1, _, _, _, _⟩ := sendInLoop_stream c data env hs hf.buffer ha
    refine ⟨g1, fun _ => ?_⟩
    obtain ⟨hn, hfit⟩ := ha
    have hl : data.length < sizeMod := by unfold Buffer.Fits at hfit; omega
    obtain ⟨r1, r2⟩ := remaining_eq c data.length env hn hl
    obtain ⟨_, e2⟩ := sendInLoop_effect c data env hs
    have e3 := sendInLoop_events c data env hs
    have hp : ((data.drop (nwrote c env)).take (remaining c data.length env)).length =
        remaining c data.length env := by
      rw [List.length_take, List.length_drop, r2, Nat.min_self]
    by_cases hr : remaining c data.length env > 0
    · rw [if_pos hr] at e2
      have hfit2 : Buffer.Fits c.m_outputBuffer
          ((data.drop (nwrote c env)).take (remaining c data.length env)).length := by
        rw [hp, r2]; unfold Buffer.Fits at *; omega
      have hrb : Buffer.readableBytes (sendInLoop c data env).m_outputBuffer ≠ 0 := by
        rw [e2, Buffer.readableBytes_append _ _ hf.buffer hfit2, hp]; omega
      have hwr : isWriting (sendInLoop c data env) = true := by
        cases hw : isWriting c
        · rw [if_pos ⟨hr, hw⟩] at e3
          rw [isWriting_congr _ _ e3]; exact isWriting_enableWrite c
        · have hne : ¬ (remaining c data.length env > 0 ∧ isWriting c = false) := by
            rw [hw]; intro h; cases h.2
          rw [if_neg hne] at e3
          rw [isWriting_congr _ _ e3]; exact hw
      exact ⟨fun _ => hrb, fun _ => hwr⟩
    · rw [if_neg hr] at e2
      have hne : ¬ (remaining c data.length env > 0 ∧ isWriting c = false) := fun h => hr h.1
      rw [if_neg hne] at e3
      rw [e2, isWriting_congr _ _ e3]
      exact hf.writing hs

theorem handleWrite_flushing (c : TcpConnection) (env : Env)
    (hf : Flushing c) (ha : Accepts c (IoStep.handleWrite env)) :
    Flushing (handleWrite c env) := by
  have hn : env.writeResult ≤ Buffer.readableBytes c.m_outputBuffer := ha
  have hn2 : env.writeResult.toNat ≤ Buffer.readableBytes c.m_outputBuffer := by omega
  obtain ⟨g1, _⟩ := handleWrite_stream c env hf.buffer ha
  obtain ⟨_, e2⟩ := handleWrite_effect c env
  have e3 := handleWrite_events c env
  refine ⟨g1, fun hs => ?_⟩
  rw [handleWrite_state] at hs
  by_cases h : isWriting c = true ∧ env.writeResult > 0
  · rw [if_pos h] at e2
    rw [e2]
    by_cases h0 : Buffer.readableBytes (Buffer.retrieve c.m_outputBuffer env.writeResult.toNat) = 0
    · rw [if_pos ⟨h.1, h.2, h0⟩] at e3
      rw [isWriting_congr _ _ e3, isWriting_disableWrite, h0]
      exact Iff.intro (fun hf => Bool.noConfusion hf) (fun hf => absurd rfl hf)
    · have hne : ¬ (isWriting c = true ∧ env.writeResult > 0 ∧
          Buffer.readableBytes (Buffer.retrieve c.m_outputBuffer env.writeResult.toNat) = 0) :=
        fun hh => h0 hh.2.2
      rw [if_neg hne] at e3
      rw [isWriting_congr _ _ e3]
      exact ⟨fun _ => h0, fun _ => h.1⟩
  · rw [if_neg h] at e2
    have hne : ¬ (isWriting c = true ∧ env.writeResult > 0 ∧
        Buffer.readableBytes (Buffer.retrieve c.m_outputBuffer env.writeResult.toNat) = 0) :=
      fun hh => h ⟨hh.1, hh.2.1⟩
    rw [if_neg hne] at e3
    rw [e2, isWriting_congr _ _ e3]
    exact hf.writing hs

theorem handleClose_flushing (c : TcpConnection) (hf : Flushing c) :
    Flushing (handleClose c) :=
  ⟨hf.buffer, fun h => absurd rfl h⟩

theorem call_flushing (c : TcpConnection) (k : Call) (hf : Flushing c) (hp : Permitted c k) :
    Flushing (call c k) := by
  cases k with
  | setWriteCompleteCallback cb => exact flushing_frame c _ hf rfl rfl (fun h => h)
  | setHighWaterMarkCallback cb highWaterMark =>
    exact flushing_frame c _ hf rfl rfl (fun h => h)
  | connectEstablished =>
    have hs : c.m_state = StateE.kConnecting := hp
    refine flushing_frame c _ hf rfl ?_ (fun _ => by rw [hs]; decide)
    show isWriting (connectEstablished c) = isWriting c
    exact isWriting_enableRead
      { c with m_channel := { c.m_channel with m_isTie := true, tieAlive := true } }
  | send data env =>
    show Flushing (send c data env)
    unfold send
    split
    · exact sendInLoop_flushing c data env hf hp
    · exact hf
  | sendInLoop data env => exact sendInLoop_flushing c data env hf hp
  | shutdown =>
    show Flushing (shutdown c)
    unfold shutdown shutdownInLoop emit setState
    split_ifs with h1 h2
    · exact flushing_frame c _ hf rfl rfl (fun _ => by rw [h1]; decide)
    · exact flushing_frame c _ hf rfl rfl (fun _ => by rw [h1]; decide)
    · exact hf
  | forceClose =>
    show Flushing (forceClose c)
    unfold forceClose queueInLoop setState
    split_ifs with h1
    · refine flushing_frame c _ hf rfl rfl (fun _ => ?_)
      rcases h1 with h | h <;> rw [h] <;> decide
    · exact hf
  | forceCloseWithDelay =>
    show Flushing (forceCloseWithDelay c)
    unfold forceCloseWithDelay emit setState
    split_ifs with h1
    · refine flushing_frame c _ hf rfl rfl (fun _ => ?_)
      rcases h1 with h | h <;> rw [h] <;> decide
    · exact hf
  | connectDestroyed =>
    show Flushing (connectDestroyed c)
    unfold connectDestroyed
    by_cases h1 : c.m_state = StateE.kConnected
    · simp only [if_pos h1]
      exact ⟨hf.buffer, fun h => absurd rfl h⟩
    · simp only [if_neg h1]
      exact flushing_frame c _ hf rfl rfl (fun h => h)
  | handleRead env =>
    show Flushing (handleRead c env)
    unfold handleRead
    by_cases h1 : (Buffer.readFd c.m_inputBuffer env.readResult env.readData).2 > 0
    · simp only [h1, if_true]
      exact flushing_frame c _ hf rfl rfl (fun h => h)
    · by_cases h2 : (Buffer.readFd c.m_inputBuffer env.readResult env.readData).2 = 0
      · simp only [h1, h2, if_true, if_false]
        exact ⟨hf.buffer, fun h => absurd rfl h⟩
      · simp only [h1, h2, if_false]
        exact flushing_frame c _ hf rfl rfl (fun h => h)
  | handleWrite env => exact handleWrite_flushing c env hf hp
  | handleError => exact hf
  | handleClose => exact handleClose_flushing c hf
  | drain =>
    show Flushing (drain c)
    unfold drain
    split
    · exact hf
    · rename_i t ts _
      have hf2 : Flushing { c with pending := ts } := flushing_frame c _ hf rfl rfl (fun h => h)
      cases t
      · exact flushing_frame _ _ hf2 rfl rfl (fun h => h)
      · exact flushing_frame _ _ hf2 rfl rfl (fun h => h)
      · show Flushing (forceCloseInLoop _)
        unfold forceCloseInLoop
        split
        · exact handleClose_flushing _ hf2
        · exact hf2

theorem served_flushing (c : TcpConnection) (h : Served c) : Flushing c := by
  induction h with
  | ctor sockfd =>
    refine ⟨Buffer.Reach.ctor, fun _ => ?_⟩
    have h1 : isWriting (ctor sockfd) = false := rfl
    have h2 : Buffer.readableBytes (ctor sockfd).m_outputBuffer = 0 := by
      simp only [ctor, Buffer.readableBytes, Buffer.ctor]
      decide
    rw [h1, h2]
    exact Iff.intro (fun hf => Bool.noConfusion hf) (fun hf => absurd rfl hf)
  | call c k _ hp ih => exact call_flushing c k ih hp

theorem isWriting_of_events (c : TcpConnection) (e : Int)
    (h : c.m_channel.m_events = Int.land e (Int.lnot EVENT_TYPE_WRITE)) :
    isWriting c = false := by
  rw [isWriting_false_iff, h, Int.testBit_land, Int.testBit_lnot, testBit_write]
  simp

/-- What handleWrite logs and queues when the channel is subscribed for write
and the socket accepts bytes. -/
theorem handleWrite_log (c : TcpConnection) (env : Env) (hw : isWriting c = true)
    (hn : env.writeResult > 0) :
    (handleWrite c env).log =
      c.log ++ [Effect.write ((Buffer.readable c.m_outputBuffer).take env.writeResult.toNat)] ++
      (if Buffer.readableBytes (Buffer.retrieve c.m_outputBuffer env.writeResult.toNat) = 0 ∧
          c.m_state = StateE.kDisconnecting then [Effect.shutdownWrite] else []) ∧
    (handleWrite c env).pending =
      c.pending ++
      (if Buffer.readableBytes (Buffer.retrieve c.m_outputBuffer env.writeResult.toNat) = 0 ∧
          c.m_writeCompleteCallback = true then [Task.writeComplete] else []) := by
  unfold handleWrite
  rw [if_pos hw]
  simp only [hn, if_true]
  by_cases h0 : Buffer.readableBytes (Buffer.retrieve c.m_outputBuffer env.writeResult.toNat) = 0
  · have h0b : Buffer.readableBytes
        (Buffer.retrieve (emit c (Effect.write
          ((Buffer.readable c.m_outputBuffer).take env.writeResult.toNat))).m_outputBuffer
          env.writeResult.toNat) = 0 := h0
    simp only [h0b, if_true, h0, true_and]
    unfold shutdownInLoop
    cases hwc : c.m_writeCompleteCallback <;>
    by_cases hd : c.m_state = StateE.kDisconnecting <;>
    simp [queueInLoop, setEvents, emit, hwc, hd, isWriting_of_events _ c.m_channel.m_events]
  · have h0b : ¬ Buffer.readableBytes
        (Buffer.retrieve (emit c (Effect.write
          ((Buffer.readable c.m_outputBuffer).take env.writeResult.toNat))).m_outputBuffer
          env.writeResult.toNat) = 0 := h0
    simp only [h0b, if_false, h0, false_and]
    simp [emit]

theorem log_ne_append (l : List Effect) (x : Effect) : l ≠ l ++ [x] := by
  intro h
  have := congrArg List.length h
  simp at this

theorem shutdownInLoop_log (c : TcpConnection) :
    ((shutdownInLoop c).log = c.log ++ [Effect.shutdownWrite] ↔ isWriting c = false) ∧
    (isWriting c = true → shutdownInLoop c = c) := by
  unfold shutdownInLoop
  cases hw : isWriting c
  · exact ⟨Iff.intro (fun _ => rfl) (fun _ => rfl), fun h => Bool.noConfusion h⟩
  · refine ⟨Iff.intro (fun h => ?_) (fun h => Bool.noConfusion h), fun _ => rfl⟩
    exact absurd h (log_ne_append c.log _)

/-- C21: on every connection reached from the constructor (by the public
calls, the four handlers and the drained functors in any order, every socket
write accepting at most what it is offered), while the state is kConnected or
kDisconnecting the channel is subscribed for write if and only if the output
buffer holds bytes. So shutdownInLoop, and shutdown from kConnected, issue the
shutdown of the write side exactly when no output is pending and do nothing
to the socket otherwise; and in kDisconnecting with output pending, handleWrite
issues it right after the write that drains the buffer, and not after a write
that leaves bytes. -/
theorem graceful_shutdown (c : TcpConnection) (h : Served c)
    (hs : c.m_state = StateE.kConnected ∨ c.m_state = StateE.kDisconnecting) :
    (isWriting c = true ↔ Buffer.readableBytes c.m_outputBuffer ≠ 0) ∧
    ((shutdownInLoop c).log = c.log ++ [Effect.shutdownWrite] ↔
      Buffer.readableBytes c.m_outputBuffer = 0) ∧
    (Buffer.readableBytes c.m_outputBuffer ≠ 0 → shutdownInLoop c = c) ∧
    (c.m_state = StateE.kConnected →
      (shutdown c).m_state = StateE.kDisconnecting ∧
      ((shutdown c).log = c.log ++ [Effect.shutdownWrite] ↔
        Buffer.readableBytes c.m_outputBuffer = 0) ∧
      (Buffer.readableBytes c.m_outputBuffer ≠ 0 → (shutdown c).log = c.log)) ∧
    (c.m_state = StateE.kDisconnecting → ∀ env : Env, 0 < env.writeResult →
      env.writeResult ≤ Buffer.readableBytes c.m_outputBuffer →
      (handleWrite c env).log =
        c.log ++ [Effect.write ((Buffer.readable c.m_outputBuffer).take env.writeResult.toNat)]
          ++ (if env.writeResult = Buffer.readableBytes c.m_outputBuffer
            then [Effect.shutdownWrite] else [])) := by
  have hf := served_flushing c h
  have hnd : c.m_state ≠ StateE.kDisconnected := by
    rcases hs with h1 | h1 <;> rw [h1] <;> decide
  have hw := hf.writing hnd
  have hw0 : isWriting c = false ↔ Buffer.readableBytes c.m_outputBuffer = 0 := by
    rw [← Bool.not_eq_true, hw, not_not]
  obtain ⟨s1, s2⟩ := shutdownInLoop_log c
  refine ⟨hw, s1.trans hw0, fun hne => s2 (hw.mpr hne), ?_, ?_⟩
  · intro hc
    have e : shutdown c = shutdownInLoop (setState c StateE.kDisconnecting) := by
      unfold shutdown; rw [if_pos hc]
    obtain ⟨t1, t2⟩ := shutdownInLoop_log (setState c StateE.kDisconnecting)
    have hiw : isWriting (setState c StateE.kDisconnecting) = isWriting c := rfl
    rw [hiw] at t1 t2
    rw [e]
    refine ⟨?_, t1.trans hw0, fun hne => ?_⟩
    · rw [shutdownInLoop_state]; rfl
    · rw [t2 (hw.mpr hne)]; rfl
  · intro hd env hn0 hn
    have hrb : Buffer.readableBytes c.m_outputBuffer ≠ 0 := by omega
    have hn2 : env.writeResult.toNat ≤ Buffer.readableBytes c.m_outputBuffer := by omega
    rw [(handleWrite_log c env (hw.mpr hrb) hn0).1,
      Buffer.readableBytes_retrieve _ _ hf.buffer hn2]
    congr 1
    by_cases he : env.writeResult = Buffer.readableBytes c.m_outputBuffer
    · rw [if_pos he, if_pos ⟨by omega, hd⟩]
    · rw [if_neg he, if_neg (fun hh => he (by omega))]

set_option maxRecDepth 100000 in
theorem graceful_shutdown_witness :
    Served examplePending ∧ examplePending.m_state = StateE.kConnected ∧
    isWriting examplePending = true ∧
    Buffer.readableBytes examplePending.m_outputBuffer = 3 ∧
    (shutdown examplePending).log = examplePending.log := by
  have hserved : Served examplePending :=
    Served.call _ (Call.sendInLoop [1, 2, 3] { writeResult := 0 })
      (Served.call _ Call.connectEstablished (Served.ctor 5) rfl) (by decide)
  have hg := graceful_shutdown examplePending hserved (Or.inl (by decide))
  exact ⟨hserved, by decide, hg.1.mpr (by decide), by decide,
    (hg.2.2.2.1 (by decide)).2.2 (by decide)⟩

/-- C28: for a connection subscribed for write whose output buffer comes from
the constructor, and a socket that accepts n > 0 bytes, n <= readableBytes():
handleWrite hands the first n readable bytes to the socket and leaves the rest
in order; if the buffer is then empty it unsubscribes write, queues the
writeComplete callback once when one is installed, and issues the shutdown of
the write side when the state is kDisconnecting; if the buffer is not empty it
leaves the channel and the queue as they are and does not shut down. When the
channel is not subscribed for write, or n <= 0, handleWrite changes nothing. -/
theorem handleWrite_ready (c : TcpConnection) (env : Env)
    (hb : Buffer.Reach false false c.m_outputBuffer) (hw : isWriting c = true)
    (hn0 : 0 < env.writeResult)
    (hn : env.writeResult ≤ Buffer.readableBytes c.m_outputBuffer) :
    sent (handleWrite c env).log =
      sent c.log ++ (Buffer.readable c.m_outputBuffer).take env.writeResult.toNat ∧
    Buffer.readable (handleWrite c env).m_outputBuffer =
      (Buffer.readable c.m_outputBuffer).drop env.writeResult.toNat ∧
    Buffer.readableBytes (handleWrite c env).m_outputBuffer =
      Buffer.readableBytes c.m_outputBuffer - env.writeResult.toNat ∧
    (Buffer.readableBytes (handleWrite c env).m_outputBuffer = 0 →
      isWriting (handleWrite c env) = false ∧
      (handleWrite c env).m_channel.m_events =
        Int.land c.m_channel.m_events (Int.lnot EVENT_TYPE_WRITE) ∧
      (handleWrite c env).pending =
        c.pending ++ (if c.m_writeCompleteCallback = true then [Task.writeComplete] else []) ∧
      (handleWrite c env).log =
        c.log ++ [Effect.write ((Buffer.readable c.m_outputBuffer).take env.writeResult.toNat)]
          ++ (if c.m_state = StateE.kDisconnecting then [Effect.shutdownWrite] else [])) ∧
    (Buffer.readableBytes (handleWrite c env).m_outputBuffer ≠ 0 →
      (handleWrite c env).m_channel = c.m_channel ∧
      (handleWrite c env).pending = c.pending ∧
      (handleWrite c env).log =
        c.log ++
          [Effect.write ((Buffer.readable c.m_outputBuffer).take env.writeResult.toNat)]) ∧
    (∀ (c2 : TcpConnection) (env2 : Env), isWriting c2 = false ∨ env2.writeResult ≤ 0 →
      handleWrite c2 env2 = c2) := by
  obtain ⟨i1, i2, _, i4, _⟩ := Buffer.reach_inv false _ hb
  have hn2 : env.writeResult.toNat ≤ Buffer.readableBytes c.m_outputBuffer := by omega
  obtain ⟨e1, e2⟩ := handleWrite_effect c env
  have e3 := handleWrite_events c env
  obtain ⟨l1, l2⟩ := handleWrite_log c env hw hn0
  have hcond : isWriting c = true ∧ env.writeResult > 0 := ⟨hw, hn0⟩
  rw [if_pos hcond] at e1 e2
  have erb : Buffer.readableBytes (handleWrite c env).m_outputBuffer =
      Buffer.readableBytes c.m_outputBuffer - env.writeResult.toNat := by
    rw [e2, Buffer.readableBytes_retrieve _ _ hb hn2]
  refine ⟨e1, ?_, erb, ?_, ?_, ?_⟩
  · rw [e2, Buffer.retrieve_readable _ _ i1 i2 i4 hn2]
  · intro h0
    rw [e2] at h0
    rw [if_pos ⟨hw, hn0, h0⟩] at e3
    refine ⟨?_, ?_, ?_, ?_⟩
    · rw [isWriting_congr _ _ e3]; exact isWriting_disableWrite c
    · rw [e3]; rfl
    · rw [l2]; congr 1
      by_cases hc : c.m_writeCompleteCallback = true
      · rw [if_pos hc, if_pos ⟨h0, hc⟩]
      · rw [if_neg hc, if_neg (fun hh => hc hh.2)]
    · rw [l1]; congr 1
      by_cases hd : c.m_state = StateE.kDisconnecting
      · rw [if_pos hd, if_pos ⟨h0, hd⟩]
      · rw [if_neg hd, if_neg (fun hh => hd hh.2)]
  · intro h0
    rw [e2] at h0
    rw [if_neg (fun hh => h0 hh.2.2)] at e3
    refine ⟨e3, ?_, ?_⟩
    · rw [l2, if_neg (fun hh => h0 hh.1), List.append_nil]
    · rw [l1, if_neg (fun hh => h0 hh.1), List.append_nil]
  · intro c2 env2 hor
    unfold handleWrite
    rcases hor with h1 | h1
    · rw [h1]; rfl
    · have h2 : ¬ env2.writeResult > 0 := by omega
      simp only [h2, if_false, ite_self]

set_option maxRecDepth 100000 in
theorem handleWrite_ready_witness :
    isWriting examplePending = true ∧
    sent (handleWrite examplePending { writeResult := 2 }).log =
      sent examplePending.log ++
        (Buffer.readable examplePending.m_outputBuffer).take 2 ∧
    sent examplePending.log ++ (Buffer.readable examplePending.m_outputBuffer).take 2
      = [1, 2] :=
  ⟨by decide,
    (handleWrite_ready examplePending { writeResult := 2 }
      (Buffer.Reach.append _ _ Buffer.Reach.ctor (by decide)) (by decide) (by decide)
      (by decide)).1,
    by decide⟩

/-- C22: called on a connection in kConnected, connectDestroyed sets
kDisconnected, clears the subscription mask, invokes the connection callback
once and not the close callback, and then removes the channel; called on a
connection in kDisconnected, as the close handler leaves it, it invokes no
callback and only removes the channel. -/
theorem connectDestroyed_teardown (c : TcpConnection) :
    (c.m_state = StateE.kConnected →
      (connectDestroyed c).m_state = StateE.kDisconnected ∧
      (connectDestroyed c).m_channel.m_events = EVENT_TYPE_NONE ∧
      (connectDestroyed c).log =
        c.log ++ [Effect.connectionCallback StateE.kDisconnected, Effect.removeChannel]) ∧
    (c.m_state = StateE.kDisconnected →
      connectDestroyed c = emit c Effect.removeChannel ∧
      (connectDestroyed c).log = c.log ++ [Effect.removeChannel] ∧
      (connectDestroyed c).m_state = StateE.kDisconnected ∧
      (connectDestroyed c).m_channel = c.m_channel) ∧
    (handleClose c).m_state = StateE.kDisconnected ∧
    (connectDestroyed (handleClose c)).log =
      c.log ++ [Effect.connectionCallback StateE.kDisconnected, Effect.closeCallback,
        Effect.removeChannel] := by
  have hd : ∀ d : TcpConnection, d.m_state = StateE.kDisconnected →
      connectDestroyed d = emit d Effect.removeChannel := by
    intro d h
    have hne : ¬ d.m_state = StateE.kConnected := by rw [h]; decide
    unfold connectDestroyed
    simp only [if_neg hne]
  refine ⟨fun h => ?_, fun h => ?_, rfl, ?_⟩
  · unfold connectDestroyed
    simp only [if_pos h]
    refine ⟨rfl, rfl, ?_⟩
    simp [emit, setEvents, setState]
  · rw [hd c h]
    exact ⟨rfl, rfl, h, rfl⟩
  · rw [hd (handleClose c) rfl]
    simp [emit, handleClose, setEvents, setState]

theorem connectDestroyed_teardown_witness :
    exampleConnected.m_state = StateE.kConnected ∧
    (connectDestroyed exampleConnected).m_state = StateE.kDisconnected ∧
    (connectDestroyed exampleConnected).m_channel.m_events = EVENT_TYPE_NONE ∧
    (connectDestroyed exampleConnected).log =
      exampleConnected.log ++
        [Effect.connectionCallback StateE.kDisconnected, Effect.removeChannel] :=
  ⟨rfl, (connectDestroyed_teardown exampleConnected).1 rfl⟩

/-- C30 evaluated: a connection in kConnected on which shutdown (or forceClose,
before the queued forceCloseInLoop has run) was called is in kDisconnecting
and still subscribed for read. connectDestroyed, as the destructor of
TcpServer calls it, then skips its if (m_state == kConnected) block: it reaches
Channel::remove with the mask not empty, against the assertion there, and
leaves the state kDisconnecting, against the assertion of the destructor. From
kConnected, and from kDisconnected after the close handler, both assertions
hold. -/
theorem teardown_in_disconnecting :
    (shutdown exampleConnected).m_state = StateE.kDisconnecting ∧
    (connectDestroyed (shutdown exampleConnected)).log =
      (shutdown exampleConnected).log ++ [Effect.removeChannel] ∧
    (connectDestroyed (shutdown exampleConnected)).m_channel.m_events = EVENT_TYPE_READ ∧
    ¬ Channel.remove_pre (connectDestroyed (shutdown exampleConnected)).m_channel ∧
    ¬ dtor_pre (connectDestroyed (shutdown exampleConnected)) ∧
    (forceClose exampleConnected).m_state = StateE.kDisconnecting ∧
    ¬ Channel.remove_pre (connectDestroyed (forceClose exampleConnected)).m_channel ∧
    ¬ dtor_pre (connectDestroyed (forceClose exampleConnected)) ∧
    (∀ c : TcpConnection, c.m_state = StateE.kConnected →
      Channel.remove_pre (connectDestroyed c).m_channel ∧ dtor_pre (connectDestroyed c)) ∧
    (∀ c : TcpConnection,
      Channel.remove_pre (connectDestroyed (handleClose c)).m_channel ∧
      dtor_pre (connectDestroyed (handleClose c))) := by
  refine ⟨by decide, by decide, by decide, by decide, by decide, by decide, by decide,
    by decide, fun c h => ?_, fun c => ?_⟩
  · unfold connectDestroyed
    simp only [if_pos h]
    exact ⟨rfl, rfl⟩
  · have hne : ¬ (handleClose c).m_state = StateE.kConnected := by
      show ¬ StateE.kDisconnected = StateE.kConnected
      decide
    unfold connectDestroyed
    simp only [if_neg hne]
    exact ⟨rfl, rfl⟩

end TcpConnection

/-! ## sockets::accept and Acceptor -/

namespace Acceptor

/-- The LINUX build of sockets::accept reads errno after
setNonBlockAndCloseOnExec has run on the negative descriptor, so the switch
sees EBADF whatever accept(2) reported, and every failed accept executes
LOG_FATAL. -/
theorem accept_reads_errno_after_fcntl (env : sockets.AcceptEnv) (h : env.connfd < 0) :
    sockets.accept env = { connfd := env.connfd, errno := EBADF, fatal := true } := by
  unfold sockets.accept sockets.setNonBlockAndCloseOnExec
  simp only [h, if_true]
  rfl

/-- C23, as stated, fails: ENFILE is a case label under the unexpected errors
of the switch, so a failed accept(2) with ENFILE executes LOG_FATAL, in the
switch, in sockets::accept and so in Acceptor::handleRead. -/
theorem accept_enfile_is_fatal :
    ENFILE ∈ sockets.unexpectedErrors ∧
    (sockets.acceptSwitch ENFILE ENFILE).2 = true ∧
    (sockets.accept { connfd := -1, errno := ENFILE }).fatal = true ∧
    (handleRead {} { connfd := -1, errno := ENFILE }).fatal = true := by
  decide

/-- C23, amended: the switch of sockets::accept takes savedErrno as an expected
error (it restores errno and executes no LOG_FATAL) exactly for EAGAIN,
ECONNABORTED, EINTR, EPROTO, EPERM and EMFILE; EMFILE is among them, ENFILE is
not and executes LOG_FATAL. sockets::accept returns the descriptor of
accept(2), and on a negative descriptor Acceptor::handleRead invokes no
callback and closes nothing: it only logs. -/
theorem accept_failure_amended (a : Acceptor) (env : sockets.AcceptEnv)
    (h : env.connfd < 0) :
    (∀ savedErrno errno : Int,
      (sockets.acceptSwitch savedErrno errno).2 = false ↔
        savedErrno ∈ sockets.expectedErrors) ∧
    (∀ savedErrno errno : Int, savedErrno ∈ sockets.expectedErrors →
      sockets.acceptSwitch savedErrno errno = (savedErrno, false)) ∧
    EMFILE ∈ sockets.expectedErrors ∧
    (∀ errno : Int, sockets.acceptSwitch EMFILE errno = (EMFILE, false)) ∧
    (∀ errno : Int, (sockets.acceptSwitch ENFILE errno).2 = true) ∧
    (sockets.accept env).connfd = env.connfd ∧
    (handleRead a env).log = a.log ++ [Effect.logError] ∧
    (handleRead a env).m_newConnectionCallback = a.m_newConnectionCallback := by
  have hsw : ∀ savedErrno errno : Int,
      (sockets.acceptSwitch savedErrno errno).2 = false ↔
        savedErrno ∈ sockets.expectedErrors := by
    intro s e
    unfold sockets.acceptSwitch
    by_cases h1 : s ∈ sockets.expectedErrors
    · simp only [h1, if_true]
    · simp only [h1, if_false, iff_false]
      split <;> simp
  have hex : ∀ savedErrno errno : Int, savedErrno ∈ sockets.expectedErrors →
      sockets.acceptSwitch savedErrno errno = (savedErrno, false) := by
    intro s e h1
    unfold sockets.acceptSwitch
    rw [if_pos h1]
  have hm : EMFILE ∈ sockets.expectedErrors := by decide
  have hn : ENFILE ∉ sockets.expectedErrors := by decide
  have hacc : (sockets.accept env).connfd = env.connfd := by
    unfold sockets.accept
    simp only []
    split <;> rfl
  refine ⟨hsw, hex, hm, fun e => hex EMFILE e hm, fun e => ?_, hacc, ?_, ?_⟩
  · cases hb : (sockets.acceptSwitch ENFILE e).2
    · exact absurd ((hsw ENFILE e).mp hb) hn
    · rfl
  · unfold handleRead
    have hneg : ¬ (sockets.accept env).connfd ≥ 0 := by rw [hacc]; omega
    simp only [hneg, if_false]
  · unfold handleRead
    have hneg : ¬ (sockets.accept env).connfd ≥ 0 := by rw [hacc]; omega
    simp only [hneg, if_false]

theorem accept_failure_amended_witness :
    (handleRead { m_newConnectionCallback := true } { connfd := -1, errno := EMFILE }).log
      = [Effect.logError] :=
  (accept_failure_amended { m_newConnectionCallback := true }
    { connfd := -1, errno := EMFILE } (by decide)).2.2.2.2.2.2.1

end Acceptor

/-! ## EventLoopThreadPool -/

namespace EventLoopThreadPool

theorem toSizeT_of_nonneg (x : Int) (h0 : 0 ≤ x) (h1 : x < 2147483648) :
    toSizeT x = x.toNat := by
  unfold toSizeT
  have : x % (sizeMod : Int) = x := by
    apply Int.emod_eq_of_lt h0
    unfold sizeMod
    norm_num
    omega
  rw [this]

theorem wrapInt_succ (x : Int) (h0 : 0 ≤ x) (h1 : x + 1 < 2147483648) :
    wrapInt (x + 1) = x + 1 := by
  unfold wrapInt
  omega

/-- One call of getNextLoop on a pool with worker loops whose cursor is in
range. -/
theorem getNextLoop_step (p : EventLoopThreadPool) (k : Nat)
    (hlen : p.m_loops.length < 2147483648) (hk : k < p.m_loops.length)
    (hnext : p.m_next = (k : Int)) :
    (getNextLoop p).1 = p.m_loops.get? k ∧
    (getNextLoop p).2.m_loops = p.m_loops ∧
    (getNextLoop p).2.m_baseLoop = p.m_baseLoop ∧
    (getNextLoop p).2.m_next = (((k + 1) % p.m_loops.length : Nat) : Int) := by
  have hne : (!p.m_loops.isEmpty) = true := by
    cases hl : p.m_loops with
    | nil => rw [hl] at hk; simp at hk
    | cons a as => rfl
  have h1 : toSizeT p.m_next = k := by
    rw [toSizeT_of_nonneg _ (by omega) (by omega), hnext]; rfl
  have h2 : wrapInt (p.m_next + 1) = ((k + 1 : Nat) : Int) := by
    rw [wrapInt_succ _ (by omega) (by omega), hnext]; push_cast; rfl
  have h3 : toSizeT ((k + 1 : Nat) : Int) = k + 1 := by
    rw [toSizeT_of_nonneg _ (by omega) (by omega)]; rfl
  unfold getNextLoop
  rw [if_pos hne]
  simp only [h1, h2, h3]
  refine ⟨trivial, trivial, trivial, ?_⟩
  by_cases hlast : k + 1 ≥ p.m_loops.length
  · rw [if_pos hlast]
    have : k + 1 = p.m_loops.length := by omega
    rw [this, Nat.mod_self]; rfl
  · rw [if_neg hlast, Nat.mod_eq_of_lt (by omega)]

theorem calls_spec (i : Nat) : ∀ (p : EventLoopThreadPool) (k : Nat),
    p.m_loops.length < 2147483648 → k < p.m_loops.length → p.m_next = (k : Int) →
    (calls i p).m_loops = p.m_loops ∧ (calls i p).m_baseLoop = p.m_baseLoop ∧
    (calls i p).m_next = (((k + i) % p.m_loops.length : Nat) : Int) := by
  induction i with
  | zero =>
    intro p k _ hk hnext
    refine ⟨rfl, rfl, ?_⟩
    show p.m_next = _
    rw [hnext, Nat.add_zero, Nat.mod_eq_of_lt hk]
  | succ i ih =>
    intro p k hlen hk hnext
    obtain ⟨_, g2, g3, g4⟩ := getNextLoop_step p k hlen hk hnext
    have hpos : 0 < p.m_loops.length := by omega
    have := ih (getNextLoop p).2 ((k + 1) % p.m_loops.length) (by rw [g2]; exact hlen)
      (by rw [g2]; exact Nat.mod_lt _ hpos) g4
    obtain ⟨a1, a2, a3⟩ := this
    show (calls i (getNextLoop p).2).m_loops = _ ∧ (calls i (getNextLoop p).2).m_baseLoop = _ ∧
      (calls i (getNextLoop p).2).m_next = _
    refine ⟨a1.trans g2, a2.trans g3, ?_⟩
    rw [a3, g2]
    congr 1
    rw [Nat.add_mod, Nat.mod_mod, ← Nat.add_mod]
    congr 1
    omega

theorem calls_empty (i : Nat) : ∀ p : EventLoopThreadPool, p.m_loops = [] → calls i p = p := by
  induction i with
  | zero => intro p _; rfl
  | succ i ih =>
    intro p h
    have e : (getNextLoop p).2 = p := by
      unfold getNextLoop; rw [h]; rfl
    show calls i (getNextLoop p).2 = p
    rw [e]; exact ih p h

/-- C24: for a pool whose cursor m_next is 0, as the constructor leaves it, and
with n worker loops, the call number i (counted from 0) of getNextLoop returns
loops[i mod n] when n > 0 and the base loop when n = 0, and before and after
every call 0 <= m_next < max(n, 1); with n > 0 the cursor before call i is
i mod n. -/
theorem round_robin (p : EventLoopThreadPool) (i : Nat)
    (hlen : p.m_loops.length < 2147483648) (hnext : p.m_next = 0) :
    (0 < p.m_loops.length →
      (getNextLoop (calls i p)).1 = p.m_loops.get? (i % p.m_loops.length) ∧
      (getNextLoop (calls i p)).1.isSome = true ∧
      (calls i p).m_next = ((i % p.m_loops.length : Nat) : Int)) ∧
    (p.m_loops.length = 0 → (getNextLoop (calls i p)).1 = some p.m_baseLoop) ∧
    0 ≤ (calls i p).m_next ∧
    (calls i p).m_next < ((max p.m_loops.length 1 : Nat) : Int) := by
  by_cases hn : 0 < p.m_loops.length
  · obtain ⟨a1, a2, a3⟩ := calls_spec i p 0 hlen hn (by rw [hnext]; rfl)
    rw [Nat.zero_add] at a3
    have hmod : i % p.m_loops.length < p.m_loops.length := Nat.mod_lt _ hn
    obtain ⟨g1, _⟩ := getNextLoop_step (calls i p) (i % p.m_loops.length)
      (by rw [a1]; exact hlen) (by rw [a1]; exact hmod) a3
    rw [a1] at g1
    refine ⟨fun _ => ⟨g1, ?_, a3⟩, fun h0 => by omega, by rw [a3]; omega, ?_⟩
    · rw [g1, List.get?_eq_get hmod]; rfl
    · rw [a3]
      have : max p.m_loops.length 1 = p.m_loops.length := by omega
      rw [this]; omega
  · have h0 : p.m_loops.length = 0 := by omega
    have hnil : p.m_loops = [] := List.length_eq_zero.mp h0
    rw [calls_empty i p hnil]
    refine ⟨fun h => absurd h hn, fun _ => ?_, by rw [hnext], ?_⟩
    · unfold getNextLoop; rw [hnil]; rfl
    · rw [hnext, h0]; decide

theorem round_robin_witness :
    (getNextLoop (calls 4 examplePool)).1 = examplePool.m_loops.get? (4 % examplePool.m_loops.length)
    ∧ examplePool.m_loops.get? (4 % examplePool.m_loops.length) = some 12 :=
  ⟨((round_robin examplePool 4 (by decide) (by decide)).1 (by decide)).1, by decide⟩

end EventLoopThreadPool

/-! ## Connector: the dispatch of the channel -/

namespace Connector

/-- C29 evaluated: a connector in kConnecting gets one dispatch whose revents
hold WRITE and ERROR (the mask that parsePollEvent makes of POLLOUT | POLLERR)
with SO_ERROR set. The write callback runs first, removes the channel, closes
the descriptor and schedules a retry, leaving kDisconnected; the error callback
of the same dispatch then runs against the assertion at its head, removes the
channel a second time, closes the descriptor a second time and schedules a
second retry. -/
theorem handleError_after_handleWrite :
    exampleConnecting.m_state = States.kConnecting ∧
    PollPoller.parsePollEvent (Int.lor POLLOUT POLLERR) =
      Int.lor EVENT_TYPE_WRITE EVENT_TYPE_ERROR ∧
    (handleWrite exampleConnecting { err := ECONNREFUSED }).m_state = States.kDisconnected ∧
    ¬ handleError_pre (handleWrite exampleConnecting { err := ECONNREFUSED }) ∧
    removals (dispatch exampleConnecting (Int.lor EVENT_TYPE_WRITE EVENT_TYPE_ERROR)
      { err := ECONNREFUSED }).log = [3, 3] ∧
    closed (dispatch exampleConnecting (Int.lor EVENT_TYPE_WRITE EVENT_TYPE_ERROR)
      { err := ECONNREFUSED }).log = [3, 3] ∧
    delays (dispatch exampleConnecting (Int.lor EVENT_TYPE_WRITE EVENT_TYPE_ERROR)
      { err := ECONNREFUSED }).log = [500, 1000] := by
  decide

theorem retry_count (c : Connector) (env : Env) (sockfd : Int) :
    (delays (retry c env sockfd).log).length ≤ (delays c.log).length + 1 ∧
    attempts (retry c env sockfd).log = attempts c.log ∧
    inFlight (retry c env sockfd) = 0 := by
  obtain ⟨_, hs, _, h1, h2⟩ := retry_spec c env sockfd
  refine ⟨?_, ?_, ?_⟩
  · cases hc : c.m_connect
    · rw [(h2 hc).1, delays_append]; simp [delays]
    · rw [(h1 hc).1, delays_append]; simp [delays]
  · cases hc : c.m_connect
    · rw [(h2 hc).1, attempts_append]; simp [attempts]
    · rw [(h1 hc).1, attempts_append]; simp [attempts]
  · unfold inFlight; rw [hs]; rfl

theorem removeAndResetChannel_count (c : Connector) (ch : Channel) :
    delays (removeAndResetChannel c ch).1.log = delays c.log ∧
    attempts (removeAndResetChannel c ch).1.log = attempts c.log ∧
    (removeAndResetChannel c ch).1.m_state = c.m_state := by
  unfold removeAndResetChannel
  simp [delays_append, attempts_append, delays, attempts]

/-- A call that is not start, stop or restart, and that is not a handleError
outside kConnecting, keeps the retries scheduled within the attempts made: the
delays handed to runAfter, plus the attempt in progress, are no more than the
descriptors tried. -/
theorem step_count (c : Connector) (e : Event) (h : e.isControl = false)
    (ha : ∀ env, e = Event.handleError env → handleError_pre c)
    (hi : (delays c.log).length + inFlight c ≤ (attempts c.log).length) :
    (delays (step c e).log).length + inFlight (step c e) ≤ (attempts (step c e).log).length := by
  cases e with
  | start env => cases h
  | stop => cases h
  | restart env => cases h
  | resetChannel => exact hi
  | startInLoop env =>
    show (delays (startInLoop c env).log).length + inFlight (startInLoop c env) ≤
      (attempts (startInLoop c env).log).length
    unfold startInLoop
    split_ifs with hc
    · unfold connect
      simp only []
      have hin : inFlight c ≤ 1 := by unfold inFlight; split_ifs <;> omega
      split_ifs
      · unfold connecting setState inFlight
        simp [delays_append, attempts_append, delays, attempts]
        omega
      · obtain ⟨r1, r2, r3⟩ := retry_count { c with log := c.log ++ [Effect.connect env.sockfd] }
          env env.sockfd
        rw [r2, r3]
        simp [delays_append, attempts_append, delays, attempts] at r1 ⊢
        omega
      · unfold inFlight at hi ⊢
        simp [delays_append, attempts_append, delays, attempts]
        split_ifs at hi ⊢ <;> omega
      · unfold inFlight at hi ⊢
        simp [delays_append, attempts_append, delays, attempts]
        split_ifs at hi ⊢ <;> omega
    · exact hi
  | stopInLoop env =>
    show (delays (stopInLoop c env).log).length + inFlight (stopInLoop c env) ≤
      (attempts (stopInLoop c env).log).length
    unfold stopInLoop
    split_ifs with hs
    · split
      · exact hi
      · rename_i ch _
        simp only []
        obtain ⟨q1, q2, _⟩ := removeAndResetChannel_count (setState c States.kDisconnected) ch
        obtain ⟨r1, r2, r3⟩ := retry_count (removeAndResetChannel (setState c States.kDisconnected) ch).1
          env (removeAndResetChannel (setState c States.kDisconnected) ch).2
        rw [r2, r3, q2]
        rw [q1] at r1
        have hf : inFlight c = 1 := by unfold inFlight; rw [if_pos hs]
        have e1 : (setState c States.kDisconnected).log = c.log := rfl
        rw [e1] at r1 ⊢
        omega
    · exact hi
  | handleError env =>
    have hpre : c.m_state = States.kConnecting := ha env rfl
    show (delays (handleError c env).log).length + inFlight (handleError c env) ≤
      (attempts (handleError c env).log).length
    unfold handleError
    split
    · exact hi
    · rename_i ch _
      simp only []
      obtain ⟨q1, q2, _⟩ := removeAndResetChannel_count c ch
      obtain ⟨r1, r2, r3⟩ := retry_count (removeAndResetChannel c ch).1 env
        (removeAndResetChannel c ch).2
      rw [r2, r3, q2]
      rw [q1] at r1
      have hf : inFlight c = 1 := by unfold inFlight; rw [if_pos hpre]
      omega
  | handleWrite env =>
    show (delays (handleWrite c env).log).length + inFlight (handleWrite c env) ≤
      (attempts (handleWrite c env).log).length
    unfold handleWrite
    by_cases hs : c.m_state = States.kConnecting
    · rw [if_pos hs]
      split
      · exact hi
      · rename_i ch _
        simp only []
        obtain ⟨q1, q2, q3⟩ := removeAndResetChannel_count c ch
        obtain ⟨r1, r2, r3⟩ := retry_count (removeAndResetChannel c ch).1 env
          (removeAndResetChannel c ch).2
        rw [q1] at r1
        have hf : inFlight c = 1 := by unfold inFlight; rw [if_pos hs]
        by_cases he : env.err ≠ 0
        · rw [if_pos he, r2, r3, q2]; omega
        · rw [if_neg he]
          by_cases hself : isSelfConnect env.localaddr env.peeraddr = true
          · rw [if_pos hself, r2, r3, q2]; omega
          · rw [if_neg hself]
            split_ifs
            · unfold inFlight setState
              simp [delays_append, attempts_append, delays, attempts, q1, q2]
              omega
            · unfold inFlight setState
              simp [delays_append, attempts_append, delays, attempts, q1, q2]
              omega
    · rw [if_neg hs]
      exact hi

theorem run_count (events : List Event) :
    ∀ c : Connector, (∀ e ∈ events, e.isControl = false) → Asserted c events →
      (delays c.log).length + inFlight c ≤ (attempts c.log).length →
      (delays (run c events).log).length + inFlight (run c events) ≤
        (attempts (run c events).log).length := by
  induction events with
  | nil => intro c _ _ hi; exact hi
  | cons e es ih =>
    intro c hno ha hi
    exact ih (step c e) (fun e2 h2 => hno e2 (by simp [h2])) ha.2
      (step_count c e (hno e (by simp)) ha.1 hi)

/-- As long as every handleError finds its assertion true and neither start,
stop nor restart is called, the retries scheduled since start are no more than
the attempts made: with the schedule of the delays, the retry after the
(k+1)-th attempt waits at most min(500 * 2^k, 30000) ms. -/
theorem retries_within_attempts (env : Env) (events : List Event)
    (hno : ∀ e ∈ events, e.isControl = false)
    (ha : Asserted (start {} env) events) :
    (delays (run (start {} env) events).log).length ≤
      (attempts (run (start {} env) events).log).length := by
  have h0 := step_count { m_connect := true } (Event.startInLoop env) rfl
    (fun _ hf => by cases hf) (by decide)
  have h := run_count events (start {} env) hno ha h0
  omega

/-- C13 evaluated: a connector in kConnecting on descriptor 3 gets one dispatch
whose revents hold WRITE and ERROR with SO_ERROR = ECONNREFUSED. The one failed
attempt schedules two retries, after 500 and after 1000 ms, and leaves the
stored delay at 2000; when the second attempt, on descriptor 4, is refused, its
retry waits 2000 ms, where min(500 * 2^1, 30000) is 1000. With WRITE alone in
revents the same two attempts wait 500 and 1000 ms. -/
theorem backoff_two_retries_one_attempt :
    attempts exampleRefused.log = [3] ∧
    delays exampleRefused.log = [500, 1000] ∧
    exampleRefused.m_retryDelayMs = 2000 ∧
    attempts (startInLoop exampleRefused { sockfd := 4, ret := -1, errno := ECONNREFUSED }).log
      = [3, 4] ∧
    delays (startInLoop exampleRefused { sockfd := 4, ret := -1, errno := ECONNREFUSED }).log
      = [500, 1000, 2000] ∧
    schedule 1 = 1000 ∧
    delays (dispatch exampleConnecting EVENT_TYPE_WRITE { err := ECONNREFUSED }).log = [500] ∧
    (dispatch exampleConnecting EVENT_TYPE_WRITE { err := ECONNREFUSED }).m_retryDelayMs = 1000 ∧
    delays (startInLoop (dispatch exampleConnecting EVENT_TYPE_WRITE { err := ECONNREFUSED })
      { sockfd := 4, ret := -1, errno := ECONNREFUSED }).log = [500, 1000] := by
  decide

end Connector

namespace TimerQueue

/-! ## TimerQueue: getExpired -/

/-- On a list in ascending order, a test that passes down the order selects a
front part: takeWhile and dropWhile split the list into the elements that
pass and those that do not. -/
theorem takeWhile_ascending {α : Type} (R : α → α → Prop) (P : α → Bool) :
    ∀ l : List α, l.Pairwise R →
      (∀ a ∈ l, ∀ b ∈ l, R a b → P b = true → P a = true) →
      (∀ x, x ∈ l.takeWhile P ↔ x ∈ l ∧ P x = true) ∧
      (∀ x, x ∈ l.dropWhile P ↔ x ∈ l ∧ P x = false) := by
  intro l
  induction l with
  | nil => intro _ _; simp
  | cons y ys ih =>
    intro hpw hmono
    obtain ⟨hy, hys⟩ := List.pairwise_cons.mp hpw
    have ih2 := ih hys (fun a ha b hb => hmono a (List.mem_cons_of_mem _ ha) b
      (List.mem_cons_of_mem _ hb))
    cases hPy : P y
    · have hnone : ∀ x ∈ ys, P x = false := by
        intro x hx
        cases hPx : P x
        · rfl
        · have := hmono y (List.mem_cons_self _ _) x (List.mem_cons_of_mem _ hx) (hy x hx) hPx
          rw [hPy] at this; cases this
      constructor
      · intro x
        rw [List.takeWhile_cons, hPy]
        simp only [Bool.false_eq_true, if_false, List.not_mem_nil, false_iff, not_and,
          List.mem_cons]
        intro hx
        rcases hx with h | h
        · rw [h, hPy]; simp
        · rw [hnone x h]; simp
      · intro x
        rw [List.dropWhile_cons, hPy]
        simp only [Bool.false_eq_true, if_false, List.mem_cons]
        constructor
        · intro hx
          refine ⟨hx, ?_⟩
          rcases hx with h | h
          · rw [h]; exact hPy
          · exact hnone x h
        · intro hx; exact hx.1
    · constructor
      · intro x
        rw [List.takeWhile_cons, hPy]
        simp only [if_true, List.mem_cons]
        rw [(ih2.1 x)]
        constructor
        · intro hx
          rcases hx with h | h
          · rw [h]; exact ⟨Or.inl rfl, hPy⟩
          · exact ⟨Or.inr h.1, h.2⟩
        · intro hx
          rcases hx.1 with h | h
          · exact Or.inl h
          · exact Or.inr ⟨h, hx.2⟩
      · intro x
        rw [List.dropWhile_cons, hPy]
        simp only [if_true, List.mem_cons]
        rw [(ih2.2 x)]
        constructor
        · intro hx; exact ⟨Or.inr hx.1, hx.2⟩
        · intro hx
          rcases hx.1 with h | h
          · rw [h, hPy] at hx; cases hx.2
          · exact ⟨h, hx.2⟩

theorem entryLt_sentry (e : Nat × Nat) (now : Nat) (hp : e.2 < UINTPTR_MAX) :
    entryLt e (now, UINTPTR_MAX) = true ↔ e.1 ≤ now := by
  unfold entryLt
  simp only [Bool.or_eq_true, decide_eq_true_eq, Bool.and_eq_true, beq_iff_eq]
  constructor
  · intro h
    rcases h with h | h
    · omega
    · omega
  · intro h
    rcases Nat.lt_or_eq_of_le h with h1 | h1
    · exact Or.inl h1
    · exact Or.inr ⟨h1, hp⟩

theorem entryLt_fst (a b : Nat × Nat) (h : entryLt a b = true) : a.1 ≤ b.1 := by
  unfold entryLt at h
  simp only [Bool.or_eq_true, decide_eq_true_eq, Bool.and_eq_true, beq_iff_eq] at h
  omega

theorem eraseActive_fold_frame (pending : List (Nat × Nat)) : ∀ q : TimerQueue,
    (pending.foldl eraseActive q).m_timers = q.m_timers ∧
    (pending.foldl eraseActive q).m_activeTimers.Sublist q.m_activeTimers := by
  induction pending with
  | nil => intro q; exact ⟨rfl, List.Sublist.refl _⟩
  | cons x xs ih =>
    intro q
    rw [List.foldl_cons]
    obtain ⟨a1, a2⟩ := ih (eraseActive q x)
    have hstep : (eraseActive q x).m_timers = q.m_timers ∧
        (eraseActive q x).m_activeTimers.Sublist q.m_activeTimers := by
      unfold eraseActive
      split
      · exact ⟨rfl, List.Sublist.refl _⟩
      · exact ⟨rfl, List.erase_sublist _ _⟩
    exact ⟨a1.trans hstep.1, a2.trans hstep.2⟩

theorem snd_unique {α β : Type} (l : List (α × β)) (h : (l.map Prod.fst).Nodup)
    (p : α) (s s2 : β) (h1 : (p, s) ∈ l) (h2 : (p, s2) ∈ l) : s = s2 := by
  induction l with
  | nil => simp at h1
  | cons x xs ih =>
    rw [List.map_cons, List.nodup_cons] at h
    rcases List.mem_cons.mp h1 with e1 | e1 <;> rcases List.mem_cons.mp h2 with e2 | e2
    · have := e1.trans e2.symm
      exact (Prod.mk.inj this).2
    · exfalso; apply h.1
      have hm := List.mem_map_of_mem Prod.fst e2
      rw [← e1]; exact hm
    · exfalso; apply h.1
      have hm := List.mem_map_of_mem Prod.fst e1
      rw [← e2]; exact hm
    · exact ih h.2 e1 e2

/-- C25: for a queue whose two sets agree (each element refers to a live
Timer, no timer is twice in a set, both hold the same timers), whose primary
set is in ascending order as a std::set is, and whose Timer pointers are below
UINTPTR_MAX, getExpired(now) returns exactly the entries with expiration <=
now, in ascending order; what it returns and what it leaves make up the
primary set as it was; every entry left expires after now; from the auxiliary
set it removes exactly the timers it returns; and the two sets agree
afterwards. -/
theorem getExpired_splits (q : TimerQueue) (now : Nat) (hc : Consistent q [])
    (hs : Ascending q.m_timers) (hp : ∀ e ∈ q.m_timers, e.2 < UINTPTR_MAX) :
    (∀ e, e ∈ (getExpired q now).1 ↔ e ∈ q.m_timers ∧ e.1 ≤ now) ∧
    Ascending (getExpired q now).1 ∧
    (getExpired q now).1 ++ (getExpired q now).2.m_timers = q.m_timers ∧
    (∀ e, e ∈ (getExpired q now).2.m_timers ↔ e ∈ q.m_timers ∧ now < e.1) ∧
    (∀ a, a ∈ (getExpired q now).2.m_activeTimers ↔
      a ∈ q.m_activeTimers ∧ a.1 ∉ (getExpired q now).1.map Prod.snd) ∧
    Agreement (getExpired q now).2 := by
  have hcons := getExpired_consistent q now hc
  rw [getExpired_eq] at hcons ⊢
  generalize hP : (fun e : Nat × Nat => entryLt e (now, UINTPTR_MAX)) = P at hcons ⊢
  have hPe : ∀ e, P e = entryLt e (now, UINTPTR_MAX) := fun e => by rw [← hP]
  have happ : q.m_timers.takeWhile P ++ q.m_timers.dropWhile P = q.m_timers :=
    List.takeWhile_append_dropWhile P q.m_timers
  have hmono : ∀ a ∈ q.m_timers, ∀ b ∈ q.m_timers, entryLt a b = true → P b = true →
      P a = true := by
    intro a ha b hb hab hPb
    rw [hPe, entryLt_sentry b now (hp b hb)] at hPb
    rw [hPe, entryLt_sentry a now (hp a ha)]
    exact le_trans (entryLt_fst a b hab) hPb
  obtain ⟨htw, hdw⟩ := takeWhile_ascending (fun a b => entryLt a b = true) P q.m_timers hs hmono
  obtain ⟨f1, f2⟩ := eraseActive_fold_frame (q.m_timers.takeWhile P)
    { q with m_timers := q.m_timers.dropWhile P }
  have f1b : (List.foldl eraseActive { q with m_timers := q.m_timers.dropWhile P }
      (q.m_timers.takeWhile P)).m_timers = q.m_timers.dropWhile P := f1
  have f2b : (List.foldl eraseActive { q with m_timers := q.m_timers.dropWhile P }
      (q.m_timers.takeWhile P)).m_activeTimers.Sublist q.m_activeTimers := f2
  have hnd := hc.timers_nodup
  unfold timerPtrs at hnd
  rw [← happ, List.map_append] at hnd
  have hdisj := (List.nodup_append.mp hnd).2.2
  have hsame := hcons.same
  have hperm : List.Perm
      (timerPtrs (List.foldl eraseActive { q with m_timers := q.m_timers.dropWhile P }
        (q.m_timers.takeWhile P)))
      (activePtrs (List.foldl eraseActive { q with m_timers := q.m_timers.dropWhile P }
        (q.m_timers.takeWhile P))) :=
    (List.perm_ext_iff_of_nodup hcons.timers_nodup hcons.active_nodup).mpr hsame
  have hlen : (List.foldl eraseActive { q with m_timers := q.m_timers.dropWhile P }
        (q.m_timers.takeWhile P)).m_timers.length =
      (List.foldl eraseActive { q with m_timers := q.m_timers.dropWhile P }
        (q.m_timers.takeWhile P)).m_activeTimers.length := by
    have := hperm.length_eq
    simpa [timerPtrs, activePtrs] using this
  refine ⟨?_, ?_, ?_, ?_, ?_, hlen, hsame⟩
  · intro e
    show e ∈ q.m_timers.takeWhile P ↔ _
    rw [htw e]
    constructor
    · intro h
      refine ⟨h.1, ?_⟩
      have := h.2
      rw [hPe, entryLt_sentry e now (hp e h.1)] at this
      exact this
    · intro h
      refine ⟨h.1, ?_⟩
      rw [hPe, entryLt_sentry e now (hp e h.1)]
      exact h.2
  · show Ascending (q.m_timers.takeWhile P)
    exact List.Pairwise.sublist (List.takeWhile_sublist P) hs
  · show q.m_timers.takeWhile P ++ _ = _
    rw [f1b]; exact happ
  · intro e
    rw [f1b, hdw e]
    constructor
    · intro h
      refine ⟨h.1, ?_⟩
      have h2 : ¬ P e = true := by rw [h.2]; exact Bool.false_ne_true
      rw [hPe, entryLt_sentry e now (hp e h.1)] at h2
      omega
    · intro h
      refine ⟨h.1, ?_⟩
      cases hPx : P e
      · rfl
      · rw [hPe, entryLt_sentry e now (hp e h.1)] at hPx
        omega
  · intro a
    show a ∈ _ ↔ a ∈ q.m_activeTimers ∧ a.1 ∉ (q.m_timers.takeWhile P).map Prod.snd
    constructor
    · intro ha
      refine ⟨f2b.subset ha, fun hex => ?_⟩
      have h1 : a.1 ∈ activePtrs (List.foldl eraseActive
          { q with m_timers := q.m_timers.dropWhile P } (q.m_timers.takeWhile P)) :=
        List.mem_map_of_mem Prod.fst ha
      have h2 := (hsame a.1).mpr h1
      unfold timerPtrs at h2
      rw [f1b] at h2
      exact hdisj hex h2
    · intro ha
      obtain ⟨ha1, ha2⟩ := ha
      have h1 : a.1 ∈ activePtrs q := List.mem_map_of_mem Prod.fst ha1
      have h2 := (hc.same a.1).mpr h1
      unfold timerPtrs at h2
      rw [← happ, List.map_append, List.mem_append] at h2
      rcases h2 with h2 | h2
      · exact absurd h2 ha2
      · have h3 : a.1 ∈ timerPtrs (List.foldl eraseActive
            { q with m_timers := q.m_timers.dropWhile P } (q.m_timers.takeWhile P)) := by
          unfold timerPtrs; rw [f1b]; exact h2
        have h4 := (hsame a.1).mp h3
        obtain ⟨s, hs4⟩ := (mem_activePtrs _ _).mp h4
        have h5 := f2b.subset hs4
        have hact := hc.active_nodup
        unfold activePtrs at hact
        have h6 : (a.1, a.2) ∈ q.m_activeTimers := ha1
        have := snd_unique q.m_activeTimers hact a.1 s a.2 h5 h6
        rw [this] at hs4
        exact hs4

theorem getExpired_splits_witness :
    Consistent exampleThree [] ∧ Ascending exampleThree.m_timers ∧
    (getExpired exampleThree 10).1 = [(5, 300), (10, 100)] ∧
    (getExpired exampleThree 10).2.m_timers = [(20, 200)] ∧
    (getExpired exampleThree 10).1 ++ (getExpired exampleThree 10).2.m_timers =
      exampleThree.m_timers := by
  have hr : Reached exampleThree [] :=
    Reached.addTimer .timerfd _ [] 300 3 5 0
      (Reached.addTimer .timerfd _ [] 200 2 20 0
        (Reached.addTimer .timerfd {} [] 100 1 10 5 Reached.empty (by decide)) (by decide))
      (by decide)
  have hc := reached_consistent exampleThree [] hr
  exact ⟨hc, by decide, by decide, by decide,
    (getExpired_splits exampleThree 10 hc (by decide) (by decide)).2.2.1⟩

theorem entryLt_trans (a b c : Nat × Nat) (h1 : entryLt a b = true) (h2 : entryLt b c = true) :
    entryLt a c = true := by
  unfold entryLt at *
  simp only [Bool.or_eq_true, decide_eq_true_eq, Bool.and_eq_true, beq_iff_eq] at *
  omega

theorem entryLt_total (a b : Nat × Nat) (hne : a ≠ b) (h : ¬ entryLt a b = true) :
    entryLt b a = true := by
  unfold entryLt at *
  simp only [Bool.or_eq_true, decide_eq_true_eq, Bool.and_eq_true, beq_iff_eq] at *
  have h2 : a.1 ≠ b.1 ∨ a.2 ≠ b.2 := by
    by_contra hc
    push_neg at hc
    exact hne (Prod.ext hc.1 hc.2)
  omega

theorem setEmplace_ascending (x : Nat × Nat) : ∀ xs : List (Nat × Nat),
    Ascending xs → Ascending (setEmplace entryLt x xs).1 := by
  intro xs
  induction xs with
  | nil => intro _; exact List.pairwise_singleton _ _
  | cons y ys ih =>
    intro h
    obtain ⟨hy, hys⟩ := List.pairwise_cons.mp h
    unfold setEmplace
    by_cases hxy : x = y
    · rw [if_pos hxy]; exact h
    · rw [if_neg hxy]
      by_cases hlt : entryLt x y = true
      · rw [if_pos hlt]
        refine List.pairwise_cons.mpr ⟨fun z hz => ?_, h⟩
        rcases List.mem_cons.mp hz with e | e
        · rw [e]; exact hlt
        · exact entryLt_trans x y z hlt (hy z e)
      · rw [if_neg hlt]
        refine List.pairwise_cons.mpr ⟨fun z hz => ?_, ih hys⟩
        rcases (mem_setEmplace_iff entryLt x z ys).mp hz with e | e
        · rw [e]; exact entryLt_total x y hxy hlt
        · exact hy z e

theorem insert_ascending (q : TimerQueue) (timer : Nat) (h : Ascending q.m_timers) :
    Ascending (insert q timer).1.m_timers := by
  unfold insert
  split
  · exact h
  · exact setEmplace_ascending _ _ h

theorem reset_ascending (batch : List (Nat × Nat)) (now : Nat) : ∀ q : TimerQueue,
    Ascending q.m_timers → Ascending (reset q batch now).m_timers := by
  induction batch with
  | nil => intro q h; exact h
  | cons it rest ih =>
    intro q h
    unfold reset
    rw [List.foldl_cons]
    apply ih
    split
    · exact h
    · simp only []
      split
      · exact insert_ascending _ _ h
      · exact h

/-- Every queue reached from the empty one keeps the primary set in ascending
order. -/
theorem reached_ascending (q : TimerQueue) (batch : List (Nat × Nat)) (h : Reached q batch) :
    Ascending q.m_timers := by
  induction h with
  | empty => exact List.Pairwise.nil
  | addTimer v q batch addr cb when interval _ _ ih =>
    have e : (addTimer v q addr cb when interval).2 =
        (insert (alloc { q with s_numCreated := q.s_numCreated + 1 } addr
          (Timer.ctor (q.s_numCreated + 1) cb when interval)) addr).1 := by
      unfold addTimer
      cases v <;> rfl
    rw [e]
    exact insert_ascending _ _ ih
  | cancel q batch id _ ih =>
    unfold cancel
    simp only []
    split
    · split
      · exact ih
      · exact List.Pairwise.sublist (List.erase_sublist _ _) ih
    · split
      · exact ih
      · exact ih
  | getExpired q now _ ih =>
    rw [getExpired_eq]
    rw [(eraseActive_fold_frame _ _).1]
    exact List.Pairwise.sublist (List.dropWhile_sublist _) ih
  | beginCalls q batch _ ih => exact ih
  | endCalls q batch _ ih => exact ih
  | reset q batch now _ ih => exact reset_ascending batch now q ih

end TimerQueue

namespace Buffer

/-- C26: on a buffer whose indices are in order (readerIndex <= writerIndex <=
size) and for a need with writableBytes() < need that stays inside size_t: if
writable + prependable >= need + 8, ensureWritableBytes(need) keeps the size of
the vector and moves the readable bytes so that readerIndex == 8 and
writerIndex == 8 + readable, and the assertion 8 < readerIndex of that branch
holds on entry; otherwise it resizes the vector to exactly writerIndex + need
and leaves both indices as they are. The readable bytes are the same
afterwards in both cases. -/
theorem growth_policy (b : Buffer) (need : Nat)
    (hrw : b.m_readerIndex ≤ b.m_writerIndex) (hws : b.m_writerIndex ≤ b.m_buffer.length)
    (hfit : Fits b need) (hw : writableBytes b < need) :
    (writableBytes b + prependableBytes b ≥ need + 8 →
      (ensureWritableBytes b need).m_buffer.length = b.m_buffer.length ∧
      (ensureWritableBytes b need).m_readerIndex = 8 ∧
      (ensureWritableBytes b need).m_writerIndex = 8 + readableBytes b ∧
      8 < b.m_readerIndex) ∧
    (writableBytes b + prependableBytes b < need + 8 →
      (ensureWritableBytes b need).m_buffer.length = b.m_writerIndex + need ∧
      (ensureWritableBytes b need).m_readerIndex = b.m_readerIndex ∧
      (ensureWritableBytes b need).m_writerIndex = b.m_writerIndex) ∧
    readable (ensureWritableBytes b need) = readable b := by
  have hM : sizeMod = 18446744073709551616 := rfl
  have h8 : initialPerpend = 8 := rfl
  obtain ⟨_, _, _, _, _, _, _, g8⟩ := ensureWritableBytes_spec b need hrw hws hfit
  unfold Fits at hfit
  have ewr : writableBytes b = b.m_buffer.length - b.m_writerIndex :=
    writableBytes_eq b hws (by omega)
  have erd : readableBytes b = b.m_writerIndex - b.m_readerIndex :=
    readableBytes_eq b hrw (by omega)
  have ea : addSz (writableBytes b) (prependableBytes b)
      = writableBytes b + prependableBytes b := by
    rw [ewr, prependableBytes]; exact addSz_eq _ _ (by omega)
  have eb : addSz need initialPerpend = need + 8 := addSz_eq _ _ (by omega)
  have hp : prependableBytes b = b.m_readerIndex := rfl
  refine ⟨fun hge => ?_, fun hlt => ?_, g8⟩
  · have hno : ¬ addSz (writableBytes b) (prependableBytes b) < addSz need initialPerpend := by
      rw [ea, eb]; omega
    have e : ensureWritableBytes b need =
        { m_buffer := copyWithin b.m_buffer b.m_readerIndex initialPerpend
            (b.m_writerIndex - b.m_readerIndex)
          m_readerIndex := initialPerpend
          m_writerIndex := addSz initialPerpend (readableBytes b) } := by
      unfold ensureWritableBytes
      rw [if_pos hw]
      unfold resize
      rw [if_neg hno]
    rw [e]
    refine ⟨?_, rfl, ?_, ?_⟩
    · show (copyWithin b.m_buffer b.m_readerIndex initialPerpend
        (b.m_writerIndex - b.m_readerIndex)).length = _
      rw [copyWithin_length]
    · show addSz initialPerpend (readableBytes b) = _
      rw [addSz_eq _ _ (by omega), h8]
    · have h1 := hge
      have h2 := hw
      rw [ewr] at h1 h2
      unfold prependableBytes at h1
      omega
  · have hyes : addSz (writableBytes b) (prependableBytes b) < addSz need initialPerpend := by
      rw [ea, eb]; exact hlt
    have e : ensureWritableBytes b need =
        { b with m_buffer := vecResize b.m_buffer (addSz b.m_writerIndex need) } := by
      unfold ensureWritableBytes
      rw [if_pos hw]
      unfold resize
      rw [if_pos hyes]
    rw [e]
    refine ⟨?_, rfl, rfl⟩
    show (vecResize b.m_buffer (addSz b.m_writerIndex need)).length = _
    rw [vecResize_length, addSz_eq _ _ (by omega)]

theorem growth_policy_witness :
    writableBytes sample + prependableBytes sample ≥ 5 + 8 ∧
    (ensureWritableBytes sample 5).m_buffer.length = sample.m_buffer.length ∧
    (ensureWritableBytes sample 5).m_readerIndex = 8 ∧
    (ensureWritableBytes sample 5).m_writerIndex = 8 + readableBytes sample ∧
    readable (ensureWritableBytes sample 5) = [7, 8, 9] := by
  have h := growth_policy sample 5 (by decide) (by decide) (by decide) (by decide)
  have h1 := h.1 (by decide)
  exact ⟨by decide, h1.1, h1.2.1, h1.2.2.1, h.2.2.trans (by decide)⟩

end Buffer

/-! ## PollPoller: several channels -/

theorem mapFind_eq_some (m : List (Int × Nat)) (h : (m.map Prod.fst).Nodup) (k : Int) (p : Nat) :
    mapFind m k = some p ↔ (k, p) ∈ m := by
  induction m with
  | nil => simp [mapFind]
  | cons x xs ih =>
    rw [List.map_cons, List.nodup_cons] at h
    unfold mapFind
    rw [List.find?_cons]
    by_cases hx : x.1 = k
    · have hb : (x.1 == k) = true := by rw [hx]; exact beq_self_eq_true k
      rw [hb]
      simp only [Option.map_some', Option.some.injEq, List.mem_cons]
      constructor
      · intro e; left; rw [← e, ← hx]
      · intro e
        rcases e with e | e
        · rw [← e]
        · exfalso; apply h.1
          have := List.mem_map_of_mem Prod.fst e
          rw [hx]; exact this
    · have hb : (x.1 == k) = false := by
        cases hbb : (x.1 == k)
        · rfl
        · exact absurd (eq_of_beq hbb) hx
      rw [hb]
      have := ih h.2
      unfold mapFind at this
      rw [this, List.mem_cons]
      constructor
      · intro e; exact Or.inr e
      · intro e
        rcases e with e | e
        · exfalso; apply hx; rw [← e]
        · exact e

theorem mapFind_eq_none (m : List (Int × Nat)) (k : Int) :
    mapFind m k = none ↔ k ∉ m.map Prod.fst := by
  induction m with
  | nil => simp [mapFind]
  | cons x xs ih =>
    unfold mapFind
    rw [List.find?_cons]
    by_cases hx : x.1 = k
    · have hb : (x.1 == k) = true := by rw [hx]; exact beq_self_eq_true k
      rw [hb]
      simp [hx]
    · have hb : (x.1 == k) = false := by
        cases hbb : (x.1 == k)
        · rfl
        · exact absurd (eq_of_beq hbb) hx
      rw [hb]
      unfold mapFind at ih
      rw [ih, List.map_cons, List.mem_cons]
      constructor
      · intro h1 h2
        rcases h2 with h2 | h2
        · exact hx h2.symm
        · exact h1 h2
      · intro h1 h2; exact h1 (Or.inr h2)

theorem mem_mapErase (m : List (Int × Nat)) (key k : Int) (p : Nat) :
    (k, p) ∈ mapErase m key ↔ (k, p) ∈ m ∧ k ≠ key := by
  unfold mapErase
  rw [List.mem_filter]
  simp

theorem mapErase_keys (m : List (Int × Nat)) (key : Int) (h : (m.map Prod.fst).Nodup) :
    ((mapErase m key).map Prod.fst).Nodup :=
  List.Nodup.sublist (List.Sublist.map Prod.fst (List.filter_sublist m)) h

theorem mapErase_length (m : List (Int × Nat)) (key : Int) (h : (m.map Prod.fst).Nodup)
    (hk : key ∈ m.map Prod.fst) : (mapErase m key).length + 1 = m.length := by
  induction m with
  | nil => simp at hk
  | cons x xs ih =>
    rw [List.map_cons, List.nodup_cons] at h
    unfold mapErase
    rw [List.filter_cons]
    by_cases hx : x.1 = key
    · have hb : (x.1 != key) = false := by simp [hx]
      rw [hb]
      simp only [Bool.false_eq_true, if_false, List.length_cons]
      have hall : ∀ y ∈ xs, (y.1 != key) = true := by
        intro y hy
        have : y.1 ≠ key := by
          intro e
          apply h.1
          rw [hx, ← e]
          exact List.mem_map_of_mem Prod.fst hy
        simp [this]
      rw [List.filter_eq_self.mpr hall]
    · have hb : (x.1 != key) = true := by simp [hx]
      rw [hb]
      simp only [if_true, List.length_cons]
      have hk2 : key ∈ xs.map Prod.fst := by
        rw [List.map_cons, List.mem_cons] at hk
        rcases hk with e | e
        · exact absurd e.symm hx
        · exact e
      have := ih h.2 hk2
      unfold mapErase at this
      omega

theorem mapAssign_fresh (m : List (Int × Nat)) (key : Int) (p : Nat)
    (h : key ∉ m.map Prod.fst) : mapAssign m key p = (key, p) :: m := by
  unfold mapAssign
  congr 1
  apply List.filter_eq_self.mpr
  intro y hy
  have : y.1 ≠ key := by
    intro e; apply h; rw [← e]; exact List.mem_map_of_mem Prod.fst hy
  simp [this]

namespace PollWorld

theorem owner_of (r : PollFd) (fd : Int) (h0 : 0 ≤ fd) (h : r.fd = fd ∨ r.fd = -fd - 1) :
    owner r = fd := by
  unfold owner
  rcases h with h | h
  · rw [h, if_neg (by omega)]
  · rw [h, if_pos (by omega)]; omega

theorem channel_store_same (w : PollWorld) (ptr : Nat) (c : Channel) :
    deref (store w ptr c) ptr = some c := by
  unfold deref store
  simp

theorem channel_store_ne (w : PollWorld) (ptr p2 : Nat) (c : Channel) (h : p2 ≠ ptr) :
    deref (store w ptr c) p2 = deref w p2 := by
  unfold deref store
  simp [h]

/-- PollPoller::updateChannel of a channel that has no index yet. -/
theorem updateChannel_new (p : PollPoller) (ptr : Nat) (c : Channel) (h : c.m_index < 0) :
    PollPoller.updateChannel p ptr c =
      ({ m_pollfds := p.m_pollfds ++
          [{ fd := c.m_fd, events := PollPoller.getPollEvent c.m_events, revents := 0 }]
         m_channels := mapAssign p.m_channels c.m_fd ptr },
        c.setIndex (p.m_pollfds.length : Int)) := by
  unfold PollPoller.updateChannel
  rw [if_pos h]
  simp only [List.length_append, List.length_singleton]
  congr 2
  push_cast
  omega

/-- PollPoller::updateChannel of a channel whose index has a record. -/
theorem updateChannel_old (p : PollPoller) (ptr : Nat) (c : Channel) (pfd : PollFd)
    (h : 0 ≤ c.m_index) (hg : p.m_pollfds.get? c.m_index.toNat = some pfd) :
    ∃ pfd2 : PollFd, (pfd2.fd = pfd.fd ∨ pfd2.fd = -c.m_fd - 1) ∧
      PollPoller.updateChannel p ptr c =
        ({ p with m_pollfds := p.m_pollfds.set c.m_index.toNat pfd2 }, c) := by
  unfold PollPoller.updateChannel
  rw [if_neg (by omega)]
  simp only [hg]
  by_cases hn : c.isNoneEvent = true
  · exact ⟨_, Or.inr (by rw [if_pos hn]), rfl⟩
  · exact ⟨_, Or.inl (by rw [if_neg hn]), rfl⟩

theorem add_sound (w : PollWorld) (ptr : Nat) (c : Channel) (hs : Sound w)
    (hfree : deref w ptr = none) (hidx : c.m_index = -1) (hfd : 0 ≤ c.m_fd)
    (hnew : mapFind w.poller.m_channels c.m_fd = none)
    (hsmall : w.poller.m_pollfds.length < 2147483647) :
    Sound (updateChannel (store w ptr c) ptr) := by
  have hfresh : c.m_fd ∉ w.poller.m_channels.map Prod.fst :=
    (mapFind_eq_none _ _).mp hnew
  have e : updateChannel (store w ptr c) ptr =
      store { store w ptr c with
        poller := { m_pollfds := w.poller.m_pollfds ++
            [{ fd := c.m_fd, events := PollPoller.getPollEvent c.m_events, revents := 0 }]
                    m_channels := (c.m_fd, ptr) :: w.poller.m_channels } }
        ptr (c.setIndex (w.poller.m_pollfds.length : Int)) := by
    unfold updateChannel
    rw [channel_store_same]
    simp only []
    have hp : (store w ptr c).poller = w.poller := rfl
    rw [hp, updateChannel_new _ _ _ (by omega), mapAssign_fresh _ _ _ hfresh]
  rw [e]
  generalize hw2 : store { store w ptr c with
        poller := { m_pollfds := w.poller.m_pollfds ++
            [{ fd := c.m_fd, events := PollPoller.getPollEvent c.m_events, revents := 0 }]
                    m_channels := (c.m_fd, ptr) :: w.poller.m_channels } }
        ptr (c.setIndex (w.poller.m_pollfds.length : Int)) = w2
  have hpoll : w2.poller.m_pollfds = w.poller.m_pollfds ++
      [{ fd := c.m_fd, events := PollPoller.getPollEvent c.m_events, revents := 0 }] := by
    rw [← hw2]; rfl
  have hmap : w2.poller.m_channels = (c.m_fd, ptr) :: w.poller.m_channels := by
    rw [← hw2]; rfl
  have hsame : deref w2 ptr = some (c.setIndex (w.poller.m_pollfds.length : Int)) := by
    rw [← hw2]; exact channel_store_same _ _ _
  have hother : ∀ p2, p2 ≠ ptr → deref w2 p2 = deref w p2 := by
    intro p2 h
    rw [← hw2]
    unfold deref store
    simp [h]
  have hlive : ∀ fd2 p2, (fd2, p2) ∈ w.poller.m_channels → p2 ≠ ptr := by
    intro fd2 p2 hm e
    obtain ⟨_, c2, hc2, _⟩ := hs.entries fd2 p2 hm
    rw [e, hfree] at hc2
    cases hc2
  refine ⟨?_, ?_, ?_, ?_, ?_⟩
  · rw [hpoll, List.length_append, List.length_singleton]; omega
  · rw [hpoll, hmap, List.length_append, List.length_singleton, List.length_cons, hs.sizes]
  · rw [hmap, List.map_cons, List.nodup_cons]
    exact ⟨hfresh, hs.keys⟩
  · intro fd2 p2 hm
    rw [hmap, List.mem_cons] at hm
    rcases hm with hm | hm
    · have e1 : fd2 = c.m_fd := (Prod.mk.inj hm).1
      have e2 : p2 = ptr := (Prod.mk.inj hm).2
      rw [e1, e2]
      refine ⟨hfd, _, hsame, rfl, ?_, ?_⟩
      · show (0 : Int) ≤ (w.poller.m_pollfds.length : Int)
        omega
      · refine ⟨⟨c.m_fd, PollPoller.getPollEvent c.m_events, 0⟩, ?_, Or.inl rfl⟩
        show w2.poller.m_pollfds.get? ((w.poller.m_pollfds.length : Int)).toNat = _
        rw [hpoll, Int.toNat_ofNat]
        simp
    · obtain ⟨h0, c2, hc2, hfd2, hi0, r, hr, hrfd⟩ := hs.entries fd2 p2 hm
      refine ⟨h0, c2, ?_, hfd2, hi0, r, ?_, hrfd⟩
      · rw [hother p2 (hlive fd2 p2 hm)]; exact hc2
      · rw [hpoll]
        have hlt : c2.m_index.toNat < w.poller.m_pollfds.length := by
          rw [List.get?_eq_some] at hr
          exact hr.1
        rw [List.get?_eq_getElem?, List.getElem?_append_left hlt, ← List.get?_eq_getElem?]
        exact hr
  · intro i r hr
    rw [hpoll] at hr
    by_cases hi : i < w.poller.m_pollfds.length
    · rw [List.get?_eq_getElem?, List.getElem?_append_left hi, ← List.get?_eq_getElem?] at hr
      obtain ⟨p2, c2, hm, hc2, hidx2⟩ := hs.records i r hr
      refine ⟨p2, c2, ?_, ?_, hidx2⟩
      · rw [hmap]; exact List.mem_cons_of_mem _ hm
      · rw [hother p2 (hlive _ p2 hm)]; exact hc2
    · have hlen := (List.get?_eq_some.mp hr).1
      rw [List.length_append, List.length_singleton] at hlen
      have hi2 : i = w.poller.m_pollfds.length := by omega
      rw [hi2] at hr
      simp at hr
      have hown : owner r = c.m_fd := by
        rw [← hr]; exact owner_of _ _ hfd (Or.inl rfl)
      refine ⟨ptr, _, ?_, hsame, ?_⟩
      · rw [hmap, hown]
        exact List.mem_cons_self _ _
      · rw [hi2]; rfl

theorem update_sound (w : PollWorld) (ptr : Nat) (c : Channel) (events : Int) (hs : Sound w)
    (hc : deref w ptr = some c) (hreg : mapFind w.poller.m_channels c.m_fd = some ptr) :
    Sound (updateChannel (store w ptr { c with m_events := events }) ptr) := by
  have hmem : (c.m_fd, ptr) ∈ w.poller.m_channels := (mapFind_eq_some _ hs.keys _ _).mp hreg
  obtain ⟨hfd, c0, hc0, _, hi0, r, hr, hrfd⟩ := hs.entries _ _ hmem
  have hcc : c0 = c := by rw [hc] at hc0; exact (Option.some.inj hc0).symm
  rw [hcc] at hi0 hr
  have hilt : c.m_index.toNat < w.poller.m_pollfds.length := (List.get?_eq_some.mp hr).1
  generalize hc1 : ({ c with m_events := events } : Channel) = c1
  have hc1i : c1.m_index = c.m_index := by rw [← hc1]
  have hc1f : c1.m_fd = c.m_fd := by rw [← hc1]
  obtain ⟨pfd2, hpfd2, hupd⟩ := updateChannel_old w.poller ptr c1 r (by rw [hc1i]; exact hi0)
    (by rw [hc1i]; exact hr)
  rw [hc1i] at hupd
  rw [hc1f] at hpfd2
  have e : updateChannel (store w ptr c1) ptr =
      store { store w ptr c1 with
        poller := { w.poller with m_pollfds := w.poller.m_pollfds.set c.m_index.toNat pfd2 } }
        ptr c1 := by
    unfold updateChannel
    rw [channel_store_same]
    simp only []
    have hp : (store w ptr c1).poller = w.poller := rfl
    rw [hp, hupd]
  rw [e]
  generalize hw2 : store { store w ptr c1 with
        poller := { w.poller with m_pollfds := w.poller.m_pollfds.set c.m_index.toNat pfd2 } }
        ptr c1 = w2
  have hpoll : w2.poller.m_pollfds = w.poller.m_pollfds.set c.m_index.toNat pfd2 := by
    rw [← hw2]; rfl
  have hmap : w2.poller.m_channels = w.poller.m_channels := by
    rw [← hw2]; rfl
  have hsame : deref w2 ptr = some c1 := by
    rw [← hw2]; exact channel_store_same _ _ _
  have hother : ∀ p2, p2 ≠ ptr → deref w2 p2 = deref w p2 := by
    intro p2 h
    rw [← hw2]
    unfold deref store
    simp [h]
  have hpfd : pfd2.fd = c.m_fd ∨ pfd2.fd = -c.m_fd - 1 := by
    rcases hpfd2 with h | h
    · rw [h]; exact hrfd
    · exact Or.inr h
  have hgetsame : w2.poller.m_pollfds.get? c.m_index.toNat = some pfd2 := by
    rw [hpoll, List.get?_eq_getElem?, List.getElem?_set_self hilt]
  have hgetne : ∀ j, j ≠ c.m_index.toNat →
      w2.poller.m_pollfds.get? j = w.poller.m_pollfds.get? j := by
    intro j hj
    rw [hpoll, List.get?_eq_getElem?, List.get?_eq_getElem?,
      List.getElem?_set_ne (fun h => hj h.symm)]
  refine ⟨?_, ?_, ?_, ?_, ?_⟩
  · rw [hpoll, List.length_set]; exact hs.small
  · rw [hpoll, hmap, List.length_set]; exact hs.sizes
  · rw [hmap]; exact hs.keys
  · intro fd2 p2 hm
    rw [hmap] at hm
    obtain ⟨h0, c2, hc2, hfd2, hi2, r2, hr2, hrfd2⟩ := hs.entries fd2 p2 hm
    by_cases hp : p2 = ptr
    · rw [hp] at hc2 ⊢
      have hc2c : c2 = c := by rw [hc] at hc2; exact (Option.some.inj hc2).symm
      rw [hc2c] at hfd2
      refine ⟨h0, c1, hsame, by rw [hc1f]; exact hfd2, by rw [hc1i]; exact hi0, pfd2, ?_, ?_⟩
      · rw [hc1i]; exact hgetsame
      · rw [← hfd2]; exact hpfd
    · refine ⟨h0, c2, by rw [hother p2 hp]; exact hc2, hfd2, hi2, r2, ?_, hrfd2⟩
      have hne : c2.m_index.toNat ≠ c.m_index.toNat := by
        intro heq
        rw [heq, hr] at hr2
        have hrr : r = r2 := Option.some.inj hr2
        have o1 := owner_of r c.m_fd hfd hrfd
        have o2 := owner_of r2 fd2 h0 hrfd2
        rw [← hrr, o1] at o2
        rw [← o2] at hm
        exact hp (TimerQueue.snd_unique _ hs.keys _ _ _ hm hmem)
      rw [hgetne _ hne]; exact hr2
  · intro j r2 hr2
    by_cases hj : j = c.m_index.toNat
    · rw [hj, hgetsame] at hr2
      have hrr : pfd2 = r2 := Option.some.inj hr2
      refine ⟨ptr, c1, ?_, hsame, ?_⟩
      · rw [hmap, ← hrr, owner_of pfd2 c.m_fd hfd hpfd]; exact hmem
      · rw [hc1i, hj]; omega
    · rw [hgetne j hj] at hr2
      obtain ⟨p3, c3, hm3, hc3, hi3⟩ := hs.records j r2 hr2
      have hp3 : p3 ≠ ptr := by
        intro heq
        rw [heq, hc] at hc3
        have : c = c3 := Option.some.inj hc3
        rw [← this] at hi3
        apply hj; omega
      exact ⟨p3, c3, by rw [hmap]; exact hm3, by rw [hother p3 hp3]; exact hc3, hi3⟩

/-- PollPoller::removeChannel of the channel whose record is the last one. -/
theorem removeChannel_last (w : PollWorld) (ptr : Nat) (c : Channel)
    (hc : deref w ptr = some c)
    (hts : toSizeT c.m_index = subSz w.poller.m_pollfds.length 1) :
    removeChannel w ptr =
      { w with poller := { m_pollfds := w.poller.m_pollfds.dropLast
                           m_channels := mapErase w.poller.m_channels c.m_fd } } := by
  unfold removeChannel
  rw [hc]
  simp only [hts, if_true]

/-- PollPoller::removeChannel of a channel whose record is not the last one. -/
theorem removeChannel_swap (w : PollWorld) (ptr pE : Nat) (c cE : Channel) (back r : PollFd)
    (hc : deref w ptr = some c)
    (hts : toSizeT c.m_index ≠ subSz w.poller.m_pollfds.length 1)
    (hgl : w.poller.m_pollfds.getLast? = some back)
    (hr : w.poller.m_pollfds.get? (toSizeT c.m_index) = some r)
    (hfind : mapFind (mapErase w.poller.m_channels c.m_fd) (owner back) = some pE)
    (hcE : deref w pE = some cE) :
    removeChannel w ptr =
      store { w with poller :=
        { m_pollfds := ((w.poller.m_pollfds.set (toSizeT c.m_index) back).set
            (w.poller.m_pollfds.length - 1) r).dropLast
          m_channels := mapErase w.poller.m_channels c.m_fd } }
        pE (cE.setIndex c.m_index) := by
  have hown : (if back.fd < 0 then -back.fd - 1 else back.fd) = owner back := rfl
  unfold removeChannel
  rw [hc]
  simp only [hts, if_false, hgl, hr, hown, hfind, hcE]

theorem get?_dropLast_lt {α : Type} (l : List α) (j : Nat) (hj : j < l.length - 1) :
    l.dropLast.get? j = l.get? j := by
  rw [List.get?_eq_getElem?, List.get?_eq_getElem?, List.getElem?_dropLast, if_pos hj]

/-- Two entries of the map whose records are the same record are the same
entry. -/
theorem entry_of_record (w : PollWorld) (hs : Sound w) (fd1 fd2 : Int) (p1 p2 : Nat)
    (c1 c2 : Channel) (r1 r2 : PollFd)
    (hm1 : (fd1, p1) ∈ w.poller.m_channels) (hm2 : (fd2, p2) ∈ w.poller.m_channels)
    (h01 : 0 ≤ fd1) (h02 : 0 ≤ fd2)
    (hr1 : w.poller.m_pollfds.get? c1.m_index.toNat = some r1)
    (hr2 : w.poller.m_pollfds.get? c2.m_index.toNat = some r2)
    (hf1 : r1.fd = fd1 ∨ r1.fd = -fd1 - 1) (hf2 : r2.fd = fd2 ∨ r2.fd = -fd2 - 1)
    (hidx : c1.m_index.toNat = c2.m_index.toNat) : fd1 = fd2 ∧ p1 = p2 := by
  rw [hidx, hr2] at hr1
  have hrr : r2 = r1 := Option.some.inj hr1
  have o1 := owner_of r1 fd1 h01 hf1
  have o2 := owner_of r2 fd2 h02 hf2
  rw [hrr, o1] at o2
  refine ⟨o2, ?_⟩
  rw [o2] at hm1
  exact TimerQueue.snd_unique _ hs.keys _ _ _ hm1 hm2

/-- A registered channel has the only entry of the map with its descriptor,
and the only record with its index. -/
theorem registered_facts (w : PollWorld) (ptr : Nat) (c : Channel) (hs : Sound w)
    (hc : deref w ptr = some c) (hmem : (c.m_fd, ptr) ∈ w.poller.m_channels) :
    0 ≤ c.m_fd ∧ 0 ≤ c.m_index ∧ c.m_index.toNat < w.poller.m_pollfds.length ∧
    (∃ r, w.poller.m_pollfds.get? c.m_index.toNat = some r ∧
      (r.fd = c.m_fd ∨ r.fd = -c.m_fd - 1)) ∧
    (∀ fd2 p2, (fd2, p2) ∈ w.poller.m_channels → fd2 ≠ c.m_fd →
      ∀ c2, deref w p2 = some c2 → c2.m_index.toNat ≠ c.m_index.toNat) ∧
    (∀ j r2, w.poller.m_pollfds.get? j = some r2 → j ≠ c.m_index.toNat →
      owner r2 ≠ c.m_fd) := by
  obtain ⟨hfd, c0, hc0, _, hi0, r, hr, hrfd⟩ := hs.entries _ _ hmem
  have hcc : c0 = c := by rw [hc] at hc0; exact (Option.some.inj hc0).symm
  rw [hcc] at hi0 hr
  have hilt : c.m_index.toNat < w.poller.m_pollfds.length := (List.get?_eq_some.mp hr).1
  refine ⟨hfd, hi0, hilt, ⟨r, hr, hrfd⟩, ?_, ?_⟩
  · intro fd2 p2 hm2 hne c2 hc2 heq
    obtain ⟨h0, c3, hc3, _, _, r2, hr2, hrfd2⟩ := hs.entries fd2 p2 hm2
    have hc32 : c3 = c2 := by rw [hc2] at hc3; exact (Option.some.inj hc3).symm
    rw [hc32] at hr2
    exact hne (entry_of_record w hs fd2 c.m_fd p2 ptr c2 c r2 r hm2 hmem h0 hfd hr2 hr hrfd2
      hrfd heq).1
  · intro j r2 hr2 hj heq
    obtain ⟨p3, c3, hm3, hc3, hi3⟩ := hs.records j r2 hr2
    rw [heq] at hm3
    have hp := TimerQueue.snd_unique _ hs.keys _ _ _ hm3 hmem
    rw [hp, hc] at hc3
    have : c = c3 := Option.some.inj hc3
    rw [← this] at hi3
    apply hj
    omega

/-- The poller after removeChannel of the channel whose record is the last
one. -/
theorem remove_last_sound (w w2 : PollWorld) (ptr : Nat) (c : Channel) (hs : Sound w)
    (hc : deref w ptr = some c) (hmem : (c.m_fd, ptr) ∈ w.poller.m_channels)
    (hlast : c.m_index.toNat = w.poller.m_pollfds.length - 1)
    (hpoll : w2.poller.m_pollfds = w.poller.m_pollfds.dropLast)
    (hmap : w2.poller.m_channels = mapErase w.poller.m_channels c.m_fd)
    (hderef : ∀ p, deref w2 p = deref w p) : Sound w2 := by
  obtain ⟨hfd, hi0, hilt, _, hothers, hrecs⟩ := registered_facts w ptr c hs hc hmem
  have hsm := hs.small
  have hkeyin : c.m_fd ∈ w.poller.m_channels.map Prod.fst := List.mem_map_of_mem Prod.fst hmem
  have hlenE := mapErase_length _ c.m_fd hs.keys hkeyin
  have hsz := hs.sizes
  refine ⟨?_, ?_, ?_, ?_, ?_⟩
  · rw [hpoll, List.length_dropLast]; omega
  · rw [hpoll, hmap, List.length_dropLast]; omega
  · rw [hmap]; exact mapErase_keys _ _ hs.keys
  · intro fd2 p2 hm
    rw [hmap] at hm
    obtain ⟨hm2, hne⟩ := (mem_mapErase _ _ _ _).mp hm
    obtain ⟨h0, c2, hc2, hfd2, hi2, r2, hr2, hrfd2⟩ := hs.entries fd2 p2 hm2
    have hi2lt : c2.m_index.toNat < w.poller.m_pollfds.length := (List.get?_eq_some.mp hr2).1
    have hne2 := hothers fd2 p2 hm2 hne c2 hc2
    refine ⟨h0, c2, by rw [hderef]; exact hc2, hfd2, hi2, r2, ?_, hrfd2⟩
    rw [hpoll, get?_dropLast_lt _ _ (by omega)]; exact hr2
  · intro j r2 hr2
    rw [hpoll] at hr2
    have hj : j < w.poller.m_pollfds.length - 1 := by
      have := (List.get?_eq_some.mp hr2).1
      rw [List.length_dropLast] at this; exact this
    rw [get?_dropLast_lt _ _ hj] at hr2
    obtain ⟨p3, c3, hm3, hc3, hi3⟩ := hs.records j r2 hr2
    refine ⟨p3, c3, ?_, by rw [hderef]; exact hc3, hi3⟩
    rw [hmap]
    exact (mem_mapErase _ _ _ _).mpr ⟨hm3, hrecs j r2 hr2 (by omega)⟩

/-- The channel whose record is the last one, when that is not the channel to
be removed: it is registered under the descriptor of the record. -/
theorem swap_target (w : PollWorld) (ptr : Nat) (c : Channel) (back : PollFd) (hs : Sound w)
    (hc : deref w ptr = some c) (hmem : (c.m_fd, ptr) ∈ w.poller.m_channels)
    (hne : c.m_index.toNat ≠ w.poller.m_pollfds.length - 1)
    (hback : w.poller.m_pollfds.get? (w.poller.m_pollfds.length - 1) = some back) :
    ∃ pE cE, (owner back, pE) ∈ w.poller.m_channels ∧ deref w pE = some cE ∧
      cE.m_index = ((w.poller.m_pollfds.length - 1 : Nat) : Int) ∧
      cE.m_fd = owner back ∧ 0 ≤ owner back ∧
      (back.fd = owner back ∨ back.fd = -owner back - 1) ∧
      owner back ≠ c.m_fd ∧
      mapFind (mapErase w.poller.m_channels c.m_fd) (owner back) = some pE := by
  obtain ⟨pE, cE, hmE, hcE, hiE⟩ := hs.records _ back hback
  obtain ⟨h0E, cE2, hcE2, hfdE, _, rE, hrE, hrfdE⟩ := hs.entries _ _ hmE
  have hcEE : cE2 = cE := by rw [hcE] at hcE2; exact (Option.some.inj hcE2).symm
  rw [hcEE] at hfdE hrE
  have hiEn : cE.m_index.toNat = w.poller.m_pollfds.length - 1 := by rw [hiE]; rfl
  rw [hiEn, hback] at hrE
  have hrEb : back = rE := Option.some.inj hrE
  rw [← hrEb] at hrfdE
  have hneE : owner back ≠ c.m_fd := by
    intro heq
    rw [heq] at hmE
    have hp := TimerQueue.snd_unique _ hs.keys _ _ _ hmE hmem
    rw [hp, hc] at hcE
    have : c = cE := Option.some.inj hcE
    rw [← this] at hiEn
    exact hne hiEn
  refine ⟨pE, cE, hmE, hcE, hiE, hfdE, h0E, hrfdE, hneE, ?_⟩
  exact (mapFind_eq_some _ (mapErase_keys _ _ hs.keys) _ _).mpr
    ((mem_mapErase _ _ _ _).mpr ⟨hmE, hneE⟩)

theorem lt_pred_of_ne (a n : Nat) (h1 : a < n) (h2 : a ≠ n - 1) : a < n - 1 := by
  omega

theorem pred_eq_of_succ_eq (a b n : Nat) (h1 : a + 1 = b) (h2 : b = n) : a = n - 1 := by
  omega

/-- The poller after removeChannel of a channel whose record is not the last
one: the last record has taken its place, and the channel of that record has
taken its index. -/
theorem remove_swap_sound (w w2 : PollWorld) (ptr pE : Nat) (c cE : Channel) (back : PollFd)
    (hs : Sound w) (hc : deref w ptr = some c) (hmem : (c.m_fd, ptr) ∈ w.poller.m_channels)
    (hne : c.m_index.toNat ≠ w.poller.m_pollfds.length - 1)
    (hback : w.poller.m_pollfds.get? (w.poller.m_pollfds.length - 1) = some back)
    (hmE : (owner back, pE) ∈ w.poller.m_channels) (hcE : deref w pE = some cE)
    (hiE : cE.m_index = ((w.poller.m_pollfds.length - 1 : Nat) : Int))
    (hlen2 : w2.poller.m_pollfds.length = w.poller.m_pollfds.length - 1)
    (hget : ∀ j, j < w.poller.m_pollfds.length - 1 →
      w2.poller.m_pollfds.get? j =
        if j = c.m_index.toNat then some back else w.poller.m_pollfds.get? j)
    (hmap : w2.poller.m_channels = mapErase w.poller.m_channels c.m_fd)
    (hsame : deref w2 pE = some (cE.setIndex c.m_index))
    (hother : ∀ p2, p2 ≠ pE → deref w2 p2 = deref w p2) : Sound w2 := by
  obtain ⟨hfd, hi0, hilt, _, hothers, hrecs⟩ := registered_facts w ptr c hs hc hmem
  obtain ⟨h0E, _, _, ⟨rE, hrE, hrfdE⟩, hothersE, _⟩ := registered_facts w pE cE hs hcE
    (by
      obtain ⟨_, c9, hc9, hfd9, _⟩ := hs.entries _ _ hmE
      have : c9 = cE := by rw [hcE] at hc9; exact (Option.some.inj hc9).symm
      rw [this] at hfd9
      rw [hfd9]; exact hmE)
  have hfdE : cE.m_fd = owner back := by
    obtain ⟨_, c9, hc9, hfd9, _⟩ := hs.entries _ _ hmE
    have : c9 = cE := by rw [hcE] at hc9; exact (Option.some.inj hc9).symm
    rw [this] at hfd9
    exact hfd9
  have hiEn : cE.m_index.toNat = w.poller.m_pollfds.length - 1 := by rw [hiE]; rfl
  rw [hiEn, hback] at hrE
  have hrEb : back = rE := Option.some.inj hrE
  rw [← hrEb, hfdE] at hrfdE
  rw [hfdE] at h0E
  have hsm := hs.small
  have hkeyin : c.m_fd ∈ w.poller.m_channels.map Prod.fst := List.mem_map_of_mem Prod.fst hmem
  have hlenE := mapErase_length _ c.m_fd hs.keys hkeyin
  have hsz := hs.sizes
  have hneE : owner back ≠ c.m_fd := by
    intro heq
    rw [heq] at hmE
    have hp := TimerQueue.snd_unique _ hs.keys _ _ _ hmE hmem
    rw [hp, hc] at hcE
    have : c = cE := Option.some.inj hcE
    rw [← this] at hiEn
    exact hne hiEn
  have hidxc : c.m_index = ((c.m_index.toNat : Nat) : Int) := (Int.toNat_of_nonneg hi0).symm
  refine ⟨?_, ?_, ?_, ?_, ?_⟩
  · rw [hlen2]; exact lt_of_le_of_lt (Nat.sub_le _ _) hsm
  · rw [hmap, hlen2]; exact pred_eq_of_succ_eq _ _ _ hlenE hsz
  · rw [hmap]; exact mapErase_keys _ _ hs.keys
  · intro fd2 p2 hm
    rw [hmap] at hm
    obtain ⟨hm2, hne2⟩ := (mem_mapErase _ _ _ _).mp hm
    obtain ⟨h0, c2, hc2, hfd2, hi2, r2, hr2, hrfd2⟩ := hs.entries fd2 p2 hm2
    have hidx2 := hothers fd2 p2 hm2 hne2 c2 hc2
    by_cases hp : p2 = pE
    · have hc2c : c2 = cE := by
        rw [hp, hcE] at hc2; exact (Option.some.inj hc2).symm
      have hfdeq : fd2 = owner back := by rw [← hfd2, hc2c]; exact hfdE
      rw [hp, hfdeq]
      refine ⟨h0E, cE.setIndex c.m_index, hsame, hfdE, hi0, back, ?_, hrfdE⟩
      show w2.poller.m_pollfds.get? c.m_index.toNat = some back
      rw [hget _ (lt_pred_of_ne _ _ hilt hne), if_pos rfl]
    · have hi2lt : c2.m_index.toNat < w.poller.m_pollfds.length :=
        (List.get?_eq_some.mp hr2).1
      have hne3 : c2.m_index.toNat ≠ w.poller.m_pollfds.length - 1 := by
        intro heq
        rw [heq, hback] at hr2
        have hbr : back = r2 := Option.some.inj hr2
        rw [← hbr] at hrfd2
        have o1 := owner_of back fd2 h0 hrfd2
        rw [← o1] at hm2
        exact hp (TimerQueue.snd_unique _ hs.keys _ _ _ hm2 hmE)
      refine ⟨h0, c2, by rw [hother p2 hp]; exact hc2, hfd2, hi2, r2, ?_, hrfd2⟩
      rw [hget _ (lt_pred_of_ne _ _ hi2lt hne3), if_neg hidx2]; exact hr2
  · intro j r2 hr2
    have hj : j < w.poller.m_pollfds.length - 1 := by
      have := (List.get?_eq_some.mp hr2).1
      rw [hlen2] at this; exact this
    rw [hget j hj] at hr2
    by_cases hji : j = c.m_index.toNat
    · rw [if_pos hji] at hr2
      have hrr : back = r2 := Option.some.inj hr2
      refine ⟨pE, cE.setIndex c.m_index, ?_, hsame, ?_⟩
      · rw [hmap, ← hrr]
        exact (mem_mapErase _ _ _ _).mpr ⟨hmE, hneE⟩
      · show c.m_index = (j : Int)
        rw [hji]; exact hidxc
    · rw [if_neg hji] at hr2
      obtain ⟨p3, c3, hm3, hc3, hi3⟩ := hs.records j r2 hr2
      have hp3 : p3 ≠ pE := by
        intro heq
        rw [heq, hcE] at hc3
        have : cE = c3 := Option.some.inj hc3
        rw [← this, hiE] at hi3
        exact absurd (Int.ofNat.inj hi3).symm (Nat.ne_of_lt hj)
      refine ⟨p3, c3, ?_, by rw [hother p3 hp3]; exact hc3, hi3⟩
      rw [hmap]
      exact (mem_mapErase _ _ _ _).mpr ⟨hm3, hrecs j r2 hr2 hji⟩

theorem remove_sound (w : PollWorld) (ptr : Nat) (c : Channel) (hs : Sound w)
    (hc : deref w ptr = some c) (hreg : mapFind w.poller.m_channels c.m_fd = some ptr) :
    Sound (removeChannel w ptr) ∧
    (∀ back : PollFd, c.m_index.toNat ≠ w.poller.m_pollfds.length - 1 →
      w.poller.m_pollfds.getLast? = some back →
      ∃ ptr2 c2, (owner back, ptr2) ∈ w.poller.m_channels ∧ deref w ptr2 = some c2 ∧
        c2.m_index = ((w.poller.m_pollfds.length - 1 : Nat) : Int) ∧
        deref (removeChannel w ptr) ptr2 = some (c2.setIndex c.m_index) ∧
        (removeChannel w ptr).poller.m_pollfds.get? c.m_index.toNat = some back) := by
  have hmem : (c.m_fd, ptr) ∈ w.poller.m_channels := (mapFind_eq_some _ hs.keys _ _).mp hreg
  obtain ⟨hfd, hi0, hilt, ⟨r, hr, hrfd⟩, _, _⟩ := registered_facts w ptr c hs hc hmem
  have hts : toSizeT c.m_index = c.m_index.toNat :=
    EventLoopThreadPool.toSizeT_of_nonneg _ hi0
      (lt_of_le_of_lt (Int.toNat_of_nonneg hi0 ▸ Int.ofNat_le.mpr (Nat.le_of_lt hilt))
        (Int.ofNat_lt.mpr hs.small))
  have hsub : subSz w.poller.m_pollfds.length 1 = w.poller.m_pollfds.length - 1 :=
    Buffer.subSz_eq _ _ (Nat.succ_le_of_lt (Nat.lt_of_le_of_lt (Nat.zero_le _) hilt))
      (lt_trans hs.small (by decide))
  by_cases hlast : c.m_index.toNat = w.poller.m_pollfds.length - 1
  · have e := removeChannel_last w ptr c hc (by rw [hts, hsub]; exact hlast)
    rw [e]
    exact ⟨remove_last_sound w _ ptr c hs hc hmem hlast rfl rfl (fun _ => rfl),
      fun back hne => absurd hlast hne⟩
  · have hn1 : w.poller.m_pollfds.length - 1 < w.poller.m_pollfds.length :=
      Nat.sub_lt (Nat.lt_of_le_of_lt (Nat.zero_le _) hilt) Nat.one_pos
    obtain ⟨back, hback⟩ : ∃ back, w.poller.m_pollfds.get? (w.poller.m_pollfds.length - 1)
        = some back := ⟨_, List.get?_eq_get hn1⟩
    have hgl : w.poller.m_pollfds.getLast? = some back := by
      rw [List.getLast?_eq_getElem?, ← List.get?_eq_getElem?]; exact hback
    obtain ⟨pE, cE, hmE, hcE, hiE, _, _, _, _, hfindE⟩ :=
      swap_target w ptr c back hs hc hmem hlast hback
    have e := removeChannel_swap w ptr pE c cE back r hc
      (by rw [hts, hsub]; exact hlast) hgl (by rw [hts]; exact hr) hfindE hcE
    rw [hts] at e
    rw [e]
    have hget : ∀ j, j < w.poller.m_pollfds.length - 1 →
        (((w.poller.m_pollfds.set c.m_index.toNat back).set
          (w.poller.m_pollfds.length - 1) r).dropLast).get? j =
          if j = c.m_index.toNat then some back else w.poller.m_pollfds.get? j := by
      intro j hj
      rw [get?_dropLast_lt _ _ (by rw [List.length_set, List.length_set]; exact hj),
        List.get?_eq_getElem?, List.getElem?_set_ne (Nat.ne_of_gt hj), List.getElem?_set]
      by_cases hji : j = c.m_index.toNat
      · rw [if_pos hji.symm, if_pos hilt, if_pos hji]
      · rw [if_neg (fun h => hji h.symm), if_neg hji, List.get?_eq_getElem?]
    have hsame : deref (store { w with poller :=
          { m_pollfds := ((w.poller.m_pollfds.set c.m_index.toNat back).set
              (w.poller.m_pollfds.length - 1) r).dropLast
            m_channels := mapErase w.poller.m_channels c.m_fd } }
          pE (cE.setIndex c.m_index)) pE = some (cE.setIndex c.m_index) :=
      channel_store_same _ _ _
    have hother : ∀ p2, p2 ≠ pE → deref (store { w with poller :=
          { m_pollfds := ((w.poller.m_pollfds.set c.m_index.toNat back).set
              (w.poller.m_pollfds.length - 1) r).dropLast
            m_channels := mapErase w.poller.m_channels c.m_fd } }
          pE (cE.setIndex c.m_index)) p2 = deref w p2 := by
      intro p2 h
      unfold deref store
      simp [h]
    refine ⟨remove_swap_sound w _ ptr pE c cE back hs hc hmem hlast hback hmE hcE hiE
      (by
        show (((w.poller.m_pollfds.set c.m_index.toNat back).set
          (w.poller.m_pollfds.length - 1) r).dropLast).length = _
        rw [List.length_dropLast, List.length_set, List.length_set])
      hget rfl hsame hother, ?_⟩
    intro back2 _ hgl2
    rw [hgl] at hgl2
    have hbb : back = back2 := Option.some.inj hgl2
    rw [← hbb]
    exact ⟨pE, cE, hmE, hcE, hiE, hsame, by
      show (((w.poller.m_pollfds.set c.m_index.toNat back).set
          (w.poller.m_pollfds.length - 1) r).dropLast).get? c.m_index.toNat = some back
      rw [hget _ (lt_pred_of_ne _ _ hilt hlast), if_pos rfl]⟩

theorem reached_sound (w : PollWorld) (h : Reached w) : Sound w := by
  induction h with
  | empty =>
    refine ⟨by decide, rfl, List.nodup_nil, ?_, ?_⟩
    · intro fd ptr hm
      have hm2 : (fd, ptr) ∈ ([] : List (Int × Nat)) := hm
      simp at hm2
    · intro i r hr
      have hr2 : ([] : List PollFd).get? i = some r := hr
      simp at hr2
  | add w ptr c _ hfree hidx hfd hnew hsmall ih =>
    exact add_sound w ptr c ih hfree hidx hfd hnew hsmall
  | update w ptr c events _ hc hreg ih => exact update_sound w ptr c events ih hc hreg
  | remove w ptr c _ hc hreg _ ih => exact (remove_sound w ptr c ih hc hreg).1

/-- C27: starting from an empty poller, after every updateChannel of a new
channel, every change of the mask of a registered channel and every
removeChannel of a registered channel with an empty mask, the map from
descriptor to channel and the pollfd vector have the same number of entries,
and every registered channel has an index inside the vector whose record has
the descriptor of the channel, as fd or as -fd - 1. When removeChannel takes
a channel that is not at the end, the channel of the record at the end gets
the index of the removed one, and its record is there. -/
theorem bookkeeping_invariant (w : PollWorld) (h : Reached w) :
    Bookkeeping w ∧
    (∀ (ptr : Nat) (c1 : Channel) (last : PollFd),
      deref w ptr = some c1 → mapFind w.poller.m_channels c1.m_fd = some ptr →
      c1.m_index.toNat ≠ w.poller.m_pollfds.length - 1 →
      w.poller.m_pollfds.getLast? = some last →
      ∃ ptr2 c2, (owner last, ptr2) ∈ w.poller.m_channels ∧ deref w ptr2 = some c2 ∧
        c2.m_index = ((w.poller.m_pollfds.length - 1 : Nat) : Int) ∧
        deref (removeChannel w ptr) ptr2 = some (c2.setIndex c1.m_index) ∧
        (removeChannel w ptr).poller.m_pollfds.get? c1.m_index.toNat = some last) := by
  have hs := reached_sound w h
  refine ⟨⟨hs.sizes, ?_⟩, ?_⟩
  · intro fd ptr hm
    obtain ⟨_, c, hc, hfd, hi0, r, hr, hrfd⟩ := hs.entries fd ptr hm
    have hlt := (List.get?_eq_some.mp hr).1
    exact ⟨c, hc, hfd, hi0, by omega, r, hr, hrfd⟩
  · intro ptr c1 last hc hreg hne hgl
    exact (remove_sound w ptr c1 hs hc hreg).2 last hne hgl

theorem bookkeeping_invariant_witness :
    Reached exampleRemoved ∧ Bookkeeping exampleRemoved ∧
    exampleRemoved.poller.m_channels = [(7, 3), (6, 2)] ∧
    exampleRemoved.poller.m_pollfds.map PollFd.fd = [7, 6] ∧
    (deref exampleRemoved 3).map Channel.m_index = some 0 := by
  have h1 : Reached (updateChannel (store {} 1 { m_fd := 5, m_events := EVENT_TYPE_READ }) 1) :=
    Reached.add {} 1 { m_fd := 5, m_events := EVENT_TYPE_READ } Reached.empty rfl rfl
      (by decide) (by decide) (by decide)
  have h2 : Reached (updateChannel (store
      (updateChannel (store {} 1 { m_fd := 5, m_events := EVENT_TYPE_READ }) 1)
      2 { m_fd := 6, m_events := EVENT_TYPE_READ }) 2) :=
    Reached.add _ 2 { m_fd := 6, m_events := EVENT_TYPE_READ } h1 (by decide) rfl
      (by decide) (by decide) (by decide)
  have h3 : Reached exampleRegistered :=
    Reached.add _ 3 { m_fd := 7, m_events := EVENT_TYPE_READ } h2 (by decide) rfl
      (by decide) (by decide) (by decide)
  have h4 : Reached exampleDisabled :=
    Reached.update exampleRegistered 1 exampleFirst EVENT_TYPE_NONE h3 (by decide) (by decide)
  have h5 : Reached exampleRemoved :=
    Reached.remove exampleDisabled 1 { exampleFirst with m_events := EVENT_TYPE_NONE } h4
      (by decide) (by decide) (by decide)
  exact ⟨h5, (bookkeeping_invariant exampleRemoved h5).1, by decide, by decide, by decide⟩

end PollWorld

end Ephemeral.Net
